import Mathlib

/-!
# RePlAce `PlacerBase`: a shallow embedding of `src/placerBase.{h,cpp}`

Conventions of the embedding.

* C++ `int` and `int64_t` values are mathematical integers (`Int`).  Signed
  overflow has no defined behaviour in C++, so the embedding describes the
  program on the executions in which every intermediate value fits its type.
  `/` and `%` on `int` truncate toward zero and are `Int.tdiv` / `Int.tmod`.
  Where a property is about the width of a result (`Net::hpwl`), the `int`
  operations are wrapped to 32 bits explicitly with `wrap32`.
* Objects that the source reaches through pointers live in stores (lists);
  a pointer is an index into its store and a null pointer is `none`.
* The OpenDB objects (`odb::dbRow`, `odb::dbInst`, ...) are an external
  library; they are modelled as records holding exactly the values the
  source reads through their accessors.
* A loop `for (int i = lo; i < hi; i++)` whose body does not assign `i` is
  `forRange lo hi`; a range-for over a container is a left fold.
* `initInstsForFragmentedRow` is embedded twice: as a total function over the
  mathematical integers, in which an access outside the site grid reads `Row`
  and writes nothing, and with the vector size and every index computed in
  32-bit `int`, every access checked and every loop of the scan given an
  iteration budget (`initInstsForFragmentedRowChecked`). The two agree when
  the number of sites fits an `int`.
-/

set_option autoImplicit false
set_option maxRecDepth 100000

namespace replace

/-! ## Machine constants -/

/-- The constant `INT_MAX` of a 32-bit `int`. -/
def INT_MAX : Int := 2147483647

/-- The constant `INT_MIN` of a 32-bit `int`. -/
def INT_MIN : Int := -2147483648

/-- The values a 32-bit `int` can hold. -/
def isInt32 (z : Int) : Prop := INT_MIN ≤ z ∧ z ≤ INT_MAX

instance (z : Int) : Decidable (isInt32 z) := by
  unfold isInt32; infer_instance

/-- The 32-bit `int` that a mathematical integer wraps to (two's complement):
the value a 32-bit machine leaves in the register when an `int` operation
overflows. -/
def wrap32 (z : Int) : Int := (z + 2147483648) % 4294967296 - 2147483648

/-- Loop `for (int i = lo; i < hi; i++) s = body(i, s)`. -/
def forRange {σ : Type} (lo hi : Int) (body : Int → σ → σ) (s : σ) : σ :=
  (List.range (hi - lo).toNat).foldl (fun acc (k : Nat) => body (lo + (k : Int)) acc) s

/-! ## The OpenDB records read by the source -/

/-- Modelled from the spec: the OpenDB rectangle `odb::Rect` / `odb::dbBox`
(section 3, "Rectangle"), of which src/ reads `xMin`, `yMin`, `xMax`, `yMax`;
the constructor `odb::Rect(x1, y1, x2, y2)` is taken to hold its four
arguments. -/
structure Rect where
  xMin : Int
  yMin : Int
  xMax : Int
  yMax : Int
deriving DecidableEq, Repr, Inhabited

/-- Width `getDX` of a box. -/
def Rect.getDX (r : Rect) : Int := r.xMax - r.xMin

/-- Height `getDY` of a box. -/
def Rect.getDY (r : Rect) : Int := r.yMax - r.yMin

/-- Modelled from the spec: the OpenDB enumeration `odb::dbPlacementStatus`;
src/ names exactly these seven values in `Instance::isFixed`. -/
inductive dbPlacementStatus where
  | NONE | UNPLACED | SUGGESTED | PLACED | LOCKED | FIRM | COVER
deriving DecidableEq, Repr, Inhabited

/-- Modelled from the spec: the OpenDB enumeration `odb::dbSigType` (section 6,
the signal-type tag of a net); src/ names `GROUND`, `POWER` and `RESET`. -/
inductive dbSigType where
  | SIGNAL | POWER | GROUND | CLOCK | ANALOG | RESET | SCAN | TIEOFF
deriving DecidableEq, Repr, Inhabited

/-- Modelled from the spec: an OpenDB row (section 6): its rectangle
(`getBBox`) and the width and height of its site (`getSite`). -/
structure dbRow where
  bbox : Rect
  siteWidth : Int
  siteHeight : Int
deriving DecidableEq, Repr, Inhabited

/-- Modelled from the spec: an OpenDB instance (section 6): placement status,
location (`getLocation`), bounding box (`getBBox`) and the width and height of
its master (`getMaster`). -/
structure dbInst where
  status : dbPlacementStatus
  locX : Int
  locY : Int
  bbox : Rect
  masterWidth : Int
  masterHeight : Int
deriving DecidableEq, Repr, Inhabited

/-- Modelled from the spec: an OpenDB instance terminal (section 6): the
instance it belongs to (`getInst`), the net it is connected to (`getNet`, null
when unconnected) and the shape boxes of its master pins
(`getMTerm()->getMPins()`, each with its `getGeometry()`). -/
structure dbITerm where
  inst : Nat
  net : Option Nat
  mPins : List (List Rect)
deriving DecidableEq, Repr, Inhabited

/-- Modelled from the spec: an OpenDB boundary terminal (section 6): the net
it is connected to and the boxes of its physical pins (`getBPins`, each with
one `getBox`). -/
structure dbBTerm where
  net : Option Nat
  bPins : List Rect
deriving DecidableEq, Repr, Inhabited

/-- Modelled from the spec: an OpenDB net (section 6): its signal type. Its
terminals are the terminals whose `net` is this net. -/
structure dbNet where
  sigType : dbSigType
deriving DecidableEq, Repr, Inhabited

/-- Modelled from the spec: the OpenDB block `db_->getChip()->getBlock()`
(section 6): chip outline, rows, instances, nets and terminals. A pointer to
one of its objects is the index of the object in its list. -/
structure dbBlock where
  bbox : Rect
  rows : List dbRow
  insts : List dbInst
  nets : List dbNet
  iTerms : List dbITerm
  bTerms : List dbBTerm
deriving DecidableEq, Repr, Inhabited

/-- The object a `dbInst*` points to. -/
def dbBlock.inst (db : dbBlock) (p : Nat) : dbInst := db.insts.getD p default

/-- The object a `dbITerm*` points to. -/
def dbBlock.iTerm (db : dbBlock) (p : Nat) : dbITerm := db.iTerms.getD p default

/-- The object a `dbBTerm*` points to. -/
def dbBlock.bTerm (db : dbBlock) (p : Nat) : dbBTerm := db.bTerms.getD p default

/-- The object a `dbNet*` points to. -/
def dbBlock.net (db : dbBlock) (p : Nat) : dbNet := db.nets.getD p default

/-- Accessor `dbNet::getITerms`: the instance terminals connected to net `n`. -/
def dbBlock.netITerms (db : dbBlock) (n : Nat) : List Nat :=
  (List.range db.iTerms.length).filter (fun t => decide ((db.iTerm t).net = some n))

/-- Accessor `dbNet::getBTerms`: the boundary terminals connected to net `n`. -/
def dbBlock.netBTerms (db : dbBlock) (n : Nat) : List Nat :=
  (List.range db.bTerms.length).filter (fun t => decide ((db.bTerm t).net = some n))

/-- Accessor `dbInst::getITerms`: the terminals of instance `i`. -/
def dbBlock.instITerms (db : dbBlock) (i : Nat) : List Nat :=
  (List.range db.iTerms.length).filter (fun t => decide ((db.iTerm t).inst = i))

/-! ## Instance and Pin -/

/-- The `void* term_` of a pin: a `dbITerm*` or a `dbBTerm*`. -/
inductive TermPtr where
  | iTerm (p : Nat)
  | bTerm (p : Nat)
deriving DecidableEq, Repr, Inhabited

/-- Class `Instance`: `inst_` is null for a dummy (filler) instance; `pins_`
holds pointers into the pin store. -/
structure Instance where
  inst_ : Option Nat
  pins_ : List Nat
  lx_ : Int
  ly_ : Int
  ux_ : Int
  uy_ : Int
  extId_ : Int
deriving DecidableEq, Repr, Inhabited

/-- Class `Pin`. -/
structure Pin where
  term_ : Option TermPtr
  inst_ : Option Nat
  net_ : Option Nat
  cx_ : Int
  cy_ : Int
  offsetCx_ : Int
  offsetCy_ : Int
  iTermField_ : Bool
  bTermField_ : Bool
  minPinXField_ : Bool
  minPinYField_ : Bool
  maxPinXField_ : Bool
  maxPinYField_ : Bool
deriving DecidableEq, Repr, Inhabited

/-- Constructor `Instance::Instance()`. -/
def Instance.mk0 : Instance :=
  { inst_ := none, pins_ := [], lx_ := 0, ly_ := 0, ux_ := 0, uy_ := 0, extId_ := INT_MIN }

/-- Constructor `Instance::Instance(odb::dbInst*)` for a real instance. -/
def Instance.ofDb (db : dbBlock) (p : Nat) : Instance :=
  let lx := (db.inst p).locX
  let ly := (db.inst p).locY
  { Instance.mk0 with
    inst_ := some p, lx_ := lx, ly_ := ly,
    ux_ := lx + (db.inst p).bbox.getDX, uy_ := ly + (db.inst p).bbox.getDY }

/-- Constructor `Instance::Instance(int lx, int ly, int ux, int uy)` for a
dummy instance. -/
def Instance.ofRect (lx ly ux uy : Int) : Instance :=
  { Instance.mk0 with inst_ := none, lx_ := lx, ly_ := ly, ux_ := ux, uy_ := uy }

/-- Method `Instance::isDummy`. -/
def Instance.isDummy (i : Instance) : Bool := i.inst_.isNone

/-- Method `Instance::isInstance`. -/
def Instance.isInstance (i : Instance) : Bool := i.inst_.isSome

/-- Method `Instance::isFixed`; `db` is the database `inst_` points into. -/
def Instance.isFixed (db : dbBlock) (i : Instance) : Bool :=
  match i.inst_ with
  | none => true
  | some p =>
    match (db.inst p).status with
    | .NONE | .UNPLACED | .SUGGESTED | .PLACED => false
    | .LOCKED | .FIRM | .COVER => true

/-- Method `Instance::isPlaceInstance`. -/
def Instance.isPlaceInstance (db : dbBlock) (i : Instance) : Bool :=
  i.isInstance && !(i.isFixed db)

/-- Method `Instance::lx`. -/
def Instance.lx (i : Instance) : Int := i.lx_

/-- Method `Instance::ly`. -/
def Instance.ly (i : Instance) : Int := i.ly_

/-- Method `Instance::ux`. -/
def Instance.ux (i : Instance) : Int := i.ux_

/-- Method `Instance::uy`. -/
def Instance.uy (i : Instance) : Int := i.uy_

/-- Method `Instance::cx`. -/
def Instance.cx (i : Instance) : Int := (i.lx_ + i.ux_).tdiv 2

/-- Method `Instance::cy`. -/
def Instance.cy (i : Instance) : Int := (i.ly_ + i.uy_).tdiv 2

/-- Method `Instance::dx`. -/
def Instance.dx (i : Instance) : Int := i.ux_ - i.lx_

/-- Method `Instance::dy`. -/
def Instance.dy (i : Instance) : Int := i.uy_ - i.ly_

/-- Method `Instance::addPin`. -/
def Instance.addPin (i : Instance) (pin : Nat) : Instance :=
  { i with pins_ := i.pins_ ++ [pin] }

/-- Method `Instance::setExtId`. -/
def Instance.setExtId (i : Instance) (extId : Int) : Instance :=
  { i with extId_ := extId }

/-- Constructor `Pin::Pin()`. -/
def Pin.mk0 : Pin :=
  { term_ := none, inst_ := none, net_ := none, cx_ := 0, cy_ := 0,
    offsetCx_ := 0, offsetCy_ := 0, iTermField_ := false, bTermField_ := false,
    minPinXField_ := false, minPinYField_ := false,
    maxPinXField_ := false, maxPinYField_ := false }

/-- Method `Pin::cx`. -/
def Pin.cx (p : Pin) : Int := p.cx_

/-- Method `Pin::cy`. -/
def Pin.cy (p : Pin) : Int := p.cy_

/-- Method `Pin::offsetCx`. -/
def Pin.offsetCx (p : Pin) : Int := p.offsetCx_

/-- Method `Pin::offsetCy`. -/
def Pin.offsetCy (p : Pin) : Int := p.offsetCy_

/-- Method `Pin::isITerm`. -/
def Pin.isITerm (p : Pin) : Bool := p.iTermField_

/-- Method `Pin::isBTerm`. -/
def Pin.isBTerm (p : Pin) : Bool := p.bTermField_

/-- Method `Pin::updateLocation`. -/
def Pin.updateLocation (p : Pin) (inst : Instance) : Pin :=
  { p with cx_ := inst.cx + p.offsetCx_, cy_ := inst.cy + p.offsetCy_ }

/-- Method `Pin::setInstance`. -/
def Pin.setInstance (p : Pin) (inst : Option Nat) : Pin := { p with inst_ := inst }

/-- Method `Pin::setNet`. -/
def Pin.setNet (p : Pin) (net : Option Nat) : Pin := { p with net_ := net }

/-- The loop `for (auto& pin : pins_) pin->updateLocation(this)` shared by the
two relocation methods; `pinStor` is the store the pin pointers point into. -/
def Instance.updatePins (inst : Instance) (pinStor : List Pin) : List Pin :=
  inst.pins_.foldl (fun ps k => ps.modify (fun p => p.updateLocation inst) k) pinStor

/-- Method `Instance::setLocation`: the new instance and the new pin store. -/
def Instance.setLocation (inst : Instance) (pinStor : List Pin) (x y : Int) :
    Instance × List Pin :=
  let ux := x + (inst.ux_ - inst.lx_)
  let uy := y + (inst.uy_ - inst.ly_)
  let moved : Instance := { inst with ux_ := ux, uy_ := uy, lx_ := x, ly_ := y }
  (moved, moved.updatePins pinStor)

/-- Method `Instance::setCenterLocation`: the new instance and the new pin
store. -/
def Instance.setCenterLocation (inst : Instance) (pinStor : List Pin) (x y : Int) :
    Instance × List Pin :=
  let halfX := (inst.ux_ - inst.lx_).tdiv 2
  let halfY := (inst.uy_ - inst.ly_).tdiv 2
  let moved : Instance :=
    { inst with lx_ := x - halfX, ly_ := y - halfY, ux_ := x + halfX, uy_ := y + halfY }
  (moved, moved.updatePins pinStor)

/-! ## Net -/

/-- Class `Net`: `net_` points to the database net, `pins_` into the pin
store (`addPin` is handed the result of a lookup, which may be null). -/
structure Net where
  net_ : Option Nat
  pins_ : List (Option Nat)
  lx_ : Int
  ly_ : Int
  ux_ : Int
  uy_ : Int
deriving DecidableEq, Repr, Inhabited

/-- Constructor `Net::Net()`. -/
def Net.mk0 : Net :=
  { net_ := none, pins_ := [], lx_ := 0, ly_ := 0, ux_ := 0, uy_ := 0 }

/-- The four statements `lx_ = std::min(box.xMin(), lx_); ...` of the loop
bodies of `Net::updateBox`. -/
def Net.extendBox (n : Net) (box : Rect) : Net :=
  { n with
    lx_ := min box.xMin n.lx_, ly_ := min box.yMin n.ly_,
    ux_ := max box.xMax n.ux_, uy_ := max box.yMax n.uy_ }

/-- Method `Net::updateBox`; `db` is the database `net_` points into. With a
null `net_` the source has no defined behaviour; the model then runs no loop
iteration. -/
def Net.updateBox (db : dbBlock) (n : Net) : Net :=
  let cleared : Net :=
    { n with lx_ := INT_MAX, ly_ := INT_MAX, ux_ := INT_MIN, uy_ := INT_MIN }
  match n.net_ with
  | none => cleared
  | some p =>
    let afterITerms := (db.netITerms p).foldl
      (fun m t => m.extendBox (db.inst (db.iTerm t).inst).bbox) cleared
    (db.netBTerms p).foldl
      (fun m b => (db.bTerm b).bPins.foldl (fun m2 box => m2.extendBox box) m) afterITerms

/-- Constructor `Net::Net(odb::dbNet*)`. -/
def Net.ofDb (db : dbBlock) (p : Nat) : Net :=
  Net.updateBox db { Net.mk0 with net_ := some p }

/-- Method `Net::addPin`. -/
def Net.addPin (n : Net) (pin : Option Nat) : Net := { n with pins_ := n.pins_ ++ [pin] }

/-- Method `Net::hpwl`: `static_cast<int64_t>((ux_-lx_) + (uy_-ly_))`. The two
differences and their sum are `int` operations; the conversion to `int64_t`
comes after them and keeps the value. -/
def Net.hpwl (n : Net) : Int :=
  wrap32 (wrap32 (n.ux_ - n.lx_) + wrap32 (n.uy_ - n.ly_))

/-- The box `(lx, ly, ux, uy)` of a net as a rectangle. -/
def Net.box (n : Net) : Rect := ⟨n.lx_, n.ly_, n.ux_, n.uy_⟩

/-- The rectangle `(lx, ly, ux, uy)` of an instance. -/
def Instance.rect (i : Instance) : Rect := ⟨i.lx_, i.ly_, i.ux_, i.uy_⟩

/-! ## Pin construction -/

/-- Method `Pin::updateCoordi(odb::dbITerm*)`. -/
def Pin.updateCoordiITerm (db : dbBlock) (pin : Pin) (iTerm : Nat) : Pin :=
  let start : Rect := ⟨INT_MAX, INT_MAX, INT_MIN, INT_MIN⟩
  let off : Rect := (db.iTerm iTerm).mPins.foldl
    (fun acc mPin => mPin.foldl
      (fun (a : Rect) box =>
        ⟨min box.xMin a.xMin, min box.yMin a.yMin, max box.xMax a.xMax, max box.yMax a.yMax⟩)
      acc) start
  let lx := (db.inst (db.iTerm iTerm).inst).bbox.xMin
  let ly := (db.inst (db.iTerm iTerm).inst).bbox.yMin
  let instCenterX := (db.inst (db.iTerm iTerm).inst).masterWidth.tdiv 2
  let instCenterY := (db.inst (db.iTerm iTerm).inst).masterHeight.tdiv 2
  let offsets : Int × Int :=
    if off.xMin = INT_MAX ∨ off.yMin = INT_MAX ∨ off.xMax = INT_MIN ∨ off.yMax = INT_MIN then
      (0, 0)
    else
      ((off.xMin + off.xMax).tdiv 2 - instCenterX, (off.yMin + off.yMax).tdiv 2 - instCenterY)
  { pin with
    offsetCx_ := offsets.1, offsetCy_ := offsets.2,
    cx_ := lx + instCenterX + offsets.1, cy_ := ly + instCenterY + offsets.2 }

/-- Method `Pin::updateCoordi(odb::dbBTerm*)`; the warning it logs for a
terminal without shapes is not part of the state. -/
def Pin.updateCoordiBTerm (db : dbBlock) (pin : Pin) (bTerm : Nat) : Pin :=
  let start : Rect := ⟨INT_MAX, INT_MAX, INT_MIN, INT_MIN⟩
  let b : Rect := (db.bTerm bTerm).bPins.foldl
    (fun (a : Rect) box =>
      ⟨min box.xMin a.xMin, min box.yMin a.yMin, max box.xMax a.xMax, max box.yMax a.yMax⟩)
    start
  { pin with
    offsetCx_ := 0, offsetCy_ := 0,
    cx_ := (b.xMin + b.xMax).tdiv 2, cy_ := (b.yMin + b.yMax).tdiv 2 }

/-- Constructor `Pin::Pin(odb::dbITerm*)`. -/
def Pin.ofITerm (db : dbBlock) (iTerm : Nat) : Pin :=
  Pin.updateCoordiITerm db
    { Pin.mk0 with iTermField_ := true, term_ := some (TermPtr.iTerm iTerm) } iTerm

/-- Constructor `Pin::Pin(odb::dbBTerm*)`. -/
def Pin.ofBTerm (db : dbBlock) (bTerm : Nat) : Pin :=
  Pin.updateCoordiBTerm db
    { Pin.mk0 with bTermField_ := true, term_ := some (TermPtr.bTerm bTerm) } bTerm

/-- Method `Pin::dbITerm`. -/
def Pin.dbITerm (p : Pin) : Option TermPtr := if p.isITerm then p.term_ else none

/-- Method `Pin::dbBTerm`. -/
def Pin.dbBTerm (p : Pin) : Option TermPtr := if p.isBTerm then p.term_ else none

/-! ## Die -/

/-- Class `Die`. -/
structure Die where
  dieLx_ : Int
  dieLy_ : Int
  dieUx_ : Int
  dieUy_ : Int
  coreLx_ : Int
  coreLy_ : Int
  coreUx_ : Int
  coreUy_ : Int
deriving DecidableEq, Repr, Inhabited

/-- Constructor `Die::Die()`. -/
def Die.mk0 : Die := ⟨0, 0, 0, 0, 0, 0, 0, 0⟩

/-- Constructor `Die::Die(dieBox, coreRect)`: `setDieBox` then `setCoreBox`. -/
def Die.ofBoxes (dieBox coreRect : Rect) : Die :=
  { dieLx_ := dieBox.xMin, dieLy_ := dieBox.yMin, dieUx_ := dieBox.xMax, dieUy_ := dieBox.yMax,
    coreLx_ := coreRect.xMin, coreLy_ := coreRect.yMin,
    coreUx_ := coreRect.xMax, coreUy_ := coreRect.yMax }

/-- Method `Die::coreLx`. -/
def Die.coreLx (d : Die) : Int := d.coreLx_

/-- Method `Die::coreLy`. -/
def Die.coreLy (d : Die) : Int := d.coreLy_

/-- Method `Die::coreUx`. -/
def Die.coreUx (d : Die) : Int := d.coreUx_

/-- Method `Die::coreUy`. -/
def Die.coreUy (d : Die) : Int := d.coreUy_

/-- The core rectangle held by a die. -/
def Die.coreRect (d : Die) : Rect := ⟨d.coreLx_, d.coreLy_, d.coreUx_, d.coreUy_⟩

/-! ## File-static helpers of `placerBase.cpp` -/

/-- Function `getCoreRectFromDb`: the loop over the rows updates
`(minX, minY, maxX, maxY)` from the sentinels, and the result is
`odb::Rect(minX, minY, maxX, maxY)`. -/
def getCoreRectFromDb (rows : List dbRow) : Rect :=
  rows.foldl
    (fun (m : Rect) row =>
      ⟨min row.bbox.xMin m.xMin, min row.bbox.yMin m.yMin,
       max row.bbox.xMax m.xMax, max row.bbox.yMax m.yMax⟩)
    ⟨INT_MAX, INT_MAX, INT_MIN, INT_MIN⟩

/-- Function `fastModulo`. -/
def fastModulo (input ceil : Int) : Int :=
  if input ≥ ceil then input.tmod ceil else input

/-- Function `getMinMaxIdx`. -/
def getMinMaxIdx (ll uu coreLL siteSize minIdx maxIdx : Int) : Int × Int :=
  let lowerIdx := (ll - coreLL).tdiv siteSize
  let upperIdx :=
    if fastModulo (uu - coreLL) siteSize = 0 then (uu - coreLL).tdiv siteSize
    else (uu - coreLL).tdiv siteSize + 1
  (max minIdx lowerIdx, min maxIdx upperIdx)

/-- Function `isCoreAreaOverlap`. -/
def isCoreAreaOverlap (die : Die) (inst : Instance) : Bool :=
  let rectLx := max die.coreLx inst.lx
  let rectLy := max die.coreLy inst.ly
  let rectUx := min die.coreUx inst.ux
  let rectUy := min die.coreUy inst.uy
  !(decide (rectLx ≥ rectUx) || decide (rectLy ≥ rectUy))

/-- Function `getOverlapWithCoreArea`. -/
def getOverlapWithCoreArea (die : Die) (inst : Instance) : Int :=
  let rectLx := max die.coreLx inst.lx
  let rectLy := max die.coreLy inst.ly
  let rectUx := min die.coreUx inst.ux
  let rectUy := min die.coreUy inst.uy
  (rectUx - rectLx) * (rectUy - rectLy)

/-! ## PlacerBase -/

/-- A `std::unordered_map` with keys `κ` and values `ν`, as an association
list that holds each key at most once. -/
abbrev PtrMap (κ ν : Type) := List (κ × ν)

/-- Assignment `m[k] = v`. -/
def PtrMap.assign {κ ν : Type} [DecidableEq κ] (m : PtrMap κ ν) (k : κ) (v : ν) : PtrMap κ ν :=
  (k, v) :: m.filter (fun e => decide (e.1 ≠ k))

/-- Lookup `m.find(k)`: `none` is `m.end()`. -/
def PtrMap.find {κ ν : Type} [DecidableEq κ] (m : PtrMap κ ν) (k : κ) : Option ν :=
  (List.find? (fun e => decide (e.1 = k)) m).map (fun e => e.2)

/-- Class `PlacerBase`. The logger is not part of the state; `db_` records
whether the database pointer is set, and the database it points to is passed
to the methods that read it. The lists of `Instance*`, `Pin*` and `Net*` hold
indices into `instStor_`, `pinStor_` and `netStor_`. -/
structure PlacerBase where
  db_ : Bool
  die_ : Die
  instStor_ : List Instance
  pinStor_ : List Pin
  netStor_ : List Net
  insts_ : List Nat
  pins_ : List Nat
  nets_ : List Nat
  instMap_ : PtrMap (Option Nat) Nat
  pinMap_ : PtrMap (Option TermPtr) Nat
  netMap_ : PtrMap Nat Nat
  placeInsts_ : List Nat
  fixedInsts_ : List Nat
  dummyInsts_ : List Nat
  nonPlaceInsts_ : List Nat
  siteSizeX_ : Int
  siteSizeY_ : Int
  placeInstsArea_ : Int
  nonPlaceInstsArea_ : Int
  macroInstsArea_ : Int
  stdInstsArea_ : Int
deriving DecidableEq, Repr, Inhabited

/-- Constructor `PlacerBase::PlacerBase()`. -/
def PlacerBase.mk0 : PlacerBase :=
  { db_ := false, die_ := Die.mk0, instStor_ := [], pinStor_ := [], netStor_ := [],
    insts_ := [], pins_ := [], nets_ := [], instMap_ := [], pinMap_ := [], netMap_ := [],
    placeInsts_ := [], fixedInsts_ := [], dummyInsts_ := [], nonPlaceInsts_ := [],
    siteSizeX_ := 0, siteSizeY_ := 0, placeInstsArea_ := 0, nonPlaceInstsArea_ := 0,
    macroInstsArea_ := 0, stdInstsArea_ := 0 }

/-- Method `PlacerBase::dbToPlace(odb::dbInst*)`. -/
def PlacerBase.dbToPlaceInst (pb : PlacerBase) (inst : Nat) : Option Nat :=
  pb.instMap_.find (some inst)

/-- Methods `PlacerBase::dbToPlace(odb::dbITerm*)` and
`PlacerBase::dbToPlace(odb::dbBTerm*)`, which look up the same map. -/
def PlacerBase.dbToPlaceTerm (pb : PlacerBase) (term : TermPtr) : Option Nat :=
  pb.pinMap_.find (some term)

/-- Method `PlacerBase::dbToPlace(odb::dbNet*)`. -/
def PlacerBase.dbToPlaceNet (pb : PlacerBase) (net : Nat) : Option Nat :=
  pb.netMap_.find net

/-! ### Fragmented rows -/

/-- The local enumeration `PlaceInfo` of `initInstsForFragmentedRow`. -/
inductive PlaceInfo where
  | Empty | Row | FixedInst
deriving DecidableEq, Repr, Inhabited

/-- Read `siteGrid[idx]`. An index outside the vector has no defined
behaviour; the model then reads `Row`, so that no run is started there. -/
def gridGet (grid : List PlaceInfo) (idx : Int) : PlaceInfo :=
  if 0 ≤ idx then grid.getD idx.toNat PlaceInfo.Row else PlaceInfo.Row

/-- Write `siteGrid[idx] = v`. An index outside the vector has no defined
behaviour; the model then leaves the grid as it is. -/
def gridSet (grid : List PlaceInfo) (idx : Int) (v : PlaceInfo) : List PlaceInfo :=
  if 0 ≤ idx then grid.set idx.toNat v else grid

/-- The double loop
`for (i = pairX.first; i < pairX.second; i++) for (j = pairY.first; j < pairY.second; j++) siteGrid[j * siteCountX + i] = v`. -/
def markCells (siteCountX : Int) (pairX pairY : Int × Int) (v : PlaceInfo)
    (grid : List PlaceInfo) : List PlaceInfo :=
  forRange pairX.1 pairX.2
    (fun i g => forRange pairY.1 pairY.2 (fun j g2 => gridSet g2 (j * siteCountX + i) v) g)
    grid

/-- Number `siteCountX` of grid columns. -/
def PlacerBase.siteCountX (pb : PlacerBase) : Int :=
  (pb.die_.coreUx - pb.die_.coreLx).tdiv pb.siteSizeX_

/-- Number `siteCountY` of grid rows. -/
def PlacerBase.siteCountY (pb : PlacerBase) : Int :=
  (pb.die_.coreUy - pb.die_.coreLy).tdiv pb.siteSizeY_

/-- The index range pair `(pairX, pairY)` that `initInstsForFragmentedRow`
computes for a rectangle with `getMinMaxIdx`. -/
def PlacerBase.idxRanges (pb : PlacerBase) (lx ly ux uy : Int) : (Int × Int) × (Int × Int) :=
  (getMinMaxIdx lx ux pb.die_.coreLx pb.siteSizeX_ 0 pb.siteCountX,
   getMinMaxIdx ly uy pb.die_.coreLy pb.siteSizeY_ 0 pb.siteCountY)

/-- The loop "fill in rows' bbox" of `initInstsForFragmentedRow`. -/
def PlacerBase.markRows (pb : PlacerBase) (db : dbBlock) (grid : List PlaceInfo) :
    List PlaceInfo :=
  db.rows.foldl
    (fun g row =>
      let pr := pb.idxRanges row.bbox.xMin row.bbox.yMin row.bbox.xMax row.bbox.yMax
      markCells pb.siteCountX pr.1 pr.2 PlaceInfo.Row g)
    grid

/-- The loop "fill fixed instances' bbox" of `initInstsForFragmentedRow`. -/
def PlacerBase.markFixed (pb : PlacerBase) (db : dbBlock) (grid : List PlaceInfo) :
    List PlaceInfo :=
  pb.instStor_.foldl
    (fun g inst =>
      if !(inst.isFixed db) then g
      else
        let pr := pb.idxRanges inst.lx inst.ly inst.ux inst.uy
        markCells pb.siteCountX pr.1 pr.2 PlaceInfo.FixedInst g)
    grid

/-- The site grid of `initInstsForFragmentedRow` after the rows and the fixed
instances have been marked. The vector has `siteCountX * siteCountY` cells,
the product taken over the mathematical integers: the value of the source
whenever the number of sites fits an `int` (`allocGrid` has the `int`
product). -/
def PlacerBase.siteGrid (pb : PlacerBase) (db : dbBlock) : List PlaceInfo :=
  pb.markFixed db
    (pb.markRows db (List.replicate (pb.siteCountX * pb.siteCountY).toNat PlaceInfo.Empty))

/-- The loop `while (i < siteCountX && siteGrid[j*siteCountX + i] == Empty) i++`:
the value of `i` when it ends. Each iteration increases `i`, so
`siteCountX - i` iterations are enough. -/
def scanWhile (grid : List PlaceInfo) (siteCountX j : Int) : Nat → Int → Int
  | 0, i => i
  | fuel + 1, i =>
    if i < siteCountX ∧ gridGet grid (j * siteCountX + i) = PlaceInfo.Empty then
      scanWhile grid siteCountX j fuel (i + 1)
    else i

/-- The loop `for (int i = 0; i < siteCountX; i++)` of the scan for one `j`,
from the current `i`, with the instance store it appends to. Each iteration
increases `i`, so `siteCountX - i` iterations are enough. -/
def PlacerBase.scanRow (pb : PlacerBase) (grid : List PlaceInfo) (j : Int) :
    Nat → Int → List Instance → List Instance
  | 0, _, stor => stor
  | fuel + 1, i, stor =>
    if i < pb.siteCountX then
      if gridGet grid (j * pb.siteCountX + i) = PlaceInfo.Empty then
        let startX := i
        let endX := scanWhile grid pb.siteCountX j (pb.siteCountX - i).toNat i
        let myInst := Instance.ofRect
          (pb.die_.coreLx + pb.siteSizeX_ * startX)
          (pb.die_.coreLy + pb.siteSizeY_ * j)
          (pb.die_.coreLx + pb.siteSizeX_ * endX)
          (pb.die_.coreLy + pb.siteSizeY_ * (j + 1))
        PlacerBase.scanRow pb grid j fuel (endX + 1) (stor ++ [myInst])
      else PlacerBase.scanRow pb grid j fuel (i + 1) stor
    else stor

/-- The scan `for (int j = 0; j < siteCountY; j++) for (int i = 0; ...)` of
`initInstsForFragmentedRow`, appending to the instance store `stor`. -/
def PlacerBase.scanGrid (pb : PlacerBase) (grid : List PlaceInfo) (stor : List Instance) :
    List Instance :=
  forRange 0 pb.siteCountY (fun j acc => pb.scanRow grid j pb.siteCountX.toNat 0 acc) stor

/-- Method `PlacerBase::initInstsForFragmentedRow`. -/
def PlacerBase.initInstsForFragmentedRow (pb : PlacerBase) (db : dbBlock) : PlacerBase :=
  { pb with instStor_ := pb.scanGrid (pb.siteGrid db) pb.instStor_ }

/-- The dummy instances that `initInstsForFragmentedRow` appends to the
instance store. -/
def PlacerBase.fillers (pb : PlacerBase) (db : dbBlock) : List Instance :=
  (pb.initInstsForFragmentedRow db).instStor_.drop pb.instStor_.length

/-! ### Fragmented rows, with every grid access checked

In this second embedding the size of `siteGrid` and every index into it are
the 32-bit `int` values that the source computes: a product or a sum that
leaves the range of `int` is wrapped with `wrap32`. -/

/-- What ends a checked run of `initInstsForFragmentedRow` early: a vector
size `siteCountX * siteCountY` that is negative as an `int`, an access
`siteGrid[j * siteCountX + i]` outside the grid, or a loop that has not ended
within its iteration budget. -/
inductive GridFault where
  | badLength
  | outOfBounds
  | outOfFuel
deriving DecidableEq, Repr, Inhabited

/-- The vector `siteGrid(siteCountX * siteCountY, Empty)`: the size argument is
the `int` product. A negative `int` converts to a size of at least `2^63`
elements, which no vector can hold. -/
def allocGrid (X Y : Int) : Except GridFault (List PlaceInfo) :=
  if 0 ≤ wrap32 (X * Y) then
    Except.ok (List.replicate (wrap32 (X * Y)).toNat PlaceInfo.Empty)
  else Except.error GridFault.badLength

/-- The `int` value of the index expression `j * siteCountX + i`. -/
def cellIndex (X i j : Int) : Int := wrap32 (wrap32 (j * X) + i)

/-- The access `siteGrid[j * siteCountX + i]` is inside a grid of `X` columns
and `Y` rows held in the vector `grid`: `0 ≤ i < X`, `0 ≤ j < Y`, the `int`
index lies in `[0, siteCountX * siteCountY)`, the product taken in `int` as
well, and the index is an index of the vector. -/
def cellInGrid (grid : List PlaceInfo) (X Y i j : Int) : Prop :=
  (0 ≤ i ∧ i < X) ∧ (0 ≤ j ∧ j < Y) ∧
  (0 ≤ cellIndex X i j ∧ cellIndex X i j < wrap32 (X * Y)) ∧
  cellIndex X i j < (grid.length : Int)

instance (grid : List PlaceInfo) (X Y i j : Int) : Decidable (cellInGrid grid X Y i j) := by
  unfold cellInGrid; infer_instance

/-- Read `siteGrid[j * siteCountX + i]`, checked. -/
def readCell (grid : List PlaceInfo) (X Y i j : Int) : Except GridFault PlaceInfo :=
  if cellInGrid grid X Y i j then Except.ok (gridGet grid (cellIndex X i j))
  else Except.error GridFault.outOfBounds

/-- Write `siteGrid[j * siteCountX + i] = v`, checked. -/
def writeCell (grid : List PlaceInfo) (X Y i j : Int) (v : PlaceInfo) :
    Except GridFault (List PlaceInfo) :=
  if cellInGrid grid X Y i j then Except.ok (gridSet grid (cellIndex X i j) v)
  else Except.error GridFault.outOfBounds

/-- The double loop of `markCells` with checked writes. -/
def markCellsChecked (X Y : Int) (pairX pairY : Int × Int) (v : PlaceInfo)
    (grid : Except GridFault (List PlaceInfo)) : Except GridFault (List PlaceInfo) :=
  forRange pairX.1 pairX.2
    (fun i g => forRange pairY.1 pairY.2
      (fun j g2 => g2.bind (fun cells => writeCell cells X Y i j v)) g)
    grid

/-- The loop "fill in rows' bbox" with checked writes. -/
def PlacerBase.markRowsChecked (pb : PlacerBase) (db : dbBlock)
    (grid : Except GridFault (List PlaceInfo)) : Except GridFault (List PlaceInfo) :=
  db.rows.foldl
    (fun g row =>
      let pr := pb.idxRanges row.bbox.xMin row.bbox.yMin row.bbox.xMax row.bbox.yMax
      markCellsChecked pb.siteCountX pb.siteCountY pr.1 pr.2 PlaceInfo.Row g)
    grid

/-- The loop "fill fixed instances' bbox" with checked writes. -/
def PlacerBase.markFixedChecked (pb : PlacerBase) (db : dbBlock)
    (grid : Except GridFault (List PlaceInfo)) : Except GridFault (List PlaceInfo) :=
  pb.instStor_.foldl
    (fun g inst =>
      if !(inst.isFixed db) then g
      else
        let pr := pb.idxRanges inst.lx inst.ly inst.ux inst.uy
        markCellsChecked pb.siteCountX pb.siteCountY pr.1 pr.2 PlaceInfo.FixedInst g)
    grid

/-- The loop `while (i < siteCountX && siteGrid[j*siteCountX + i] == Empty) i++`
with checked reads and an iteration budget: the cell is read only when
`i < siteCountX` holds. -/
def scanWhileChecked (grid : List PlaceInfo) (X Y j : Int) : Nat → Int → Except GridFault Int
  | 0, _ => Except.error GridFault.outOfFuel
  | fuel + 1, i =>
    if i < X then
      (readCell grid X Y i j).bind (fun cell =>
        if cell = PlaceInfo.Empty then scanWhileChecked grid X Y j fuel (i + 1)
        else Except.ok i)
    else Except.ok i

/-- The loop `for (int i = 0; i < siteCountX; i++)` of the scan for one `j`
with checked reads and an iteration budget, from the current `i`. -/
def PlacerBase.scanRowChecked (pb : PlacerBase) (grid : List PlaceInfo) (j : Int) :
    Nat → Int → List Instance → Except GridFault (List Instance)
  | 0, _, _ => Except.error GridFault.outOfFuel
  | fuel + 1, i, stor =>
    if i < pb.siteCountX then
      (readCell grid pb.siteCountX pb.siteCountY i j).bind (fun cell =>
        if cell = PlaceInfo.Empty then
          let startX := i
          (scanWhileChecked grid pb.siteCountX pb.siteCountY j (fuel + 1) i).bind (fun endX =>
            let myInst := Instance.ofRect
              (pb.die_.coreLx + pb.siteSizeX_ * startX)
              (pb.die_.coreLy + pb.siteSizeY_ * j)
              (pb.die_.coreLx + pb.siteSizeX_ * endX)
              (pb.die_.coreLy + pb.siteSizeY_ * (j + 1))
            PlacerBase.scanRowChecked pb grid j fuel (endX + 1) (stor ++ [myInst]))
        else PlacerBase.scanRowChecked pb grid j fuel (i + 1) stor)
    else Except.ok stor

/-- The scan of `initInstsForFragmentedRow` with checked reads; `fuel` is the
iteration budget of each loop over `i`. -/
def PlacerBase.scanGridChecked (pb : PlacerBase) (grid : List PlaceInfo) (fuel : Nat)
    (stor : List Instance) : Except GridFault (List Instance) :=
  forRange 0 pb.siteCountY
    (fun j acc => acc.bind (fun s => pb.scanRowChecked grid j fuel 0 s)) (Except.ok stor)

/-- Method `PlacerBase::initInstsForFragmentedRow` with the vector size and
every access to `siteGrid` checked and every loop of the scan over `i` given
the iteration budget `fuel`. -/
def PlacerBase.initInstsForFragmentedRowChecked (pb : PlacerBase) (db : dbBlock) (fuel : Nat) :
    Except GridFault PlacerBase :=
  (pb.markFixedChecked db
    (pb.markRowsChecked db (allocGrid pb.siteCountX pb.siteCountY))).bind
    (fun grid => (pb.scanGridChecked grid fuel pb.instStor_).bind
      (fun stor => Except.ok { pb with instStor_ := stor }))

/-! ### Construction -/

/-- A range-for `for (auto& x : xs)` whose body also uses the address of `x`:
a left fold that passes the index of each element, counted from `k`. -/
def foldlIdx {σ α : Type} (f : σ → Nat → α → σ) : Nat → σ → List α → σ
  | _, s, [] => s
  | k, s, a :: l => foldlIdx f (k + 1) (f s k a) l

/-- Body of the loop "init inst ptrs and areas" of `PlacerBase::init` for the
instance `inst` stored at index `k`. -/
def PlacerBase.initInstStep (db : dbBlock) (pb : PlacerBase) (k : Nat) (inst : Instance) :
    PlacerBase :=
  let pb1 : PlacerBase :=
    if inst.isInstance then
      let pb2 : PlacerBase :=
        if inst.isFixed db then
          if isCoreAreaOverlap pb.die_ inst then
            { pb with
              fixedInsts_ := pb.fixedInsts_ ++ [k],
              nonPlaceInsts_ := pb.nonPlaceInsts_ ++ [k],
              nonPlaceInstsArea_ := pb.nonPlaceInstsArea_ + getOverlapWithCoreArea pb.die_ inst }
          else pb
        else
          let instArea := inst.dx * inst.dy
          let pb3 : PlacerBase :=
            { pb with
              placeInsts_ := pb.placeInsts_ ++ [k],
              placeInstsArea_ := pb.placeInstsArea_ + instArea }
          if inst.dy > pb.siteSizeY_ * 6 then
            { pb3 with macroInstsArea_ := pb3.macroInstsArea_ + instArea }
          else
            { pb3 with stdInstsArea_ := pb3.stdInstsArea_ + instArea }
      { pb2 with instMap_ := pb2.instMap_.assign inst.inst_ k }
    else if inst.isDummy then
      { pb with
        dummyInsts_ := pb.dummyInsts_ ++ [k],
        nonPlaceInsts_ := pb.nonPlaceInsts_ ++ [k],
        nonPlaceInstsArea_ := pb.nonPlaceInstsArea_ + inst.dx * inst.dy }
    else pb
  { pb1 with insts_ := pb1.insts_ ++ [k] }

/-- The loop "init inst ptrs and areas" of `PlacerBase::init`. -/
def PlacerBase.initInstPtrs (pb : PlacerBase) (db : dbBlock) : PlacerBase :=
  foldlIdx (PlacerBase.initInstStep db) 0 pb pb.instStor_

/-- Body of the loop "nets fill" of `PlacerBase::init` for the database net
`net`. -/
def PlacerBase.initNetStep (db : dbBlock) (pb : PlacerBase) (net : Nat) : PlacerBase :=
  let netType := (db.net net).sigType
  if netType = dbSigType.GROUND ∨ netType = dbSigType.POWER ∨ netType = dbSigType.RESET then
    pb
  else
    let myNet := Net.ofDb db net
    let pb1 : PlacerBase := { pb with netStor_ := pb.netStor_ ++ [myNet] }
    let myNetPtr := pb1.netStor_.length - 1
    let pb2 : PlacerBase := { pb1 with netMap_ := pb1.netMap_.assign net myNetPtr }
    let pb3 : PlacerBase := (db.netITerms net).foldl
      (fun acc iTerm =>
        let myPin := ((Pin.ofITerm db iTerm).setNet (some myNetPtr)).setInstance
          (acc.dbToPlaceInst (db.iTerm iTerm).inst)
        { acc with pinStor_ := acc.pinStor_ ++ [myPin] })
      pb2
    (db.netBTerms net).foldl
      (fun acc bTerm =>
        let myPin := (Pin.ofBTerm db bTerm).setNet (some myNetPtr)
        { acc with pinStor_ := acc.pinStor_ ++ [myPin] })
      pb3

/-- The loop "nets fill" of `PlacerBase::init`. -/
def PlacerBase.initNets (pb : PlacerBase) (db : dbBlock) : PlacerBase :=
  (List.range db.nets.length).foldl (PlacerBase.initNetStep db) pb

/-- Body of the loop "pinMap_ and pins_ update" of `PlacerBase::init`. -/
def PlacerBase.initPinMapStep (pb : PlacerBase) (k : Nat) (pin : Pin) : PlacerBase :=
  let pb1 : PlacerBase :=
    if pin.isITerm then { pb with pinMap_ := pb.pinMap_.assign pin.dbITerm k }
    else if pin.isBTerm then { pb with pinMap_ := pb.pinMap_.assign pin.dbBTerm k }
    else pb
  { pb1 with pins_ := pb1.pins_ ++ [k] }

/-- The loop "pinMap_ and pins_ update" of `PlacerBase::init`. -/
def PlacerBase.initPinMap (pb : PlacerBase) : PlacerBase :=
  foldlIdx PlacerBase.initPinMapStep 0 pb pb.pinStor_

/-- The loop "nets' pin update" of `PlacerBase::init` for the net stored at
index `k`. -/
def PlacerBase.initNetPinsStep (db : dbBlock) (pb : PlacerBase) (k : Nat) (net : Net) :
    PlacerBase :=
  let withPins : Net :=
    match net.net_ with
    | none => net
    | some p =>
      let afterITerms := (db.netITerms p).foldl
        (fun (n : Net) iTerm => n.addPin (pb.dbToPlaceTerm (TermPtr.iTerm iTerm))) net
      (db.netBTerms p).foldl
        (fun (n : Net) bTerm => n.addPin (pb.dbToPlaceTerm (TermPtr.bTerm bTerm))) afterITerms
  { pb with netStor_ := pb.netStor_.set k withPins, nets_ := pb.nets_ ++ [k] }

/-- The loop "nets' pin update" of `PlacerBase::init`. -/
def PlacerBase.initNetPins (pb : PlacerBase) (db : dbBlock) : PlacerBase :=
  foldlIdx (PlacerBase.initNetPinsStep db) 0 pb pb.netStor_

/-- The statements of `PlacerBase::init` before the call of
`initInstsForFragmentedRow`: the die and core boxes, the site size read from
the first row `firstRow`, and one `Instance` per database instance. -/
def PlacerBase.initStor (pb : PlacerBase) (db : dbBlock) (firstRow : dbRow) : PlacerBase :=
  let pb1 : PlacerBase :=
    { pb with die_ := Die.ofBoxes db.bbox (getCoreRectFromDb db.rows) }
  let pb2 : PlacerBase :=
    { pb1 with siteSizeX_ := firstRow.siteWidth, siteSizeY_ := firstRow.siteHeight }
  { pb2 with
    instStor_ := pb2.instStor_ ++ (List.range db.insts.length).map (Instance.ofDb db) }

/-- The function applied to each stored instance by the loop "instStor_'s
pins_ fill" of `PlacerBase::init`. -/
def PlacerBase.fillInstPins (pb : PlacerBase) (db : dbBlock) (inst : Instance) : Instance :=
  if !inst.isInstance then inst
  else
    match inst.inst_ with
    | none => inst
    | some p =>
      (db.instITerms p).foldl
        (fun (i : Instance) iTerm =>
          match pb.dbToPlaceTerm (TermPtr.iTerm iTerm) with
          | some curPin => i.addPin curPin
          | none => i)
        inst

/-- The loop "instStor_'s pins_ fill" of `PlacerBase::init`. -/
def PlacerBase.initInstPins (pb : PlacerBase) (db : dbBlock) : PlacerBase :=
  { pb with instStor_ := pb.instStor_.map (pb.fillInstPins db) }

/-- Method `PlacerBase::init`, run on the object `pb`, up to its last
statement. That statement, `printInfo()`, changes no member: it logs and ends
the process when the utilization, computed in `float`, is at least `100.1`.
The result `none` stands for an execution without defined behaviour: with no
row the source dereferences `rows.begin()` of an empty set. -/
def PlacerBase.init (pb : PlacerBase) (db : dbBlock) : Option PlacerBase :=
  match db.rows with
  | [] => none
  | firstRow :: _ =>
    some ((((((pb.initStor db firstRow).initInstsForFragmentedRow db).initInstPtrs db).initNets
      db).initPinMap.initInstPins db).initNetPins db)

/-- Constructor `PlacerBase::PlacerBase(db, log)`. -/
def PlacerBase.ofDb (db : dbBlock) : Option PlacerBase :=
  PlacerBase.init { PlacerBase.mk0 with db_ := true } db

/-- Method `Instance::setLocation` on the instance stored at index `k` of a
model, whose pins live in the pin store of the model. -/
def PlacerBase.setLocation (pb : PlacerBase) (k : Nat) (x y : Int) : PlacerBase :=
  match pb.instStor_[k]? with
  | none => pb
  | some inst =>
    let r := inst.setLocation pb.pinStor_ x y
    { pb with instStor_ := pb.instStor_.set k r.1, pinStor_ := r.2 }

/-- Method `Instance::setCenterLocation` on the instance stored at index `k`
of a model, whose pins live in the pin store of the model. -/
def PlacerBase.setCenterLocation (pb : PlacerBase) (k : Nat) (x y : Int) : PlacerBase :=
  match pb.instStor_[k]? with
  | none => pb
  | some inst =>
    let r := inst.setCenterLocation pb.pinStor_ x y
    { pb with instStor_ := pb.instStor_.set k r.1, pinStor_ := r.2 }

/-- Method `PlacerBase::hpwl`: the model with every net of `nets_` refreshed,
and the returned sum. The sum is an `int64_t` accumulation of `int` values. -/
def PlacerBase.hpwl (pb : PlacerBase) (db : dbBlock) : PlacerBase × Int :=
  pb.nets_.foldl
    (fun (acc : PlacerBase × Int) k =>
      match acc.1.netStor_[k]? with
      | none => acc
      | some net =>
        let refreshed := net.updateBox db
        ({ acc.1 with netStor_ := acc.1.netStor_.set k refreshed }, acc.2 + refreshed.hpwl))
    (pb, 0)

/-- Method `PlacerBase::reset`. -/
def PlacerBase.reset (pb : PlacerBase) : PlacerBase :=
  { pb with
    db_ := false,
    instStor_ := [], pinStor_ := [], netStor_ := [],
    pins_ := [], nets_ := [], insts_ := [],
    instMap_ := [], pinMap_ := [], netMap_ := [],
    placeInsts_ := [], fixedInsts_ := [], nonPlaceInsts_ := [] }

/-! ## Notions used to state the properties -/

/-- The coordinates of a row rectangle are 32-bit `int` values. -/
def dbRow.isInt32 (r : dbRow) : Prop :=
  replace.isInt32 r.bbox.xMin ∧ replace.isInt32 r.bbox.yMin ∧
  replace.isInt32 r.bbox.xMax ∧ replace.isInt32 r.bbox.yMax

instance (r : dbRow) : Decidable r.isInt32 := by
  unfold dbRow.isInt32; infer_instance

/-- Rectangle `outer` contains rectangle `inner`. -/
def Rect.contains (outer inner : Rect) : Prop :=
  outer.xMin ≤ inner.xMin ∧ inner.xMax ≤ outer.xMax ∧
  outer.yMin ≤ inner.yMin ∧ inner.yMax ≤ outer.yMax

instance (a b : Rect) : Decidable (a.contains b) := by
  unfold Rect.contains; infer_instance

/-- The rectangle intersection of an instance with the core rectangle
(section 4.3 of the spec); it is a proper rectangle only when the two
overlap. -/
def coreIntersection (die : Die) (inst : Instance) : Rect :=
  ⟨max die.coreLx_ inst.lx_, max die.coreLy_ inst.ly_,
   min die.coreUx_ inst.ux_, min die.coreUy_ inst.uy_⟩

/-- A rectangle with a positive width and a positive height. -/
def Rect.hasArea (r : Rect) : Prop := r.xMin < r.xMax ∧ r.yMin < r.yMax

instance (r : Rect) : Decidable r.hasArea := by
  unfold Rect.hasArea; infer_instance

/-- The rectangle of the grid cell `(i, j)` of the site grid. -/
def PlacerBase.cellRect (pb : PlacerBase) (i j : Int) : Rect :=
  ⟨pb.die_.coreLx + pb.siteSizeX_ * i, pb.die_.coreLy + pb.siteSizeY_ * j,
   pb.die_.coreLx + pb.siteSizeX_ * (i + 1), pb.die_.coreLy + pb.siteSizeY_ * (j + 1)⟩

/-- Cell `(i, j)` lies in the index ranges `(pairX, pairY)`. -/
def inIdxRanges (pr : (Int × Int) × (Int × Int)) (i j : Int) : Prop :=
  (pr.1.1 ≤ i ∧ i < pr.1.2) ∧ (pr.2.1 ≤ j ∧ j < pr.2.2)

instance (pr : (Int × Int) × (Int × Int)) (i j : Int) : Decidable (inIdxRanges pr i j) := by
  unfold inIdxRanges; infer_instance

/-- Sum of the areas `dx * dy` of a list of instances. -/
def sumArea (l : List Instance) : Int := (l.map (fun i => i.dx * i.dy)).sum

/-- A signal type whose nets `PlacerBase::init` skips: ground, power or
reset. -/
def dbSigType.isSkipped (t : dbSigType) : Prop :=
  t = dbSigType.GROUND ∨ t = dbSigType.POWER ∨ t = dbSigType.RESET

instance (t : dbSigType) : Decidable t.isSkipped := by
  unfold dbSigType.isSkipped; infer_instance

/-- The net `nets()[k]` points to. -/
def PlacerBase.netAt (pb : PlacerBase) (k : Nat) : Net := pb.netStor_.getD k Net.mk0

/-- The union (bounding box) of two rectangles. -/
def Rect.join (a b : Rect) : Rect :=
  ⟨min a.xMin b.xMin, min a.yMin b.yMin, max a.xMax b.xMax, max a.yMax b.yMax⟩

/-- The union of a list of rectangles: their bounding box, the box of the
sentinels `(INT_MAX, INT_MAX, INT_MIN, INT_MIN)` when the list is empty. -/
def unionBoxes (boxes : List Rect) : Rect :=
  boxes.foldr Rect.join ⟨INT_MAX, INT_MAX, INT_MIN, INT_MIN⟩

/-- The rectangles that section 4.5 of the spec unites into the box of a net:
for each pin of the net, the current rectangle of the owning instance when it
is an instance-terminal pin, and the shape boxes of the terminal when it is a
boundary-terminal pin. -/
def PlacerBase.netBoxesSpec (pb : PlacerBase) (db : dbBlock) (n : Net) : List Rect :=
  n.pins_.flatMap (fun ptr =>
    match ptr with
    | none => []
    | some k =>
      match pb.pinStor_[k]? with
      | none => []
      | some pin =>
        if pin.isITerm then
          match pin.inst_ with
          | none => []
          | some i =>
            match pb.instStor_[i]? with
            | none => []
            | some inst => [inst.rect]
        else
          match pin.term_ with
          | some (TermPtr.bTerm b) => (db.bTerm b).bPins
          | _ => [])

/-- The rectangles that `Net::updateBox` reads for the database net `p`: the
database bounding box of the instance of each instance terminal, then the
boxes of the pins of each boundary terminal. -/
def dbBlock.netBoxes (db : dbBlock) (p : Nat) : List Rect :=
  (db.netITerms p).map (fun t => (db.inst (db.iTerm t).inst).bbox) ++
    (db.netBTerms p).flatMap (fun b => (db.bTerm b).bPins)

/-- The coordinates of a rectangle are 32-bit `int` values. -/
def Rect.isInt32 (r : Rect) : Prop :=
  replace.isInt32 r.xMin ∧ replace.isInt32 r.yMin ∧
  replace.isInt32 r.xMax ∧ replace.isInt32 r.yMax

instance (r : Rect) : Decidable r.isInt32 := by
  unfold Rect.isInt32; infer_instance

/-- The quotient `a / b` rounded down (toward minus infinity). -/
def floorDiv (a b : Int) : Int := Int.fdiv a b

/-- The quotient `a / b` rounded up (toward plus infinity). -/
def ceilDiv (a b : Int) : Int := -(Int.fdiv (-a) b)

/-- The value `x` clamped to the interval `[lo, hi]`. -/
def clamp (lo hi x : Int) : Int := max lo (min hi x)

/-- The index pair that the specification gives for `getMinMaxIdx` with the
lower bound `0`: floor and ceiling of the two quotients, each clamped to
`[0, siteCount]`. -/
def getMinMaxIdxSpec (lo hi coreLo siteSize siteCount : Int) : Int × Int :=
  (clamp 0 siteCount (floorDiv (lo - coreLo) siteSize),
   clamp 0 siteCount (ceilDiv (hi - coreLo) siteSize))

/-- Whether the instance loop of `init` counts an instance as a macro: it is
movable and `dy() > siteSizeY_ * 6`. -/
def macroCounted (db : dbBlock) (siteSizeY : Int) (inst : Instance) : Bool :=
  inst.isPlaceInstance db && decide (inst.dy > siteSizeY * 6)

/-- Whether the instance loop of `init` counts an instance as a standard cell:
it is movable and not `dy() > siteSizeY_ * 6`. -/
def stdCounted (db : dbBlock) (siteSizeY : Int) (inst : Instance) : Bool :=
  inst.isPlaceInstance db && !decide (inst.dy > siteSizeY * 6)

/-- The cells `[s, e)` of row `j` of a grid with `X` columns are a maximal
horizontal run of `Empty` cells: the run is not empty and lies in the row,
each of its cells is `Empty`, and the cell `s - 1` and the cell `e` are each
outside the row or not `Empty`. -/
def isMaximalRun (grid : List PlaceInfo) (X j s e : Int) : Prop :=
  0 ≤ s ∧ s < e ∧ e ≤ X ∧
  (∀ c, s ≤ c → c < e → gridGet grid (j * X + c) = PlaceInfo.Empty) ∧
  (s = 0 ∨ gridGet grid (j * X + (s - 1)) ≠ PlaceInfo.Empty) ∧
  (e = X ∨ gridGet grid (j * X + e) ≠ PlaceInfo.Empty)

/-- The dummy instance that the scan of `initInstsForFragmentedRow` makes for
the run `r = (j, startX, endX)`. -/
def PlacerBase.fillerOfRun (pb : PlacerBase) (r : Int × Int × Int) : Instance :=
  Instance.ofRect
    (pb.die_.coreLx + pb.siteSizeX_ * r.2.1)
    (pb.die_.coreLy + pb.siteSizeY_ * r.1)
    (pb.die_.coreLx + pb.siteSizeX_ * r.2.2)
    (pb.die_.coreLy + pb.siteSizeY_ * (r.1 + 1))

/-- Row-major order of runs: increasing `j`, then increasing `startX`. -/
def runBefore (a b : Int × Int × Int) : Prop :=
  a.1 < b.1 ∨ (a.1 = b.1 ∧ a.2.1 < b.2.1)

/-- No pin is in the pin lists of two instances of the store: every `Pin`
belongs to at most one `Instance`. -/
def PlacerBase.pinsDisjoint (pb : PlacerBase) : Prop :=
  ∀ (j k : Nat) (ij ik : Instance), j ≠ k →
    pb.instStor_[j]? = some ij → pb.instStor_[k]? = some ik → ∀ q ∈ ij.pins_, q ∉ ik.pins_

/-! ## Notions used in the proofs -/

/-- Whether the rectangle of `f` contains the grid cell `(c, j)`. -/
def covers (pb : PlacerBase) (c j : Int) (f : Instance) : Bool :=
  decide (f.rect.contains (pb.cellRect c j))

/-- The members of a model that the instance loop of `PlacerBase::init` sets
and that no later statement of `init` assigns. -/
def PlacerBase.instSide (pb : PlacerBase) :=
  (pb.die_, pb.siteSizeX_, pb.siteSizeY_, pb.insts_, pb.placeInsts_, pb.fixedInsts_,
    pb.dummyInsts_, pb.nonPlaceInsts_, pb.placeInstsArea_, pb.nonPlaceInstsArea_,
    pb.macroInstsArea_, pb.stdInstsArea_, pb.instMap_)

/-- The instance loop of `init` keeps a fixed real instance exactly when it
overlaps the core. -/
def fixedKept (die : Die) (db : dbBlock) (inst : Instance) : Bool :=
  inst.isInstance && inst.isFixed db && isCoreAreaOverlap die inst

/-- Every pin of a store was made for a terminal of a net that is kept. -/
def pinsOfKeptNets (db : dbBlock) (pins : List Pin) : Prop :=
  ∀ pin ∈ pins, ∀ t,
    (pin.term_ = some (TermPtr.iTerm t) →
      ∃ m, (db.iTerm t).net = some m ∧ ¬ (db.net m).sigType.isSkipped) ∧
    (pin.term_ = some (TermPtr.bTerm t) →
      ∃ m, (db.bTerm t).net = some m ∧ ¬ (db.net m).sigType.isSkipped)

/-- The members of a model that the net loops of `PlacerBase::init` set. -/
def PlacerBase.netSide (pb : PlacerBase) :=
  (pb.netStor_, pb.pinStor_, pb.netMap_, pb.pinMap_, pb.nets_, pb.pins_)

/-- Two rectangles overlap: their intersection has a positive width and a
positive height. -/
def Rect.overlaps (a b : Rect) : Prop :=
  max a.xMin b.xMin < min a.xMax b.xMax ∧ max a.yMin b.yMin < min a.yMax b.yMax

instance (a b : Rect) : Decidable (a.overlaps b) := by
  unfold Rect.overlaps; infer_instance

/-- What the step of the instance loop of `init` adds to `nonPlaceInstsArea_`
for the instance `inst`. -/
def nonPlaceShare (die : Die) (db : dbBlock) (inst : Instance) : Int :=
  if fixedKept die db inst then getOverlapWithCoreArea die inst
  else if inst.isDummy then inst.dx * inst.dy
  else 0

/-- The unit squares `[x, x+1) x [y, y+1)` of a rectangle, each named by its
lower-left corner. -/
def unitCells (r : Rect) : Finset (Int × Int) :=
  Finset.Ico r.xMin r.xMax ×ˢ Finset.Ico r.yMin r.yMax

/-- The unit squares that the share of an instance in `nonPlaceInstsArea_`
counts. -/
def shareCells (die : Die) (db : dbBlock) (inst : Instance) : Finset (Int × Int) :=
  if fixedKept die db inst then unitCells (coreIntersection die inst)
  else if inst.isDummy then unitCells inst.rect
  else ∅

/-- The instance that the pointer `k` of a model points to. -/
def PlacerBase.instAt (pb : PlacerBase) (k : Nat) : Instance := pb.instStor_.getD k Instance.mk0

/-- No two instances of `fixedInsts()` overlap. -/
def PlacerBase.fixedInstsApart (pb : PlacerBase) : Prop :=
  pb.fixedInsts_.Pairwise (fun a b => ¬ (pb.instAt a).rect.overlaps (pb.instAt b).rect)

instance (pb : PlacerBase) : Decidable pb.fixedInstsApart := by
  unfold PlacerBase.fixedInstsApart; infer_instance

/-! ## Example inputs -/

/-- An instance with two pins, one with the fallback offset `(0, 0)`. -/
def exInstC1 : Instance :=
  { inst_ := some 0, pins_ := [0, 1], lx_ := 0, ly_ := 0, ux_ := 10, uy_ := 6, extId_ := INT_MIN }

/-- The pin store that `exInstC1` points into. -/
def exPinsC1 : List Pin :=
  [{ Pin.mk0 with offsetCx_ := 3, offsetCy_ := -2, cx_ := 8, cy_ := 1 }, Pin.mk0]

/-- A database with one row over the core `(0,0)-(100,100)` and one fixed
instance at `(-10,-10)-(5,5)`. -/
def exDbC4 : dbBlock :=
  { bbox := ⟨-20, -20, 120, 120⟩,
    rows := [⟨⟨0, 0, 100, 100⟩, 10, 10⟩],
    insts := [⟨dbPlacementStatus.FIRM, -10, -10, ⟨-10, -10, 5, 5⟩, 15, 15⟩],
    nets := [], iTerms := [], bTerms := [] }

/-- The model on which `PlacerBase::init` starts its instance loop for
`exDbC4`. -/
def exPbC4 : PlacerBase :=
  (({ PlacerBase.mk0 with db_ := true } : PlacerBase).initStor exDbC4
    ⟨⟨0, 0, 100, 100⟩, 10, 10⟩).initInstsForFragmentedRow exDbC4

/-- Two rows, given in an order in which neither the first nor the last row
holds all four extremes. -/
def exRowsC6 : List dbRow :=
  [⟨⟨10, 0, 90, 10⟩, 10, 10⟩, ⟨⟨0, 10, 100, 20⟩, 10, 10⟩]

/-- A database with one placed instance at `(0,0)-(10,10)` whose terminal is
on the only net. -/
def exDbC10 : dbBlock :=
  { bbox := ⟨0, 0, 100, 100⟩,
    rows := [⟨⟨0, 0, 100, 100⟩, 10, 10⟩],
    insts := [⟨dbPlacementStatus.PLACED, 0, 0, ⟨0, 0, 10, 10⟩, 10, 10⟩],
    nets := [⟨dbSigType.SIGNAL⟩],
    iTerms := [⟨0, some 0, [[⟨1, 1, 3, 3⟩]]⟩],
    bTerms := [] }

/-- The model that `PlacerBase::init` builds from `exDbC10`. -/
def exPbC10 : PlacerBase := (PlacerBase.ofDb exDbC10).getD PlacerBase.mk0

/-- The scenario of C3: core `(0,0)-(100,100)` given by a single row that covers
it, sites of `10 x 10`, and one fixed macro at `(40,40)-(60,60)`. -/
def exDbC3 : dbBlock :=
  { bbox := ⟨0, 0, 100, 100⟩,
    rows := [⟨⟨0, 0, 100, 100⟩, 10, 10⟩],
    insts := [⟨dbPlacementStatus.FIRM, 40, 40, ⟨40, 40, 60, 60⟩, 20, 20⟩],
    nets := [], iTerms := [], bTerms := [] }

/-- The model on which `PlacerBase::init` calls `initInstsForFragmentedRow` in
the scenario of C3. -/
def exPbC3 : PlacerBase :=
  ({ PlacerBase.mk0 with db_ := true } : PlacerBase).initStor exDbC3 ⟨⟨0, 0, 100, 100⟩, 10, 10⟩

/-- A database with core `(0,0)-(100,100)`, two rows that leave part of the
core uncovered, and a fixed macro at `(40,40)-(60,60)`. -/
def exDbC2 : dbBlock :=
  { bbox := ⟨0, 0, 100, 100⟩,
    rows := [⟨⟨0, 0, 100, 50⟩, 10, 10⟩, ⟨⟨0, 70, 50, 100⟩, 10, 10⟩],
    insts := [⟨dbPlacementStatus.FIRM, 40, 40, ⟨40, 40, 60, 60⟩, 20, 20⟩],
    nets := [], iTerms := [], bTerms := [] }

/-- The model on which `PlacerBase::init` calls `initInstsForFragmentedRow`
for `exDbC2`. -/
def exPbC2 : PlacerBase :=
  ({ PlacerBase.mk0 with db_ := true } : PlacerBase).initStor exDbC2 ⟨⟨0, 0, 100, 50⟩, 10, 10⟩

/-- A database with three fixed instances: one inside the core
`(0,0)-(100,100)`, one that touches the right core edge from outside, and one
that straddles the lower-left core corner. -/
def exDbC5 : dbBlock :=
  { bbox := ⟨-20, -20, 120, 120⟩,
    rows := [⟨⟨0, 0, 100, 100⟩, 10, 10⟩],
    insts := [⟨dbPlacementStatus.FIRM, 40, 40, ⟨40, 40, 60, 60⟩, 20, 20⟩,
              ⟨dbPlacementStatus.LOCKED, 100, 0, ⟨100, 0, 120, 20⟩, 20, 20⟩,
              ⟨dbPlacementStatus.COVER, -10, -10, ⟨-10, -10, 5, 5⟩, 15, 15⟩],
    nets := [], iTerms := [], bTerms := [] }

/-- The model that `PlacerBase::init` builds from `exDbC5`. -/
def exPbC5 : PlacerBase := (PlacerBase.ofDb exDbC5).getD PlacerBase.mk0

/-- A database with five nets, of which the second, fourth and fifth are
power, ground and reset nets, each with one instance terminal; the ground net
also has a boundary terminal. -/
def exDbC9 : dbBlock :=
  { bbox := ⟨0, 0, 100, 100⟩,
    rows := [⟨⟨0, 0, 100, 100⟩, 10, 10⟩],
    insts := [⟨dbPlacementStatus.PLACED, 0, 0, ⟨0, 0, 10, 10⟩, 10, 10⟩],
    nets := [⟨dbSigType.SIGNAL⟩, ⟨dbSigType.POWER⟩, ⟨dbSigType.CLOCK⟩, ⟨dbSigType.GROUND⟩,
             ⟨dbSigType.RESET⟩],
    iTerms := [⟨0, some 0, [[⟨1, 1, 3, 3⟩]]⟩, ⟨0, some 1, [[⟨4, 4, 6, 6⟩]]⟩, ⟨0, some 2, []⟩,
               ⟨0, some 3, []⟩, ⟨0, some 4, []⟩],
    bTerms := [⟨some 3, [⟨0, 50, 2, 52⟩]⟩, ⟨some 2, []⟩] }

/-- The model that `PlacerBase::init` builds from `exDbC9`. -/
def exPbC9 : PlacerBase := (PlacerBase.ofDb exDbC9).getD PlacerBase.mk0

/-- A database without rows. -/
def exDbC7 : dbBlock :=
  { bbox := ⟨0, 0, 100, 100⟩, rows := [],
    insts := [⟨dbPlacementStatus.PLACED, 0, 0, ⟨0, 0, 10, 10⟩, 10, 10⟩],
    nets := [], iTerms := [], bTerms := [] }

/-- A database whose only net connects one instance with the bounding box
`(0,0)-(1073741824,1073741824)`. -/
def exDbC12 : dbBlock :=
  { bbox := ⟨0, 0, 1073741824, 1073741824⟩,
    rows := [⟨⟨0, 0, 1073741824, 1073741824⟩, 10, 10⟩],
    insts := [⟨dbPlacementStatus.PLACED, 0, 0, ⟨0, 0, 1073741824, 1073741824⟩,
      1073741824, 1073741824⟩],
    nets := [⟨dbSigType.SIGNAL⟩],
    iTerms := [⟨0, some 0, []⟩],
    bTerms := [] }

/-- The model that `PlacerBase::init` builds from `exDbC2`, which has filler
instances. -/
def exPbC18 : PlacerBase := (PlacerBase.ofDb exDbC2).getD PlacerBase.mk0

/-- A database with the core `(0,0)-(20,10)` and sites of `10 x 1`, two rows
that leave the cells of column `1` in the grid rows `5..9` uncovered, a movable instance
of height `6`, a movable instance of height `7`, a fixed instance, and
one net that connects one terminal of each movable instance. -/
def exDbC16 : dbBlock :=
  { bbox := ⟨0, 0, 20, 10⟩,
    rows := [⟨⟨0, 0, 20, 5⟩, 10, 1⟩, ⟨⟨0, 5, 10, 10⟩, 10, 1⟩],
    insts := [⟨dbPlacementStatus.PLACED, 0, 0, ⟨0, 0, 10, 6⟩, 10, 6⟩,
      ⟨dbPlacementStatus.PLACED, 10, 0, ⟨10, 0, 20, 7⟩, 10, 7⟩,
      ⟨dbPlacementStatus.FIRM, 0, 7, ⟨0, 7, 10, 10⟩, 10, 3⟩],
    nets := [⟨dbSigType.SIGNAL⟩],
    iTerms := [⟨0, some 0, [[⟨1, 1, 3, 3⟩]]⟩, ⟨1, some 0, [[⟨2, 2, 4, 4⟩]]⟩],
    bTerms := [] }

/-- The model that `PlacerBase::init` builds from `exDbC16`. -/
def exPbC16 : PlacerBase := (PlacerBase.ofDb exDbC16).getD PlacerBase.mk0

/-- A database with sites of `10 x 10` and the rows `(0,0)-(20,10)` and
`(10,10)-(20,20)`, hence the core `(0,0)-(20,20)`, in which no row covers the
site `(0,10)-(10,20)`; no instance. -/
def exDbC21 : dbBlock :=
  { bbox := ⟨-10, 0, 20, 20⟩,
    rows := [⟨⟨0, 0, 20, 10⟩, 10, 10⟩, ⟨⟨10, 10, 20, 20⟩, 10, 10⟩],
    insts := [], nets := [], iTerms := [], bTerms := [] }

/-- The database `exDbC21` with one more instance: a fixed instance with the
rectangle `(-5,10)-(-1,20)`, to the left of the core. -/
def exDbC21Fixed : dbBlock :=
  { exDbC21 with
    insts := [⟨dbPlacementStatus.FIRM, -5, 10, ⟨-5, 10, -1, 20⟩, 4, 10⟩] }

/-- The model on which `PlacerBase::init` calls `initInstsForFragmentedRow`
for `exDbC21`. -/
def exPbC21 : PlacerBase :=
  ({ PlacerBase.mk0 with db_ := true } : PlacerBase).initStor exDbC21 ⟨⟨0, 0, 20, 10⟩, 10, 10⟩

/-- The model on which `PlacerBase::init` calls `initInstsForFragmentedRow`
for `exDbC21Fixed`. -/
def exPbC21Fixed : PlacerBase :=
  ({ PlacerBase.mk0 with db_ := true } : PlacerBase).initStor exDbC21Fixed
    ⟨⟨0, 0, 20, 10⟩, 10, 10⟩

/-- A real instance with the rectangle `(0,0)-(5,3)` and no pin. -/
def exInstC22 : Instance :=
  { inst_ := some 0, pins_ := [], lx_ := 0, ly_ := 0, ux_ := 5, uy_ := 3, extId_ := INT_MIN }

/-- A database with the core `(-20,-20)-(20,-10)` and one movable instance
whose master is `5 x 5`, placed at `(-10,-20)`, with one terminal that has the
shape `(1,1)-(3,3)`. -/
def exDbC23 : dbBlock :=
  { bbox := ⟨-20, -20, 20, 20⟩,
    rows := [⟨⟨-20, -20, 20, -10⟩, 10, 10⟩],
    insts := [⟨dbPlacementStatus.PLACED, -10, -20, ⟨-10, -20, -5, -15⟩, 5, 5⟩],
    nets := [⟨dbSigType.SIGNAL⟩],
    iTerms := [⟨0, some 0, [[⟨1, 1, 3, 3⟩]]⟩],
    bTerms := [] }

/-- The model that `PlacerBase::init` builds from `exDbC23`. -/
def exPbC23 : PlacerBase := (PlacerBase.ofDb exDbC23).getD PlacerBase.mk0

/-- A database with the core `(0,0)-(20,10)` and two fixed instances that both
cover the whole core. -/
def exDbC25 : dbBlock :=
  { bbox := ⟨0, 0, 20, 10⟩,
    rows := [⟨⟨0, 0, 20, 10⟩, 10, 10⟩],
    insts := [⟨dbPlacementStatus.FIRM, 0, 0, ⟨0, 0, 20, 10⟩, 20, 10⟩,
      ⟨dbPlacementStatus.FIRM, 0, 0, ⟨0, 0, 20, 10⟩, 20, 10⟩],
    nets := [], iTerms := [], bTerms := [] }

/-- The model that `PlacerBase::init` builds from `exDbC25`. -/
def exPbC25 : PlacerBase := (PlacerBase.ofDb exDbC25).getD PlacerBase.mk0

/-- A database whose only row covers `65536 x 65537` sites of size `1 x 1`. -/
def exDbC24 : dbBlock :=
  { bbox := ⟨0, 0, 65536, 65537⟩,
    rows := [⟨⟨0, 0, 65536, 65537⟩, 1, 1⟩],
    insts := [], nets := [], iTerms := [], bTerms := [] }

/-- The model on which `PlacerBase::init` calls `initInstsForFragmentedRow`
for `exDbC24`. -/
def exPbC24 : PlacerBase :=
  ({ PlacerBase.mk0 with db_ := true } : PlacerBase).initStor exDbC24
    ⟨⟨0, 0, 65536, 65537⟩, 1, 1⟩

/-! # Theorems -/

/-! ## Loops and folds -/

theorem foldl_preserves {σ α β : Type} (proj : σ → β) (f : σ → α → σ)
    (h : ∀ s a, proj (f s a) = proj s) (l : List α) (s : σ) :
    proj (l.foldl f s) = proj s := by
  induction l generalizing s with
  | nil => rfl
  | cons a t ih => rw [List.foldl_cons, ih, h]

theorem foldlIdx_eq_foldl_enumFrom {σ α : Type} (f : σ → Nat → α → σ) (k : Nat) (s : σ)
    (l : List α) :
    foldlIdx f k s l = (l.enumFrom k).foldl (fun acc (e : Nat × α) => f acc e.1 e.2) s := by
  induction l generalizing k s with
  | nil => rfl
  | cons a t ih => simp only [foldlIdx, List.enumFrom_cons, List.foldl_cons]; exact ih _ _

theorem foldlIdx_preserves {σ α β : Type} (proj : σ → β) (f : σ → Nat → α → σ)
    (h : ∀ s k a, proj (f s k a) = proj s) (l : List α) (k : Nat) (s : σ) :
    proj (foldlIdx f k s l) = proj s := by
  rw [foldlIdx_eq_foldl_enumFrom]
  exact foldl_preserves proj _ (fun s (e : Nat × α) => h s e.1 e.2) _ s

theorem forRange_induction {σ : Type} (P : Int → σ → Prop) (lo hi : Int)
    (body : Int → σ → σ) (s : σ) (h0 : P lo s)
    (hstep : ∀ i t, lo ≤ i → i < hi → P i t → P (i + 1) (body i t)) :
    P (max lo hi) (forRange lo hi body s) := by
  have key : ∀ n : Nat, (n : Int) ≤ max lo hi - lo →
      P (lo + n) ((List.range n).foldl (fun acc (k : Nat) => body (lo + (k : Int)) acc) s) := by
    intro n
    induction n with
    | zero => intro _; simpa using h0
    | succ m ih =>
      intro hm
      rw [List.range_succ, List.foldl_append]
      simp only [List.foldl_cons, List.foldl_nil]
      have hm2 : (m : Int) ≤ max lo hi - lo := by push_cast at hm; omega
      have hlt : lo + (m : Int) < hi := by
        push_cast at hm
        rcases le_total lo hi with h | h
        · rw [max_eq_right h] at hm; omega
        · rw [max_eq_left h] at hm; omega
      have := hstep (lo + m) _ (by omega) hlt (ih hm2)
      have e : lo + ((m + 1 : Nat) : Int) = lo + (m : Int) + 1 := by push_cast; ring
      rw [e]; exact this
  have hn : ((hi - lo).toNat : Int) = max lo hi - lo := by
    rcases le_total lo hi with h | h
    · rw [max_eq_right h, Int.toNat_of_nonneg (by omega)]
    · rw [max_eq_left h]
      have : (hi - lo).toNat = 0 := Int.toNat_eq_zero.mpr (by omega)
      rw [this]; simp
  have := key (hi - lo).toNat (le_of_eq hn)
  rw [hn] at this
  have e2 : lo + (max lo hi - lo) = max lo hi := by ring
  rw [e2] at this
  exact this

theorem foldl_flatMap {α β σ : Type} (f : σ → β → σ) (g : α → List β) (l : List α) (s : σ) :
    (l.flatMap g).foldl f s = l.foldl (fun acc a => (g a).foldl f acc) s := by
  induction l generalizing s with
  | nil => rfl
  | cons a t ih => rw [List.flatMap_cons, List.foldl_append, List.foldl_cons, ih]

theorem length_filter_eq_of_nodup {α : Type} [DecidableEq α] (l : List α) (a : α)
    (hnd : l.Nodup) (ha : a ∈ l) : (l.filter (fun x => decide (x = a))).length = 1 := by
  induction l with
  | nil => cases ha
  | cons b t ih =>
    rw [List.nodup_cons] at hnd
    by_cases hb : b = a
    · subst hb
      have : t.filter (fun x => decide (x = b)) = [] := by
        rw [List.filter_eq_nil_iff]
        intro x hx
        simp only [decide_eq_true_eq]
        rintro rfl
        exact hnd.1 hx
      simp [List.filter_cons, this]
    · have hat : a ∈ t := by
        rcases List.mem_cons.mp ha with h | h
        · exact absurd h.symm hb
        · exact h
      simp only [List.filter_cons, hb, decide_False]
      exact ih hnd.2 hat

theorem count_filter_enum {α : Type} (l : List α) (p : Nat × α → Bool) (k : Nat) (a : α)
    (h : l[k]? = some a) :
    ((l.enum.filter p).map Prod.fst).count k = if p (k, a) then 1 else 0 := by
  have hnd : ((l.enum.filter p).map Prod.fst).Nodup :=
    List.Nodup.sublist ((List.filter_sublist _).map _) (List.nodup_enum_map_fst l)
  by_cases hp : p (k, a) = true
  · rw [if_pos hp]
    apply List.count_eq_one_of_mem hnd
    exact List.mem_map.mpr ⟨(k, a), List.mem_filter.mpr
      ⟨List.mk_mem_enum_iff_getElem?.mpr h, hp⟩, rfl⟩
  · rw [if_neg hp]
    apply List.count_eq_zero_of_not_mem
    intro hm
    obtain ⟨⟨k2, a2⟩, hm2, rfl⟩ := List.mem_map.mp hm
    obtain ⟨hm3, hp2⟩ := List.mem_filter.mp hm2
    have := List.mk_mem_enum_iff_getElem?.mp hm3
    simp only at this
    rw [h] at this
    cases this
    exact hp hp2

/-! ## C1: relocation refreshes the pins -/

theorem Pin.updateLocation_idem (p : Pin) (inst : Instance) :
    (p.updateLocation inst).updateLocation inst = p.updateLocation inst := rfl

theorem getElem?_foldl_updateLocation (inst : Instance) (l : List Nat) (store : List Pin) (k : Nat) :
    (l.foldl (fun ps j => ps.modify (fun p => p.updateLocation inst) j) store)[k]? =
      (store[k]?).map (fun p => if k ∈ l then p.updateLocation inst else p) := by
  induction l generalizing store with
  | nil => simp
  | cons a t ih =>
    rw [List.foldl_cons, ih, List.getElem?_modify]
    cases h : store[k]? with
    | none => simp
    | some p =>
      by_cases hak : a = k
      · subst hak; by_cases hat : a ∈ t <;> simp [hat, Pin.updateLocation_idem]
      · have hka : ¬ k = a := fun e => hak e.symm
        by_cases hkt : k ∈ t <;> simp [hak, hka, hkt]

theorem getElem?_updatePins (inst : Instance) (store : List Pin) (k : Nat) :
    (inst.updatePins store)[k]? =
      (store[k]?).map (fun p => if k ∈ inst.pins_ then p.updateLocation inst else p) :=
  getElem?_foldl_updateLocation inst inst.pins_ store k

/-- C1: after `Instance::setLocation(x, y)`, and likewise after
`Instance::setCenterLocation(x, y)`, every pin `p` that the instance points to
in the pin store has `p.cx() == inst.cx() + p.offsetCx()` and
`p.cy() == inst.cy() + p.offsetCy()`, with `inst.cx()`, `inst.cy()` read after
the call, whatever offsets the pins hold. -/
theorem C1_relocation_refreshes_pins (inst : Instance) (pinStor : List Pin) (x y : Int)
    (k : Nat) (hk : k ∈ inst.pins_) (hlt : k < pinStor.length) :
    (∃ p, (inst.setLocation pinStor x y).2[k]? = some p ∧
        p.cx = (inst.setLocation pinStor x y).1.cx + p.offsetCx ∧
        p.cy = (inst.setLocation pinStor x y).1.cy + p.offsetCy) ∧
    (∃ p, (inst.setCenterLocation pinStor x y).2[k]? = some p ∧
        p.cx = (inst.setCenterLocation pinStor x y).1.cx + p.offsetCx ∧
        p.cy = (inst.setCenterLocation pinStor x y).1.cy + p.offsetCy) := by
  have hget : pinStor[k]? = some pinStor[k] := List.getElem?_eq_getElem hlt
  constructor
  · refine ⟨pinStor[k].updateLocation (inst.setLocation pinStor x y).1, ?_, rfl, rfl⟩
    simp only [Instance.setLocation]
    rw [getElem?_updatePins, hget]
    simp [hk]
  · refine ⟨pinStor[k].updateLocation (inst.setCenterLocation pinStor x y).1, ?_, rfl, rfl⟩
    simp only [Instance.setCenterLocation]
    rw [getElem?_updatePins, hget]
    simp [hk]

theorem C1_relocation_refreshes_pins_witness :
    (∃ p, (exInstC1.setLocation exPinsC1 100 200).2[1]? = some p ∧
        p.cx = (exInstC1.setLocation exPinsC1 100 200).1.cx + p.offsetCx ∧
        p.cy = (exInstC1.setLocation exPinsC1 100 200).1.cy + p.offsetCy) ∧
    (∃ p, (exInstC1.setCenterLocation exPinsC1 100 200).2[1]? = some p ∧
        p.cx = (exInstC1.setCenterLocation exPinsC1 100 200).1.cx + p.offsetCx ∧
        p.cy = (exInstC1.setCenterLocation exPinsC1 100 200).1.cy + p.offsetCy) :=
  C1_relocation_refreshes_pins exInstC1 exPinsC1 100 200 1 (by decide) (by decide)

/-! ## C2: the fillers tile the empty cells

### The site grid as a two-dimensional array -/

theorem grid_index_lt {X Y i j : Int} (hi : 0 ≤ i ∧ i < X) (hj : 0 ≤ j ∧ j < Y) :
    0 ≤ j * X + i ∧ j * X + i < X * Y := by
  have hX : 0 ≤ X := by omega
  have h1 : 0 ≤ j * X := mul_nonneg hj.1 hX
  have h2 : (j + 1) * X ≤ Y * X := mul_le_mul_of_nonneg_right (by omega) hX
  constructor
  · omega
  · nlinarith

theorem grid_index_inj {X i j i2 j2 : Int} (hi : 0 ≤ i ∧ i < X) (hi2 : 0 ≤ i2 ∧ i2 < X)
    (h : j * X + i = j2 * X + i2) : i = i2 ∧ j = j2 := by
  have hX : 0 ≤ X := by omega
  have hj : j = j2 := by
    rcases lt_trichotomy j j2 with hlt | heq | hgt
    · exfalso
      have : (j + 1) * X ≤ j2 * X := mul_le_mul_of_nonneg_right (by omega) hX
      nlinarith
    · exact heq
    · exfalso
      have : (j2 + 1) * X ≤ j * X := mul_le_mul_of_nonneg_right (by omega) hX
      nlinarith
  subst hj
  exact ⟨by omega, rfl⟩

theorem length_gridSet (g : List PlaceInfo) (idx : Int) (v : PlaceInfo) :
    (gridSet g idx v).length = g.length := by
  unfold gridSet; split <;> simp

theorem gridGet_gridSet {X Y : Int} (g : List PlaceInfo) (hlen : (g.length : Int) = X * Y)
    (v : PlaceInfo) {i j i0 j0 : Int}
    (hi : 0 ≤ i ∧ i < X) (hj : 0 ≤ j ∧ j < Y) (hi0 : 0 ≤ i0 ∧ i0 < X) (hj0 : 0 ≤ j0 ∧ j0 < Y) :
    gridGet (gridSet g (j0 * X + i0) v) (j * X + i) =
      if i = i0 ∧ j = j0 then v else gridGet g (j * X + i) := by
  have b := grid_index_lt hi hj
  have b0 := grid_index_lt hi0 hj0
  unfold gridGet gridSet
  rw [if_pos b.1, if_pos b0.1, if_pos b.1]
  rw [List.getD_eq_getElem?_getD, List.getD_eq_getElem?_getD, List.getElem?_set]
  by_cases hc : i = i0 ∧ j = j0
  · obtain ⟨rfl, rfl⟩ := hc
    have hl : (j * X + i).toNat < g.length := by omega
    simp [hl]
  · have hne : (j0 * X + i0).toNat ≠ (j * X + i).toNat := by
      intro he
      have he2 : j * X + i = j0 * X + i0 := by omega
      exact hc (grid_index_inj hi hi0 he2)
    rw [if_neg hne, if_neg hc]

theorem markCells_spec {X Y : Int} (g : List PlaceInfo) (hlen : (g.length : Int) = X * Y)
    (pX pY : Int × Int) (v : PlaceInfo)
    (hX0 : 0 ≤ pX.1) (hX1 : pX.2 ≤ X) (hY0 : 0 ≤ pY.1) (hY1 : pY.2 ≤ Y) :
    ((markCells X pX pY v g).length : Int) = X * Y ∧
    ∀ i j, 0 ≤ i ∧ i < X → 0 ≤ j ∧ j < Y →
      gridGet (markCells X pX pY v g) (j * X + i) =
        if (pX.1 ≤ i ∧ i < pX.2) ∧ (pY.1 ≤ j ∧ j < pY.2) then v else gridGet g (j * X + i) := by
  have inner : ∀ (i0 : Int) (g1 : List PlaceInfo), 0 ≤ i0 ∧ i0 < X →
      (g1.length : Int) = X * Y →
      ((forRange pY.1 pY.2 (fun j g2 => gridSet g2 (j * X + i0) v) g1).length : Int) = X * Y ∧
      ∀ i j, 0 ≤ i ∧ i < X → 0 ≤ j ∧ j < Y →
        gridGet (forRange pY.1 pY.2 (fun j g2 => gridSet g2 (j * X + i0) v) g1) (j * X + i) =
          if i = i0 ∧ (pY.1 ≤ j ∧ j < pY.2) then v else gridGet g1 (j * X + i) := by
    intro i0 g1 hi0 hl1
    have h := forRange_induction
      (fun (j1 : Int) (g2 : List PlaceInfo) => ((g2.length : Int) = X * Y ∧
        ∀ i j, 0 ≤ i ∧ i < X → 0 ≤ j ∧ j < Y →
          gridGet g2 (j * X + i) =
            if i = i0 ∧ (pY.1 ≤ j ∧ j < j1) then v else gridGet g1 (j * X + i)))
      pY.1 pY.2 (fun j g2 => gridSet g2 (j * X + i0) v) g1
      ⟨hl1, by
        intro i j _ _
        have : ¬ (i = i0 ∧ (pY.1 ≤ j ∧ j < pY.1)) := by omega
        rw [if_neg this]⟩
      (by
        intro j1 g2 hlo hhi ⟨hl2, hc⟩
        refine ⟨by rw [length_gridSet]; exact hl2, ?_⟩
        intro i j hi hj
        rw [gridGet_gridSet g2 hl2 v hi hj hi0 ⟨by omega, by omega⟩, hc i j hi hj]
        by_cases h1 : i = i0 ∧ j = j1
        · have h2 : i = i0 ∧ (pY.1 ≤ j ∧ j < j1 + 1) := ⟨h1.1, by omega⟩
          rw [if_pos h1, if_pos h2]
        · rw [if_neg h1]
          by_cases h3 : i = i0 ∧ (pY.1 ≤ j ∧ j < j1)
          · have h4 : i = i0 ∧ (pY.1 ≤ j ∧ j < j1 + 1) := ⟨h3.1, by omega⟩
            rw [if_pos h3, if_pos h4]
          · have h4 : ¬ (i = i0 ∧ (pY.1 ≤ j ∧ j < j1 + 1)) := by
              intro h5
              by_cases h6 : j = j1
              · exact h1 ⟨h5.1, h6⟩
              · exact h3 ⟨h5.1, by omega⟩
            rw [if_neg h3, if_neg h4])
    refine ⟨h.1, ?_⟩
    intro i j hi hj
    rw [h.2 i j hi hj]
    have e : (i = i0 ∧ (pY.1 ≤ j ∧ j < max pY.1 pY.2)) ↔ (i = i0 ∧ (pY.1 ≤ j ∧ j < pY.2)) := by
      rcases le_total pY.1 pY.2 with h1 | h1
      · rw [max_eq_right h1]
      · rw [max_eq_left h1]; constructor <;> intro h2 <;> omega
    by_cases h2 : i = i0 ∧ (pY.1 ≤ j ∧ j < pY.2)
    · rw [if_pos h2, if_pos (e.mpr h2)]
    · rw [if_neg h2, if_neg (fun h3 => h2 (e.mp h3))]
  have h := forRange_induction
    (fun (i1 : Int) (g1 : List PlaceInfo) => ((g1.length : Int) = X * Y ∧
      ∀ i j, 0 ≤ i ∧ i < X → 0 ≤ j ∧ j < Y →
        gridGet g1 (j * X + i) =
          if (pX.1 ≤ i ∧ i < i1) ∧ (pY.1 ≤ j ∧ j < pY.2) then v else gridGet g (j * X + i)))
    pX.1 pX.2
    (fun i g1 => forRange pY.1 pY.2 (fun j g2 => gridSet g2 (j * X + i) v) g1) g
    ⟨hlen, by
      intro i j _ _
      have : ¬ ((pX.1 ≤ i ∧ i < pX.1) ∧ (pY.1 ≤ j ∧ j < pY.2)) := by omega
      rw [if_neg this]⟩
    (by
      intro i1 g1 hlo hhi ⟨hl1, hc⟩
      have hin := inner i1 g1 ⟨by omega, by omega⟩ hl1
      refine ⟨hin.1, ?_⟩
      intro i j hi hj
      rw [hin.2 i j hi hj, hc i j hi hj]
      by_cases h1 : i = i1 ∧ (pY.1 ≤ j ∧ j < pY.2)
      · have h2 : (pX.1 ≤ i ∧ i < i1 + 1) ∧ (pY.1 ≤ j ∧ j < pY.2) := ⟨by omega, h1.2⟩
        rw [if_pos h1, if_pos h2]
      · rw [if_neg h1]
        by_cases h3 : (pX.1 ≤ i ∧ i < i1) ∧ (pY.1 ≤ j ∧ j < pY.2)
        · have h4 : (pX.1 ≤ i ∧ i < i1 + 1) ∧ (pY.1 ≤ j ∧ j < pY.2) := ⟨by omega, h3.2⟩
          rw [if_pos h3, if_pos h4]
        · have h4 : ¬ ((pX.1 ≤ i ∧ i < i1 + 1) ∧ (pY.1 ≤ j ∧ j < pY.2)) := by
            intro h5
            by_cases h6 : i = i1
            · exact h1 ⟨h6, h5.2⟩
            · exact h3 ⟨by omega, h5.2⟩
          rw [if_neg h3, if_neg h4])
  refine ⟨h.1, ?_⟩
  intro i j hi hj
  have h2 := h.2 i j hi hj
  show gridGet (forRange pX.1 pX.2
    (fun i g1 => forRange pY.1 pY.2 (fun j g2 => gridSet g2 (j * X + i) v) g1) g) (j * X + i) = _
  rw [h2]
  have e : ((pX.1 ≤ i ∧ i < max pX.1 pX.2) ∧ (pY.1 ≤ j ∧ j < pY.2)) ↔
      ((pX.1 ≤ i ∧ i < pX.2) ∧ (pY.1 ≤ j ∧ j < pY.2)) := by
    rcases le_total pX.1 pX.2 with h1 | h1
    · rw [max_eq_right h1]
    · rw [max_eq_left h1]; constructor <;> intro h3 <;> omega
  by_cases h3 : (pX.1 ≤ i ∧ i < pX.2) ∧ (pY.1 ≤ j ∧ j < pY.2)
  · rw [if_pos h3, if_pos (e.mpr h3)]
  · rw [if_neg h3, if_neg (fun h4 => h3 (e.mp h4))]

theorem getMinMaxIdx_bounds (ll uu coreLL siteSize maxIdx : Int) :
    0 ≤ (getMinMaxIdx ll uu coreLL siteSize 0 maxIdx).1 ∧
    (getMinMaxIdx ll uu coreLL siteSize 0 maxIdx).2 ≤ maxIdx := by
  unfold getMinMaxIdx
  exact ⟨le_max_left _ _, min_le_left _ _⟩

theorem foldl_mark_spec {α : Type} {X Y : Int} (mark : α → Option ((Int × Int) × (Int × Int)))
    (v : PlaceInfo) (hv : v ≠ PlaceInfo.Empty)
    (step : List PlaceInfo → α → List PlaceInfo)
    (hstep : ∀ g a, step g a =
      match mark a with
      | none => g
      | some pr => markCells X pr.1 pr.2 v g)
    (hvalid : ∀ a pr, mark a = some pr → 0 ≤ pr.1.1 ∧ pr.1.2 ≤ X ∧ 0 ≤ pr.2.1 ∧ pr.2.2 ≤ Y)
    (l : List α) (g : List PlaceInfo) (hlen : (g.length : Int) = X * Y) :
    ((l.foldl step g).length : Int) = X * Y ∧
    ∀ i j, 0 ≤ i ∧ i < X → 0 ≤ j ∧ j < Y →
      (gridGet (l.foldl step g) (j * X + i) = PlaceInfo.Empty ↔
        gridGet g (j * X + i) = PlaceInfo.Empty ∧
          ∀ a ∈ l, ∀ pr, mark a = some pr → ¬ inIdxRanges pr i j) := by
  induction l generalizing g with
  | nil => exact ⟨hlen, fun i j _ _ => by simp⟩
  | cons a t ih =>
    rw [List.foldl_cons]
    have hs := hstep g a
    cases hm : mark a with
    | none =>
      rw [hm] at hs
      rw [hs]
      refine ⟨(ih g hlen).1, ?_⟩
      intro i j hi hj
      rw [(ih g hlen).2 i j hi hj]
      constructor
      · rintro ⟨h1, h2⟩
        refine ⟨h1, ?_⟩
        intro b hb pr hpr
        rcases List.mem_cons.mp hb with rfl | hb
        · rw [hm] at hpr; cases hpr
        · exact h2 b hb pr hpr
      · rintro ⟨h1, h2⟩
        exact ⟨h1, fun b hb pr hpr => h2 b (List.mem_cons_of_mem _ hb) pr hpr⟩
    | some pr0 =>
      rw [hm] at hs
      rw [hs]
      obtain ⟨v1, v2, v3, v4⟩ := hvalid a pr0 hm
      have hmc := markCells_spec g hlen pr0.1 pr0.2 v v1 v2 v3 v4
      refine ⟨(ih _ hmc.1).1, ?_⟩
      intro i j hi hj
      rw [(ih _ hmc.1).2 i j hi hj, hmc.2 i j hi hj]
      constructor
      · rintro ⟨h1, h2⟩
        by_cases hin : (pr0.1.1 ≤ i ∧ i < pr0.1.2) ∧ (pr0.2.1 ≤ j ∧ j < pr0.2.2)
        · rw [if_pos hin] at h1; exact absurd h1 hv
        · rw [if_neg hin] at h1
          refine ⟨h1, ?_⟩
          intro b hb pr hpr
          rcases List.mem_cons.mp hb with rfl | hb
          · rw [hm] at hpr; cases hpr; exact hin
          · exact h2 b hb pr hpr
      · rintro ⟨h1, h2⟩
        have hin : ¬ ((pr0.1.1 ≤ i ∧ i < pr0.1.2) ∧ (pr0.2.1 ≤ j ∧ j < pr0.2.2)) :=
          h2 a (List.mem_cons_self _ _) pr0 hm
        rw [if_neg hin]
        exact ⟨h1, fun b hb pr hpr => h2 b (List.mem_cons_of_mem _ hb) pr hpr⟩

theorem idxRanges_valid (pb : PlacerBase) (lx ly ux uy : Int) :
    0 ≤ (pb.idxRanges lx ly ux uy).1.1 ∧ (pb.idxRanges lx ly ux uy).1.2 ≤ pb.siteCountX ∧
    0 ≤ (pb.idxRanges lx ly ux uy).2.1 ∧ (pb.idxRanges lx ly ux uy).2.2 ≤ pb.siteCountY := by
  unfold PlacerBase.idxRanges
  exact ⟨(getMinMaxIdx_bounds _ _ _ _ _).1, (getMinMaxIdx_bounds _ _ _ _ _).2,
    (getMinMaxIdx_bounds _ _ _ _ _).1, (getMinMaxIdx_bounds _ _ _ _ _).2⟩

theorem siteGrid_spec (pb : PlacerBase) (db : dbBlock)
    (hX : 0 ≤ pb.siteCountX) (hY : 0 ≤ pb.siteCountY) :
    ((pb.siteGrid db).length : Int) = pb.siteCountX * pb.siteCountY ∧
    ∀ i j, 0 ≤ i ∧ i < pb.siteCountX → 0 ≤ j ∧ j < pb.siteCountY →
      (gridGet (pb.siteGrid db) (j * pb.siteCountX + i) = PlaceInfo.Empty ↔
        (∀ row ∈ db.rows, ¬ inIdxRanges
          (pb.idxRanges row.bbox.xMin row.bbox.yMin row.bbox.xMax row.bbox.yMax) i j) ∧
        (∀ inst ∈ pb.instStor_, inst.isFixed db = true →
          ¬ inIdxRanges (pb.idxRanges inst.lx inst.ly inst.ux inst.uy) i j)) := by
  have hN : 0 ≤ pb.siteCountX * pb.siteCountY := mul_nonneg hX hY
  have hlen0 : (((List.replicate (pb.siteCountX * pb.siteCountY).toNat PlaceInfo.Empty).length
      : Nat) : Int) = pb.siteCountX * pb.siteCountY := by
    rw [List.length_replicate, Int.toNat_of_nonneg hN]
  have hrows := foldl_mark_spec
    (fun (row : dbRow) =>
      some (pb.idxRanges row.bbox.xMin row.bbox.yMin row.bbox.xMax row.bbox.yMax))
    PlaceInfo.Row (by decide)
    (fun g row =>
      let pr := pb.idxRanges row.bbox.xMin row.bbox.yMin row.bbox.xMax row.bbox.yMax
      markCells pb.siteCountX pr.1 pr.2 PlaceInfo.Row g)
    (fun g a => rfl)
    (by intro a pr h; cases h; exact idxRanges_valid pb _ _ _ _)
    db.rows _ hlen0
  have hfix := foldl_mark_spec
    (fun (inst : Instance) =>
      if !(inst.isFixed db) then none else some (pb.idxRanges inst.lx inst.ly inst.ux inst.uy))
    PlaceInfo.FixedInst (by decide)
    (fun g inst =>
      if !(inst.isFixed db) then g
      else
        let pr := pb.idxRanges inst.lx inst.ly inst.ux inst.uy
        markCells pb.siteCountX pr.1 pr.2 PlaceInfo.FixedInst g)
    (by intro g a; by_cases h : (!(a.isFixed db)) = true <;> simp [h])
    (by
      intro a pr h
      by_cases h2 : (!(a.isFixed db)) = true
      · simp [h2] at h
      · simp [h2] at h; rw [← h]; exact idxRanges_valid pb _ _ _ _)
    pb.instStor_ _ hrows.1
  refine ⟨hfix.1, ?_⟩
  intro i j hi hj
  have h1 := hfix.2 i j hi hj
  have h2 := hrows.2 i j hi hj
  unfold PlacerBase.siteGrid PlacerBase.markFixed PlacerBase.markRows
  rw [h1, h2]
  have hb := grid_index_lt hi hj
  have hinit : gridGet (List.replicate (pb.siteCountX * pb.siteCountY).toNat PlaceInfo.Empty)
      (j * pb.siteCountX + i) = PlaceInfo.Empty := by
    unfold gridGet
    rw [if_pos hb.1, List.getD_eq_getElem?_getD, List.getElem?_replicate]
    split <;> simp
    omega
  constructor
  · rintro ⟨⟨_, hr⟩, hf⟩
    refine ⟨fun row hrow => hr row hrow _ rfl, ?_⟩
    intro inst hinst hfx
    exact hf inst hinst _ (by simp [hfx])
  · rintro ⟨hr, hf⟩
    refine ⟨⟨hinit, fun row hrow pr hpr => by cases hpr; exact hr row hrow⟩, ?_⟩
    intro inst hinst pr hpr
    by_cases hfx : inst.isFixed db = true
    · simp [hfx] at hpr; rw [← hpr]; exact hf inst hinst hfx
    · simp [hfx] at hpr

/-! ### The scan -/

theorem scanWhile_spec (grid : List PlaceInfo) (X j : Int) (fuel : Nat) (i : Int)
    (hi : i ≤ X) (hfuel : X - i ≤ fuel) :
    i ≤ scanWhile grid X j fuel i ∧ scanWhile grid X j fuel i ≤ X ∧
    (∀ c, i ≤ c → c < scanWhile grid X j fuel i → gridGet grid (j * X + c) = PlaceInfo.Empty) ∧
    (scanWhile grid X j fuel i < X →
      gridGet grid (j * X + scanWhile grid X j fuel i) ≠ PlaceInfo.Empty) := by
  induction fuel generalizing i with
  | zero =>
    have : i = X := by push_cast at hfuel; omega
    subst this
    simp only [scanWhile]
    exact ⟨le_refl _, le_refl _, fun c h1 h2 => by omega, fun h => by omega⟩
  | succ n ih =>
    simp only [scanWhile]
    by_cases hc : i < X ∧ gridGet grid (j * X + i) = PlaceInfo.Empty
    · rw [if_pos hc]
      have h := ih (i + 1) (by omega) (by push_cast at hfuel; omega)
      refine ⟨by omega, h.2.1, ?_, h.2.2.2⟩
      intro c h1 h2
      by_cases hci : c = i
      · subst hci; exact hc.2
      · exact h.2.2.1 c (by omega) h2
    · rw [if_neg hc]
      exact ⟨le_refl _, hi, fun c h1 h2 => by omega, fun h hE => hc ⟨h, hE⟩⟩

theorem covers_ofRect (pb : PlacerBase) (hsx : 0 < pb.siteSizeX_) (hsy : 0 < pb.siteSizeY_)
    (s e j c j2 : Int) :
    covers pb c j2 (Instance.ofRect
      (pb.die_.coreLx + pb.siteSizeX_ * s) (pb.die_.coreLy + pb.siteSizeY_ * j)
      (pb.die_.coreLx + pb.siteSizeX_ * e) (pb.die_.coreLy + pb.siteSizeY_ * (j + 1))) = true ↔
      (s ≤ c ∧ c < e) ∧ j2 = j := by
  unfold covers
  rw [decide_eq_true_iff]
  unfold Rect.contains PlacerBase.cellRect Instance.rect Instance.ofRect
  simp only
  have m1 : ∀ a b : Int, pb.siteSizeX_ * a ≤ pb.siteSizeX_ * b ↔ a ≤ b :=
    fun a b => mul_le_mul_left hsx
  have m2 : ∀ a b : Int, pb.siteSizeY_ * a ≤ pb.siteSizeY_ * b ↔ a ≤ b :=
    fun a b => mul_le_mul_left hsy
  rw [add_le_add_iff_left, add_le_add_iff_left, add_le_add_iff_left, add_le_add_iff_left,
    m1, m1, m2, m2]
  constructor
  · rintro ⟨h1, h2, h3, h4⟩; exact ⟨⟨h1, by omega⟩, by omega⟩
  · rintro ⟨⟨h1, h2⟩, h3⟩; exact ⟨h1, by omega, by omega, by omega⟩

theorem scanRow_append (pb : PlacerBase) (grid : List PlaceInfo) (j : Int) (fuel : Nat)
    (i : Int) (stor : List Instance) :
    pb.scanRow grid j fuel i stor = stor ++ pb.scanRow grid j fuel i [] := by
  induction fuel generalizing i stor with
  | zero => simp [PlacerBase.scanRow]
  | succ n ih =>
    simp only [PlacerBase.scanRow]
    by_cases h1 : i < pb.siteCountX
    · rw [if_pos h1, if_pos h1]
      by_cases h2 : gridGet grid (j * pb.siteCountX + i) = PlaceInfo.Empty
      · rw [if_pos h2, if_pos h2, ih _ (stor ++ _), ih _ ([] ++ _)]
        simp
      · rw [if_neg h2, if_neg h2]; exact ih _ _
    · rw [if_neg h1, if_neg h1]; simp

theorem scanRow_count (pb : PlacerBase) (hsx : 0 < pb.siteSizeX_) (hsy : 0 < pb.siteSizeY_)
    (grid : List PlaceInfo) (j : Int) (fuel : Nat) (i : Int)
    (hfuel : pb.siteCountX - i ≤ fuel) (c j2 : Int) (hc : c < pb.siteCountX) :
    ((pb.scanRow grid j fuel i []).filter (covers pb c j2)).length =
      if j2 = j ∧ i ≤ c ∧ gridGet grid (j * pb.siteCountX + c) = PlaceInfo.Empty then 1 else 0 := by
  induction fuel generalizing i with
  | zero =>
    have : ¬ (j2 = j ∧ i ≤ c ∧ gridGet grid (j * pb.siteCountX + c) = PlaceInfo.Empty) := by
      push_cast at hfuel; omega
    rw [if_neg this]; simp [PlacerBase.scanRow]
  | succ n ih =>
    simp only [PlacerBase.scanRow]
    by_cases h1 : i < pb.siteCountX
    · rw [if_pos h1]
      by_cases h2 : gridGet grid (j * pb.siteCountX + i) = PlaceInfo.Empty
      · rw [if_pos h2]
        have hw := scanWhile_spec grid pb.siteCountX j (pb.siteCountX - i).toNat i (le_of_lt h1)
          (by rw [Int.toNat_of_nonneg (by omega)])
        generalize scanWhile grid pb.siteCountX j (pb.siteCountX - i).toNat i = e at hw ⊢
        obtain ⟨w1, w2, w3, w4⟩ := hw
        have hie : i < e := by
          rcases eq_or_lt_of_le w1 with h | h
          · subst h; exact absurd h2 (w4 h1)
          · exact h
        rw [scanRow_append, List.filter_append, List.length_append,
          ih (e + 1) (by push_cast at hfuel; omega)]
        simp only [List.nil_append, List.filter_cons, List.filter_nil]
        by_cases hcov : covers pb c j2 (Instance.ofRect
            (pb.die_.coreLx + pb.siteSizeX_ * i) (pb.die_.coreLy + pb.siteSizeY_ * j)
            (pb.die_.coreLx + pb.siteSizeX_ * e) (pb.die_.coreLy + pb.siteSizeY_ * (j + 1))) = true
        · rw [if_pos hcov]
          have hh := (covers_ofRect pb hsx hsy i e j c j2).mp hcov
          have hE := w3 c hh.1.1 hh.1.2
          have hA : (if j2 = j ∧ e + 1 ≤ c ∧
              gridGet grid (j * pb.siteCountX + c) = PlaceInfo.Empty then 1 else 0) = 0 :=
            if_neg (by omega)
          have hB : (if j2 = j ∧ i ≤ c ∧
              gridGet grid (j * pb.siteCountX + c) = PlaceInfo.Empty then 1 else 0) = 1 :=
            if_pos ⟨hh.2, hh.1.1, hE⟩
          rw [hA, hB]
          rfl
        · rw [if_neg hcov]
          have hh := fun h => hcov ((covers_ofRect pb hsx hsy i e j c j2).mpr h)
          by_cases h3 : j2 = j ∧ e + 1 ≤ c ∧ gridGet grid (j * pb.siteCountX + c) = PlaceInfo.Empty
          · rw [if_pos h3, if_pos ⟨h3.1, by omega, h3.2.2⟩]; rfl
          · rw [if_neg h3]
            have : ¬ (j2 = j ∧ i ≤ c ∧ gridGet grid (j * pb.siteCountX + c) = PlaceInfo.Empty) := by
              rintro ⟨a1, a2, a3⟩
              by_cases h5 : c < e
              · exact hh ⟨⟨a2, h5⟩, a1⟩
              · by_cases h6 : c = e
                · subst h6; exact w4 hc a3
                · exact h3 ⟨a1, by omega, a3⟩
            rw [if_neg this]; rfl
      · rw [if_neg h2, ih (i + 1) (by push_cast at hfuel; omega)]
        by_cases h3 : j2 = j ∧ i + 1 ≤ c ∧ gridGet grid (j * pb.siteCountX + c) = PlaceInfo.Empty
        · rw [if_pos h3, if_pos ⟨h3.1, by omega, h3.2.2⟩]
        · rw [if_neg h3]
          have : ¬ (j2 = j ∧ i ≤ c ∧ gridGet grid (j * pb.siteCountX + c) = PlaceInfo.Empty) := by
            rintro ⟨a1, a2, a3⟩
            by_cases h6 : c = i
            · subst h6; exact h2 a3
            · exact h3 ⟨a1, by omega, a3⟩
          rw [if_neg this]
    · rw [if_neg h1]
      have : ¬ (j2 = j ∧ i ≤ c ∧ gridGet grid (j * pb.siteCountX + c) = PlaceInfo.Empty) := by omega
      rw [if_neg this]; simp

theorem scanGrid_count (pb : PlacerBase) (hsx : 0 < pb.siteSizeX_) (hsy : 0 < pb.siteSizeY_)
    (hX : 0 ≤ pb.siteCountX) (hY : 0 ≤ pb.siteCountY)
    (grid : List PlaceInfo) (stor : List Instance) :
    ∃ L, pb.scanGrid grid stor = stor ++ L ∧
      ∀ c j2, c < pb.siteCountX →
        (L.filter (covers pb c j2)).length =
          if (0 ≤ j2 ∧ j2 < pb.siteCountY) ∧ 0 ≤ c ∧
            gridGet grid (j2 * pb.siteCountX + c) = PlaceInfo.Empty then 1 else 0 := by
  have h := forRange_induction
    (fun (j1 : Int) (acc : List Instance) => ∃ L, acc = stor ++ L ∧
      ∀ c j2, c < pb.siteCountX →
        (L.filter (covers pb c j2)).length =
          if (0 ≤ j2 ∧ j2 < j1) ∧ 0 ≤ c ∧
            gridGet grid (j2 * pb.siteCountX + c) = PlaceInfo.Empty then 1 else 0)
    0 pb.siteCountY (fun j acc => pb.scanRow grid j pb.siteCountX.toNat 0 acc) stor
    ⟨[], by simp, by
      intro c j2 _
      have : ¬ ((0 ≤ j2 ∧ j2 < 0) ∧ 0 ≤ c ∧
          gridGet grid (j2 * pb.siteCountX + c) = PlaceInfo.Empty) := by omega
      rw [if_neg this]; rfl⟩
    (by
      rintro j1 acc hlo hhi ⟨L, rfl, hL⟩
      refine ⟨L ++ pb.scanRow grid j1 pb.siteCountX.toNat 0 [], ?_, ?_⟩
      · show pb.scanRow grid j1 pb.siteCountX.toNat 0 (stor ++ L) = _
        rw [scanRow_append, List.append_assoc]
      · intro c j2 hc
        rw [List.filter_append, List.length_append, hL c j2 hc,
          scanRow_count pb hsx hsy grid j1 _ 0
            (by rw [Int.toNat_of_nonneg hX]; omega) c j2 hc]
        by_cases hE : 0 ≤ c ∧ gridGet grid (j2 * pb.siteCountX + c) = PlaceInfo.Empty
        · by_cases h1 : 0 ≤ j2 ∧ j2 < j1
          · have hA : ¬ (j2 = j1 ∧ 0 ≤ c ∧
                gridGet grid (j1 * pb.siteCountX + c) = PlaceInfo.Empty) := by omega
            rw [if_pos ⟨h1, hE⟩, if_neg hA, if_pos ⟨⟨h1.1, by omega⟩, hE⟩]
          · by_cases h2 : j2 = j1
            · subst h2
              rw [if_neg (fun h => h1 h.1), if_pos ⟨rfl, hE⟩, if_pos ⟨⟨hlo, by omega⟩, hE⟩]
            · have hA : ¬ (j2 = j1 ∧ 0 ≤ c ∧
                  gridGet grid (j1 * pb.siteCountX + c) = PlaceInfo.Empty) := fun h => h2 h.1
              have hB : ¬ ((0 ≤ j2 ∧ j2 < j1 + 1) ∧ 0 ≤ c ∧
                  gridGet grid (j2 * pb.siteCountX + c) = PlaceInfo.Empty) := by
                intro h; exact h1 ⟨h.1.1, by omega⟩
              rw [if_neg (fun h => h1 h.1), if_neg hA, if_neg hB]
        · have hA : ¬ (j2 = j1 ∧ 0 ≤ c ∧
              gridGet grid (j1 * pb.siteCountX + c) = PlaceInfo.Empty) := by
            rintro ⟨rfl, h⟩; exact hE h
          rw [if_neg (fun h => hE h.2), if_neg hA, if_neg (fun h => hE h.2)])
  rw [max_eq_right hY] at h
  exact h

theorem siteCount_nonneg (pb : PlacerBase)
    (hsx : 0 < pb.siteSizeX_) (hsy : 0 < pb.siteSizeY_)
    (hcx : pb.die_.coreLx ≤ pb.die_.coreUx) (hcy : pb.die_.coreLy ≤ pb.die_.coreUy) :
    0 ≤ pb.siteCountX ∧ 0 ≤ pb.siteCountY := by
  unfold PlacerBase.siteCountX PlacerBase.siteCountY
  exact ⟨Int.tdiv_nonneg (by omega) (le_of_lt hsx), Int.tdiv_nonneg (by omega) (le_of_lt hsy)⟩

theorem fillers_count (pb : PlacerBase) (db : dbBlock)
    (hsx : 0 < pb.siteSizeX_) (hsy : 0 < pb.siteSizeY_)
    (hcx : pb.die_.coreLx ≤ pb.die_.coreUx) (hcy : pb.die_.coreLy ≤ pb.die_.coreUy)
    (i j : Int) (hi : 0 ≤ i ∧ i < pb.siteCountX) (hj : 0 ≤ j ∧ j < pb.siteCountY) :
    ((pb.fillers db).filter (covers pb i j)).length =
      if gridGet (pb.siteGrid db) (j * pb.siteCountX + i) = PlaceInfo.Empty then 1 else 0 := by
  obtain ⟨hX, hY⟩ := siteCount_nonneg pb hsx hsy hcx hcy
  obtain ⟨L, hL, hcnt⟩ := scanGrid_count pb hsx hsy hX hY (pb.siteGrid db) pb.instStor_
  have hf : pb.fillers db = L := by
    unfold PlacerBase.fillers PlacerBase.initInstsForFragmentedRow
    simp only
    rw [hL, List.drop_left]
  rw [hf, hcnt i j hi.2]
  by_cases hE : gridGet (pb.siteGrid db) (j * pb.siteCountX + i) = PlaceInfo.Empty
  · rw [if_pos hE, if_pos ⟨hj, hi.1, hE⟩]
  · rw [if_neg hE, if_neg (fun h => hE h.2.2)]

/-- C2: in the `siteCountX` by `siteCountY` grid of `initInstsForFragmentedRow`,
a cell `(i, j)` is covered by the rectangle of a filler instance if and only if
it is still `Empty` after the rows and the fixed instances have been marked,
that is, if and only if it lies in no index range of a row and in no index
range of a fixed instance; and every such cell is covered by exactly one filler
instance. -/
theorem C2_fillers_tile_empty_cells (pb : PlacerBase) (db : dbBlock)
    (hsx : 0 < pb.siteSizeX_) (hsy : 0 < pb.siteSizeY_)
    (hcx : pb.die_.coreLx ≤ pb.die_.coreUx) (hcy : pb.die_.coreLy ≤ pb.die_.coreUy)
    (i j : Int) (hi : 0 ≤ i ∧ i < pb.siteCountX) (hj : 0 ≤ j ∧ j < pb.siteCountY) :
    ((∃ f ∈ pb.fillers db, f.rect.contains (pb.cellRect i j)) ↔
      gridGet (pb.siteGrid db) (j * pb.siteCountX + i) = PlaceInfo.Empty) ∧
    (gridGet (pb.siteGrid db) (j * pb.siteCountX + i) = PlaceInfo.Empty ↔
      (∀ row ∈ db.rows, ¬ inIdxRanges
        (pb.idxRanges row.bbox.xMin row.bbox.yMin row.bbox.xMax row.bbox.yMax) i j) ∧
      (∀ inst ∈ pb.instStor_, inst.isFixed db = true →
        ¬ inIdxRanges (pb.idxRanges inst.lx inst.ly inst.ux inst.uy) i j)) ∧
    (gridGet (pb.siteGrid db) (j * pb.siteCountX + i) = PlaceInfo.Empty →
      ((pb.fillers db).filter (fun f => decide (f.rect.contains (pb.cellRect i j)))).length = 1) := by
  obtain ⟨hX, hY⟩ := siteCount_nonneg pb hsx hsy hcx hcy
  have hcnt := fillers_count pb db hsx hsy hcx hcy i j hi hj
  refine ⟨?_, (siteGrid_spec pb db hX hY).2 i j hi hj, ?_⟩
  · constructor
    · rintro ⟨f, hf, hcov⟩
      by_contra hE
      rw [if_neg hE] at hcnt
      have := List.length_eq_zero.mp hcnt
      have hmem : f ∈ (pb.fillers db).filter (covers pb i j) :=
        List.mem_filter.mpr ⟨hf, by unfold covers; exact decide_eq_true hcov⟩
      rw [this] at hmem
      exact absurd hmem (List.not_mem_nil _)
    · intro hE
      rw [if_pos hE] at hcnt
      have hpos : 0 < ((pb.fillers db).filter (covers pb i j)).length := by omega
      obtain ⟨f, hf⟩ := List.exists_mem_of_length_pos hpos
      have := List.mem_filter.mp hf
      exact ⟨f, this.1, by have h2 := this.2; unfold covers at h2; exact of_decide_eq_true h2⟩
  · intro hE
    rw [if_pos hE] at hcnt
    exact hcnt

theorem C2_fillers_tile_empty_cells_witness :
    gridGet (exPbC2.siteGrid exDbC2) (6 * exPbC2.siteCountX + 0) = PlaceInfo.Empty ∧
    ((∃ f ∈ exPbC2.fillers exDbC2, f.rect.contains (exPbC2.cellRect 0 6)) ↔
      gridGet (exPbC2.siteGrid exDbC2) (6 * exPbC2.siteCountX + 0) = PlaceInfo.Empty) ∧
    ((exPbC2.fillers exDbC2).filter
      (fun f => decide (f.rect.contains (exPbC2.cellRect 0 6)))).length = 1 :=
  ⟨by decide,
   (C2_fillers_tile_empty_cells exPbC2 exDbC2 (by decide) (by decide) (by decide) (by decide)
      0 6 (by decide) (by decide)).1,
   (C2_fillers_tile_empty_cells exPbC2 exDbC2 (by decide) (by decide) (by decide) (by decide)
      0 6 (by decide) (by decide)).2.2 (by decide)⟩

/-! ## C3: the scenario of a row over the whole core -/

/-- C3 fails on the code: in the scenario (core `(0,0)-(100,100)`, one row over
the whole core, one fixed macro at `(40,40)-(60,60)`, sites of `10 x 10`) the
areas of the filler instances of `initInstsForFragmentedRow` do not sum to
`9600`, and the grid cell `(0, 0)`, which lies in the complement of the macro,
is covered by no filler. -/
theorem C3_counterexample :
    sumArea (exPbC3.fillers exDbC3) ≠ 9600 ∧
    ¬ ∃ f ∈ exPbC3.fillers exDbC3, f.rect.contains (exPbC3.cellRect 0 0) := by
  decide

/-- C3 (amended): in the scenario the row marks every site of the grid `Row`
and the macro re-marks its sites `FixedInst`, so no site stays `Empty`:
`initInstsForFragmentedRow` produces no filler instance, the filler area is `0`,
and after `PlacerBase::init` the list `dummyInsts()` is empty and the
non-placeable area is the `400` of the macro. -/
theorem C3_row_covered_core_has_no_filler :
    (exPbC3.siteGrid exDbC3).length = 100 ∧
    (∀ c ∈ exPbC3.siteGrid exDbC3, c ≠ PlaceInfo.Empty) ∧
    exPbC3.fillers exDbC3 = [] ∧ sumArea (exPbC3.fillers exDbC3) = 0 ∧
    (PlacerBase.ofDb exDbC3).map (fun pb => (pb.dummyInsts_, pb.nonPlaceInstsArea_)) =
      some ([], 400) := by
  decide

/-! ## C4: clipped area of a fixed instance -/

theorem isCoreAreaOverlap_iff (die : Die) (inst : Instance) :
    isCoreAreaOverlap die inst = true ↔ (coreIntersection die inst).hasArea := by
  unfold isCoreAreaOverlap coreIntersection Rect.hasArea Die.coreLx Die.coreLy Die.coreUx
    Die.coreUy Instance.lx Instance.ly Instance.ux Instance.uy
  simp only [Bool.not_eq_true', Bool.or_eq_false_iff, decide_eq_false_iff_not, not_le, ge_iff_le]

/-- C4: for a fixed real instance that overlaps the core, the amount the
instance loop of `PlacerBase::init` adds to `nonPlaceInstsArea_` is the area of
the rectangle intersection of the instance with the core,
`(min(coreUx, ux) - max(coreLx, lx)) * (min(coreUy, uy) - max(coreLy, ly))`; it
is positive, at most the area of the instance and at most the area of the
core, and it is less than the area of the instance as soon as the instance
sticks out of the core. -/
theorem C4_fixed_area_is_clipped (db : dbBlock) (pb : PlacerBase) (k : Nat) (inst : Instance)
    (hreal : inst.isInstance = true) (hfixed : inst.isFixed db = true)
    (hov : (coreIntersection pb.die_ inst).hasArea) :
    (pb.initInstStep db k inst).nonPlaceInstsArea_ - pb.nonPlaceInstsArea_ =
      (min pb.die_.coreUx inst.ux - max pb.die_.coreLx inst.lx) *
        (min pb.die_.coreUy inst.uy - max pb.die_.coreLy inst.ly) ∧
    0 < (pb.initInstStep db k inst).nonPlaceInstsArea_ - pb.nonPlaceInstsArea_ ∧
    (pb.initInstStep db k inst).nonPlaceInstsArea_ - pb.nonPlaceInstsArea_ ≤ inst.dx * inst.dy ∧
    (pb.initInstStep db k inst).nonPlaceInstsArea_ - pb.nonPlaceInstsArea_ ≤
      (pb.die_.coreUx - pb.die_.coreLx) * (pb.die_.coreUy - pb.die_.coreLy) ∧
    (¬ pb.die_.coreRect.contains inst.rect →
      (pb.initInstStep db k inst).nonPlaceInstsArea_ - pb.nonPlaceInstsArea_ < inst.dx * inst.dy) := by
  have hov2 := (isCoreAreaOverlap_iff pb.die_ inst).mpr hov
  have hstep : (pb.initInstStep db k inst).nonPlaceInstsArea_ =
      pb.nonPlaceInstsArea_ + getOverlapWithCoreArea pb.die_ inst := by
    simp [PlacerBase.initInstStep, hreal, hfixed, hov2]
  rw [hstep]
  obtain ⟨h1, h2⟩ := hov
  unfold coreIntersection at h1 h2
  simp only at h1 h2
  unfold getOverlapWithCoreArea Die.coreLx Die.coreLy Die.coreUx Die.coreUy Instance.lx
    Instance.ly Instance.ux Instance.uy Instance.dx Instance.dy Rect.contains Die.coreRect
    Instance.rect
  simp only [add_sub_cancel_left]
  have hpos : 0 < min pb.die_.coreUx_ inst.ux_ - max pb.die_.coreLx_ inst.lx_ := by omega
  have hpos2 : 0 < min pb.die_.coreUy_ inst.uy_ - max pb.die_.coreLy_ inst.ly_ := by omega
  have wx : min pb.die_.coreUx_ inst.ux_ - max pb.die_.coreLx_ inst.lx_ ≤ inst.ux_ - inst.lx_ := by
    omega
  have wy : min pb.die_.coreUy_ inst.uy_ - max pb.die_.coreLy_ inst.ly_ ≤ inst.uy_ - inst.ly_ := by
    omega
  have cx : min pb.die_.coreUx_ inst.ux_ - max pb.die_.coreLx_ inst.lx_ ≤
      pb.die_.coreUx_ - pb.die_.coreLx_ := by omega
  have cy : min pb.die_.coreUy_ inst.uy_ - max pb.die_.coreLy_ inst.ly_ ≤
      pb.die_.coreUy_ - pb.die_.coreLy_ := by omega
  have hstrict : ¬ (pb.die_.coreLx_ ≤ inst.lx_ ∧ inst.ux_ ≤ pb.die_.coreUx_ ∧
      pb.die_.coreLy_ ≤ inst.ly_ ∧ inst.uy_ ≤ pb.die_.coreUy_) →
      min pb.die_.coreUx_ inst.ux_ - max pb.die_.coreLx_ inst.lx_ < inst.ux_ - inst.lx_ ∨
      min pb.die_.coreUy_ inst.uy_ - max pb.die_.coreLy_ inst.ly_ < inst.uy_ - inst.ly_ := by
    intro h; omega
  generalize min pb.die_.coreUx_ inst.ux_ - max pb.die_.coreLx_ inst.lx_ = w at *
  generalize min pb.die_.coreUy_ inst.uy_ - max pb.die_.coreLy_ inst.ly_ = h at *
  refine ⟨trivial, by positivity, ?_, ?_, ?_⟩
  · exact mul_le_mul wx wy (by omega) (by omega)
  · exact mul_le_mul cx cy (by omega) (by omega)
  · intro hout
    rcases hstrict hout with h3 | h3
    · nlinarith
    · nlinarith

theorem C4_fixed_area_is_clipped_witness :
    ((exPbC4.initInstStep exDbC4 0 (Instance.ofDb exDbC4 0)).nonPlaceInstsArea_
        - exPbC4.nonPlaceInstsArea_ = 25 ∧
      (Instance.ofDb exDbC4 0).dx * (Instance.ofDb exDbC4 0).dy = 225) ∧
    (exPbC4.initInstStep exDbC4 0 (Instance.ofDb exDbC4 0)).nonPlaceInstsArea_
        - exPbC4.nonPlaceInstsArea_ <
      (Instance.ofDb exDbC4 0).dx * (Instance.ofDb exDbC4 0).dy :=
  ⟨by decide,
   (C4_fixed_area_is_clipped exDbC4 exPbC4 0 (Instance.ofDb exDbC4 0)
      (by decide) (by decide) (by decide)).2.2.2.2 (by decide)⟩

/-! ## C5: fixed instances outside the core

### Frames of the construction loops -/

theorem initNetStep_frame (db : dbBlock) (pb : PlacerBase) (net : Nat) :
    (pb.initNetStep db net).instSide = pb.instSide ∧
    (pb.initNetStep db net).instStor_ = pb.instStor_ := by
  unfold PlacerBase.initNetStep
  simp only
  split
  · exact ⟨rfl, rfl⟩
  · constructor
    · refine Eq.trans (foldl_preserves PlacerBase.instSide _ ?_ _ _) ?_
      · intro s a; rfl
      · refine Eq.trans (foldl_preserves PlacerBase.instSide _ ?_ _ _) rfl
        intro s a; rfl
    · refine Eq.trans (foldl_preserves PlacerBase.instStor_ _ ?_ _ _) ?_
      · intro s a; rfl
      · refine Eq.trans (foldl_preserves PlacerBase.instStor_ _ ?_ _ _) rfl
        intro s a; rfl

theorem initNets_frame (db : dbBlock) (pb : PlacerBase) :
    (pb.initNets db).instSide = pb.instSide ∧ (pb.initNets db).instStor_ = pb.instStor_ := by
  unfold PlacerBase.initNets
  exact ⟨foldl_preserves PlacerBase.instSide _ (fun s a => (initNetStep_frame db s a).1) _ _,
    foldl_preserves PlacerBase.instStor_ _ (fun s a => (initNetStep_frame db s a).2) _ _⟩

theorem initPinMap_frame (pb : PlacerBase) :
    pb.initPinMap.instSide = pb.instSide ∧ pb.initPinMap.instStor_ = pb.instStor_ ∧
    pb.initPinMap.netStor_ = pb.netStor_ ∧ pb.initPinMap.pinStor_ = pb.pinStor_ ∧
    pb.initPinMap.netMap_ = pb.netMap_ ∧ pb.initPinMap.nets_ = pb.nets_ := by
  unfold PlacerBase.initPinMap
  have h : ∀ (s : PlacerBase) (k : Nat) (a : Pin),
      (fun (x : PlacerBase) => (x.instSide, x.instStor_, x.netStor_, x.pinStor_, x.netMap_,
        x.nets_)) (s.initPinMapStep k a) =
      (fun (x : PlacerBase) => (x.instSide, x.instStor_, x.netStor_, x.pinStor_, x.netMap_,
        x.nets_)) s := by
    intro s k a
    unfold PlacerBase.initPinMapStep
    simp only
    split
    · rfl
    · split <;> rfl
  have := foldlIdx_preserves
    (fun (x : PlacerBase) => (x.instSide, x.instStor_, x.netStor_, x.pinStor_, x.netMap_,
      x.nets_)) PlacerBase.initPinMapStep h pb.pinStor_ 0 pb
  simp only [Prod.mk.injEq] at this
  exact this

theorem initNetPins_frame (db : dbBlock) (pb : PlacerBase) :
    (pb.initNetPins db).instSide = pb.instSide ∧
    (pb.initNetPins db).instStor_ = pb.instStor_ ∧
    (pb.initNetPins db).pinStor_ = pb.pinStor_ ∧
    (pb.initNetPins db).netMap_ = pb.netMap_ ∧
    (pb.initNetPins db).pinMap_ = pb.pinMap_ ∧
    (pb.initNetPins db).pins_ = pb.pins_ := by
  unfold PlacerBase.initNetPins
  have h : ∀ (s : PlacerBase) (k : Nat) (a : Net),
      (fun (x : PlacerBase) => (x.instSide, x.instStor_, x.pinStor_, x.netMap_, x.pinMap_,
        x.pins_)) (s.initNetPinsStep db k a) =
      (fun (x : PlacerBase) => (x.instSide, x.instStor_, x.pinStor_, x.netMap_, x.pinMap_,
        x.pins_)) s := fun s k a => rfl
  have := foldlIdx_preserves
    (fun (x : PlacerBase) => (x.instSide, x.instStor_, x.pinStor_, x.netMap_, x.pinMap_,
      x.pins_)) (PlacerBase.initNetPinsStep db) h pb.netStor_ 0 pb
  simp only [Prod.mk.injEq] at this
  exact this

theorem initInstStep_effect (db : dbBlock) (pb : PlacerBase) (k : Nat) (inst : Instance) :
    (pb.initInstStep db k inst).die_ = pb.die_ ∧
    (pb.initInstStep db k inst).instStor_ = pb.instStor_ ∧
    (pb.initInstStep db k inst).fixedInsts_ =
      pb.fixedInsts_ ++ (if fixedKept pb.die_ db inst then [k] else []) ∧
    (pb.initInstStep db k inst).nonPlaceInsts_ =
      pb.nonPlaceInsts_ ++ (if fixedKept pb.die_ db inst || inst.isDummy then [k] else []) := by
  unfold PlacerBase.initInstStep fixedKept Instance.isDummy Instance.isInstance
  cases h1 : inst.inst_ <;> cases h2 : inst.isFixed db <;>
    cases h3 : isCoreAreaOverlap pb.die_ inst <;> simp <;> split <;> simp

theorem initInstPtrs_lists (db : dbBlock) (l : List Instance) (k0 : Nat) (pb : PlacerBase) :
    (foldlIdx (PlacerBase.initInstStep db) k0 pb l).die_ = pb.die_ ∧
    (foldlIdx (PlacerBase.initInstStep db) k0 pb l).instStor_ = pb.instStor_ ∧
    (foldlIdx (PlacerBase.initInstStep db) k0 pb l).fixedInsts_ =
      pb.fixedInsts_ ++
        ((l.enumFrom k0).filter (fun e => fixedKept pb.die_ db e.2)).map Prod.fst ∧
    (foldlIdx (PlacerBase.initInstStep db) k0 pb l).nonPlaceInsts_ =
      pb.nonPlaceInsts_ ++
        ((l.enumFrom k0).filter (fun e => fixedKept pb.die_ db e.2 || e.2.isDummy)).map
          Prod.fst := by
  induction l generalizing k0 pb with
  | nil => simp [foldlIdx]
  | cons a t ih =>
    obtain ⟨e1, e2, e3, e4⟩ := initInstStep_effect db pb k0 a
    obtain ⟨i1, i2, i3, i4⟩ := ih (k0 + 1) (pb.initInstStep db k0 a)
    simp only [foldlIdx, List.enumFrom_cons, List.filter_cons]
    refine ⟨by rw [i1, e1], by rw [i2, e2], ?_, ?_⟩
    · rw [i3, e3, e1]
      by_cases h : fixedKept pb.die_ db a = true <;> simp [h]
    · rw [i4, e4, e1]
      by_cases h : (fixedKept pb.die_ db a || a.isDummy) = true
      · simp only [h, if_true, List.map_cons, List.append_assoc, List.singleton_append]
      · simp only [h, if_false, List.append_nil]
        simp

theorem init_some (pb0 : PlacerBase) (db : dbBlock) (pb : PlacerBase)
    (h : pb0.init db = some pb) :
    ∃ (firstRow : dbRow) (p4 p5 p6 p7 p8 : PlacerBase),
      db.rows.head? = some firstRow ∧
      p4 = (pb0.initStor db firstRow).initInstsForFragmentedRow db ∧
      p5 = p4.initInstPtrs db ∧ p6 = p5.initNets db ∧ p7 = p6.initPinMap ∧
      p8 = p7.initInstPins db ∧ pb = p8.initNetPins db := by
  unfold PlacerBase.init at h
  cases hr : db.rows with
  | nil => rw [hr] at h; cases h
  | cons a t =>
    rw [hr] at h
    simp only [Option.some.injEq] at h
    exact ⟨a, _, _, _, _, _, rfl, rfl, rfl, rfl, rfl, rfl, h.symm⟩

theorem fillInstPins_keeps (pb : PlacerBase) (db : dbBlock) (inst : Instance) :
    (pb.fillInstPins db inst).inst_ = inst.inst_ ∧
    (pb.fillInstPins db inst).rect = inst.rect := by
  have key : ∀ (l : List Nat) (i : Instance),
      (fun (x : Instance) => (x.inst_, x.rect))
        (l.foldl (fun (i : Instance) iTerm =>
          match pb.dbToPlaceTerm (TermPtr.iTerm iTerm) with
          | some curPin => i.addPin curPin
          | none => i) i) = (fun (x : Instance) => (x.inst_, x.rect)) i := by
    intro l i
    exact foldl_preserves (fun (x : Instance) => (x.inst_, x.rect)) _
      (by intro s a; cases pb.dbToPlaceTerm (TermPtr.iTerm a) <;> rfl) l i
  unfold PlacerBase.fillInstPins
  split
  · exact ⟨rfl, rfl⟩
  · cases hq : inst.inst_ with
    | none => exact ⟨hq, rfl⟩
    | some p =>
      have := key (db.instITerms p) inst
      simp only [Prod.mk.injEq] at this
      exact ⟨this.1.trans hq, this.2⟩

theorem fixedKept_congr (die : Die) (db : dbBlock) (a b : Instance)
    (h1 : a.inst_ = b.inst_) (h2 : a.rect = b.rect) :
    fixedKept die db a = fixedKept die db b ∧ a.isDummy = b.isDummy ∧
    coreIntersection die a = coreIntersection die b ∧
    a.isInstance = b.isInstance ∧ a.isFixed db = b.isFixed db := by
  unfold Instance.rect at h2
  simp only [Rect.mk.injEq] at h2
  obtain ⟨r1, r2, r3, r4⟩ := h2
  unfold fixedKept Instance.isDummy Instance.isInstance Instance.isFixed isCoreAreaOverlap
    coreIntersection Instance.lx Instance.ly Instance.ux Instance.uy
  rw [h1, r1, r2, r3, r4]
  exact ⟨rfl, rfl, rfl, rfl, rfl⟩

/-- What `PlacerBase::init` leaves in the members that its instance loop sets,
in terms of the model `p4` and its instance store, on which the loop runs. -/
theorem init_instSide (pb0 : PlacerBase) (db : dbBlock) (pb : PlacerBase)
    (h : pb0.init db = some pb) :
    ∃ (firstRow : dbRow) (p4 : PlacerBase),
      db.rows.head? = some firstRow ∧
      p4 = (pb0.initStor db firstRow).initInstsForFragmentedRow db ∧
      pb.die_ = p4.die_ ∧
      pb.instSide = (foldlIdx (PlacerBase.initInstStep db) 0 p4 p4.instStor_).instSide ∧
      (∀ (k : Nat) (inst : Instance), pb.instStor_[k]? = some inst →
        ∃ inst0, p4.instStor_[k]? = some inst0 ∧ inst.inst_ = inst0.inst_ ∧
          inst.rect = inst0.rect) := by
  obtain ⟨firstRow, p4, p5, p6, p7, p8, hfr, h4, h5, h6, h7, h8, h9⟩ := init_some pb0 db pb h
  have e9 := initNetPins_frame db p8
  rw [← h9] at e9
  have e8 : p8.instSide = p7.instSide ∧ p8.instStor_ = p7.instStor_.map (p7.fillInstPins db) := by
    rw [h8]; exact ⟨rfl, rfl⟩
  have e7 := initPinMap_frame p6
  rw [← h7] at e7
  have e6 := initNets_frame db p5
  rw [← h6] at e6
  have e5 := initInstPtrs_lists db p4.instStor_ 0 p4
  have h5b : p5 = foldlIdx (PlacerBase.initInstStep db) 0 p4 p4.instStor_ := h5
  rw [← h5b] at e5
  have hside : pb.instSide = p5.instSide := by rw [e9.1, e8.1, e7.1, e6.1]
  have e0 : ∀ x y : PlacerBase, x.instSide = y.instSide → x.die_ = y.die_ := by
    intro x y hxy
    unfold PlacerBase.instSide at hxy
    simp only [Prod.mk.injEq] at hxy
    exact hxy.1
  refine ⟨firstRow, p4, hfr, h4, ?_, ?_, ?_⟩
  · rw [e0 _ _ hside, e5.1]
  · rw [hside, h5b]
  · intro k inst hk
    rw [e9.2.1, e8.2, e7.2.1, e6.2, e5.2.1, List.getElem?_map] at hk
    cases hs : p4.instStor_[k]? with
    | none => rw [hs] at hk; cases hk
    | some inst0 =>
      rw [hs] at hk
      simp only [Option.map_some', Option.some.injEq] at hk
      subst hk
      exact ⟨inst0, rfl, (fillInstPins_keeps _ db inst0).1, (fillInstPins_keeps _ db inst0).2⟩

theorem initStor_fresh (db : dbBlock) (firstRow : dbRow) :
    ((({ PlacerBase.mk0 with db_ := true } : PlacerBase).initStor db
      firstRow).initInstsForFragmentedRow db).fixedInsts_ = [] ∧
    ((({ PlacerBase.mk0 with db_ := true } : PlacerBase).initStor db
      firstRow).initInstsForFragmentedRow db).nonPlaceInsts_ = [] := ⟨rfl, rfl⟩

/-- C5: `PlacerBase::init` puts a fixed real instance whose rectangle
intersection with the core has no area (it lies outside the core or only
touches a core edge) in neither `fixedInsts()` nor `nonPlaceInsts()`, and its
step of the instance loop adds nothing to `nonPlaceInstsArea_`; a fixed real
instance whose intersection with the core has a positive area is in both lists
exactly once. -/
theorem C5_fixed_kept_iff_overlaps_core (db : dbBlock) (pb : PlacerBase)
    (h : PlacerBase.ofDb db = some pb) (k : Nat) (inst : Instance)
    (hk : pb.instStor_[k]? = some inst)
    (hreal : inst.isInstance = true) (hfixed : inst.isFixed db = true) :
    (¬ (coreIntersection pb.die_ inst).hasArea →
      k ∉ pb.fixedInsts_ ∧ k ∉ pb.nonPlaceInsts_ ∧
      ∀ acc : PlacerBase, acc.die_ = pb.die_ →
        (acc.initInstStep db k inst).nonPlaceInstsArea_ = acc.nonPlaceInstsArea_) ∧
    ((coreIntersection pb.die_ inst).hasArea →
      pb.fixedInsts_.count k = 1 ∧ pb.nonPlaceInsts_.count k = 1) := by
  obtain ⟨firstRow, p4, _, h4, hdie, hside, hinst⟩ := init_instSide _ db pb h
  obtain ⟨inst0, hk0, hi1, hi2⟩ := hinst k inst hk
  obtain ⟨c1, c2, c3, c4, c5⟩ := fixedKept_congr pb.die_ db inst inst0 hi1 hi2
  obtain ⟨_, _, l3, l4⟩ := initInstPtrs_lists db p4.instStor_ 0 p4
  have hfresh := initStor_fresh db firstRow
  rw [← h4] at hfresh
  rw [hfresh.1, ← hdie] at l3
  rw [hfresh.2, ← hdie] at l4
  unfold PlacerBase.instSide at hside
  simp only [Prod.mk.injEq] at hside
  have hf : pb.fixedInsts_ =
      ((p4.instStor_.enum.filter (fun e => fixedKept pb.die_ db e.2)).map Prod.fst) := by
    rw [hside.2.2.2.2.2.1, l3]; rfl
  have hn : pb.nonPlaceInsts_ =
      ((p4.instStor_.enum.filter (fun e => fixedKept pb.die_ db e.2 || e.2.isDummy)).map
        Prod.fst) := by
    rw [hside.2.2.2.2.2.2.2.1, l4]; rfl
  have cf := count_filter_enum p4.instStor_ (fun e => fixedKept pb.die_ db e.2) k inst0 hk0
  have cn := count_filter_enum p4.instStor_ (fun e => fixedKept pb.die_ db e.2 || e.2.isDummy) k inst0 hk0
  rw [← hf] at cf
  rw [← hn] at cn
  simp only at cf cn
  have hdummy : inst0.isDummy = false := by
    rw [← c2]; unfold Instance.isDummy; unfold Instance.isInstance at hreal
    cases hq : inst.inst_ <;> simp [hq] at hreal ⊢
  have hkept : fixedKept pb.die_ db inst0 = true ↔ (coreIntersection pb.die_ inst).hasArea := by
    rw [← c1, ← isCoreAreaOverlap_iff]
    unfold fixedKept
    simp [hreal, hfixed]
  constructor
  · intro hno
    have hk2 : ¬ fixedKept pb.die_ db inst0 = true := fun hh => hno (hkept.mp hh)
    simp only [hdummy, Bool.or_false] at cn
    rw [if_neg hk2] at cf cn
    refine ⟨List.count_eq_zero.mp cf, List.count_eq_zero.mp cn, ?_⟩
    intro acc hacc
    have hov : isCoreAreaOverlap acc.die_ inst = false := by
      rw [hacc]
      cases hq : isCoreAreaOverlap pb.die_ inst
      · rfl
      · exact absurd ((isCoreAreaOverlap_iff _ _).mp hq) hno
    simp [PlacerBase.initInstStep, hreal, hfixed, hov]
  · intro hyes
    have hk2 : fixedKept pb.die_ db inst0 = true := hkept.mpr hyes
    simp only [hk2, Bool.true_or, if_true] at cn
    rw [if_pos hk2] at cf
    exact ⟨cf, cn⟩

theorem C5_fixed_kept_iff_overlaps_core_witness :
    (1 ∉ exPbC5.fixedInsts_ ∧ 1 ∉ exPbC5.nonPlaceInsts_) ∧
    (exPbC5.fixedInsts_.count 2 = 1 ∧ exPbC5.nonPlaceInsts_.count 2 = 1) :=
  ⟨⟨((C5_fixed_kept_iff_overlaps_core exDbC5 exPbC5 (by decide) 1
        (exPbC5.instStor_.getD 1 Instance.mk0) (by decide) (by decide) (by decide)).1
        (by decide)).1,
    ((C5_fixed_kept_iff_overlaps_core exDbC5 exPbC5 (by decide) 1
        (exPbC5.instStor_.getD 1 Instance.mk0) (by decide) (by decide) (by decide)).1
        (by decide)).2.1⟩,
   (C5_fixed_kept_iff_overlaps_core exDbC5 exPbC5 (by decide) 2
      (exPbC5.instStor_.getD 2 Instance.mk0) (by decide) (by decide) (by decide)).2
      (by decide)⟩

/-! ## C6: the core rectangle of a non-empty row set -/

theorem getCoreRectFromDb_foldl_bounds (rows : List dbRow) (m : Rect) :
    let c := rows.foldl
      (fun (m : Rect) row =>
        (⟨min row.bbox.xMin m.xMin, min row.bbox.yMin m.yMin,
          max row.bbox.xMax m.xMax, max row.bbox.yMax m.yMax⟩ : Rect)) m
    (c.xMin ≤ m.xMin ∧ c.yMin ≤ m.yMin ∧ m.xMax ≤ c.xMax ∧ m.yMax ≤ c.yMax) ∧
    (∀ r ∈ rows, c.xMin ≤ r.bbox.xMin ∧ c.yMin ≤ r.bbox.yMin ∧
      r.bbox.xMax ≤ c.xMax ∧ r.bbox.yMax ≤ c.yMax) ∧
    (c.xMin = m.xMin ∨ ∃ r ∈ rows, c.xMin = r.bbox.xMin) ∧
    (c.yMin = m.yMin ∨ ∃ r ∈ rows, c.yMin = r.bbox.yMin) ∧
    (c.xMax = m.xMax ∨ ∃ r ∈ rows, c.xMax = r.bbox.xMax) ∧
    (c.yMax = m.yMax ∨ ∃ r ∈ rows, c.yMax = r.bbox.yMax) := by
  induction rows generalizing m with
  | nil => simp
  | cons a t ih =>
    intro c
    have h := ih ⟨min a.bbox.xMin m.xMin, min a.bbox.yMin m.yMin,
      max a.bbox.xMax m.xMax, max a.bbox.yMax m.yMax⟩
    simp only at h
    have hc : c = t.foldl
      (fun (m : Rect) row =>
        (⟨min row.bbox.xMin m.xMin, min row.bbox.yMin m.yMin,
          max row.bbox.xMax m.xMax, max row.bbox.yMax m.yMax⟩ : Rect))
      ⟨min a.bbox.xMin m.xMin, min a.bbox.yMin m.yMin,
        max a.bbox.xMax m.xMax, max a.bbox.yMax m.yMax⟩ := rfl
    rw [← hc] at h
    have hb := h.1
    have hall := h.2.1
    have q1 : c.xMin ≤ m.xMin ∧ c.yMin ≤ m.yMin ∧ m.xMax ≤ c.xMax ∧ m.yMax ≤ c.yMax :=
      ⟨by omega, by omega, by omega, by omega⟩
    have q2 : c.xMin ≤ a.bbox.xMin ∧ c.yMin ≤ a.bbox.yMin ∧
        a.bbox.xMax ≤ c.xMax ∧ a.bbox.yMax ≤ c.yMax :=
      ⟨by omega, by omega, by omega, by omega⟩
    obtain ⟨_, _, e1, e2, e3, e4⟩ := h
    refine ⟨q1, ?_, ?_, ?_, ?_, ?_⟩
    · intro r hr
      rcases List.mem_cons.mp hr with rfl | hr
      · exact q2
      · exact hall r hr
    · rcases e1 with e | ⟨r, hr, e⟩
      · rcases min_choice a.bbox.xMin m.xMin with h2 | h2
        · right; exact ⟨a, List.mem_cons_self _ _, by rw [e, h2]⟩
        · left; rw [e, h2]
      · right; exact ⟨r, List.mem_cons_of_mem _ hr, e⟩
    · rcases e2 with e | ⟨r, hr, e⟩
      · rcases min_choice a.bbox.yMin m.yMin with h2 | h2
        · right; exact ⟨a, List.mem_cons_self _ _, by rw [e, h2]⟩
        · left; rw [e, h2]
      · right; exact ⟨r, List.mem_cons_of_mem _ hr, e⟩
    · rcases e3 with e | ⟨r, hr, e⟩
      · rcases max_choice a.bbox.xMax m.xMax with h2 | h2
        · right; exact ⟨a, List.mem_cons_self _ _, by rw [e, h2]⟩
        · left; rw [e, h2]
      · right; exact ⟨r, List.mem_cons_of_mem _ hr, e⟩
    · rcases e4 with e | ⟨r, hr, e⟩
      · rcases max_choice a.bbox.yMax m.yMax with h2 | h2
        · right; exact ⟨a, List.mem_cons_self _ _, by rw [e, h2]⟩
        · left; rw [e, h2]
      · right; exact ⟨r, List.mem_cons_of_mem _ hr, e⟩

/-- C6: for a non-empty set of rows (of `int` coordinates), `getCoreRectFromDb`
returns `(min lx, min ly, max ux, max uy)` over the rows: each bound is a bound
of every row and is attained by a row; the result contains every row
rectangle, every rectangle containing all rows contains it, and it does not
depend on the order of the rows. -/
theorem C6_core_is_bounding_box_of_rows (rows : List dbRow) (hne : rows ≠ [])
    (h32 : ∀ r ∈ rows, r.isInt32) :
    (∀ r ∈ rows, (getCoreRectFromDb rows).contains r.bbox) ∧
    ((∃ r ∈ rows, (getCoreRectFromDb rows).xMin = r.bbox.xMin) ∧
     (∃ r ∈ rows, (getCoreRectFromDb rows).yMin = r.bbox.yMin) ∧
     (∃ r ∈ rows, (getCoreRectFromDb rows).xMax = r.bbox.xMax) ∧
     (∃ r ∈ rows, (getCoreRectFromDb rows).yMax = r.bbox.yMax)) ∧
    (∀ R : Rect, (∀ r ∈ rows, R.contains r.bbox) → R.contains (getCoreRectFromDb rows)) ∧
    (∀ rows2 : List dbRow, rows2.Perm rows → getCoreRectFromDb rows2 = getCoreRectFromDb rows) := by
  have h := getCoreRectFromDb_foldl_bounds rows ⟨INT_MAX, INT_MAX, INT_MIN, INT_MIN⟩
  simp only at h
  have hc : getCoreRectFromDb rows = rows.foldl
      (fun (m : Rect) row =>
        (⟨min row.bbox.xMin m.xMin, min row.bbox.yMin m.yMin,
          max row.bbox.xMax m.xMax, max row.bbox.yMax m.yMax⟩ : Rect))
      ⟨INT_MAX, INT_MAX, INT_MIN, INT_MIN⟩ := rfl
  rw [← hc] at h
  have hall := h.2.1
  obtain ⟨r0, hr0⟩ := List.exists_mem_of_ne_nil rows hne
  have h0 := h32 r0 hr0
  have hr0b := hall r0 hr0
  unfold dbRow.isInt32 replace.isInt32 at h0
  have hI : INT_MAX = 2147483647 ∧ INT_MIN = -2147483648 := ⟨rfl, rfl⟩
  have z1 : (getCoreRectFromDb rows).xMin = INT_MAX →
      (getCoreRectFromDb rows).xMin = r0.bbox.xMin := by intro; omega
  have z2 : (getCoreRectFromDb rows).yMin = INT_MAX →
      (getCoreRectFromDb rows).yMin = r0.bbox.yMin := by intro; omega
  have z3 : (getCoreRectFromDb rows).xMax = INT_MIN →
      (getCoreRectFromDb rows).xMax = r0.bbox.xMax := by intro; omega
  have z4 : (getCoreRectFromDb rows).yMax = INT_MIN →
      (getCoreRectFromDb rows).yMax = r0.bbox.yMax := by intro; omega
  obtain ⟨_, _, e1, e2, e3, e4⟩ := h
  have a1 : ∃ r ∈ rows, (getCoreRectFromDb rows).xMin = r.bbox.xMin := by
    rcases e1 with e | e
    · exact ⟨r0, hr0, z1 e⟩
    · exact e
  have a2 : ∃ r ∈ rows, (getCoreRectFromDb rows).yMin = r.bbox.yMin := by
    rcases e2 with e | e
    · exact ⟨r0, hr0, z2 e⟩
    · exact e
  have a3 : ∃ r ∈ rows, (getCoreRectFromDb rows).xMax = r.bbox.xMax := by
    rcases e3 with e | e
    · exact ⟨r0, hr0, z3 e⟩
    · exact e
  have a4 : ∃ r ∈ rows, (getCoreRectFromDb rows).yMax = r.bbox.yMax := by
    rcases e4 with e | e
    · exact ⟨r0, hr0, z4 e⟩
    · exact e
  refine ⟨fun r hr => ⟨(hall r hr).1, (hall r hr).2.2.1, (hall r hr).2.1, (hall r hr).2.2.2⟩,
    ⟨a1, a2, a3, a4⟩, ?_, ?_⟩
  · intro R hR
    obtain ⟨r1, m1, q1⟩ := a1
    obtain ⟨r2, m2, q2⟩ := a2
    obtain ⟨r3, m3, q3⟩ := a3
    obtain ⟨r4, m4, q4⟩ := a4
    have t1 := hR r1 m1
    have t2 := hR r2 m2
    have t3 := hR r3 m3
    have t4 := hR r4 m4
    unfold Rect.contains at t1 t2 t3 t4 ⊢
    exact ⟨by rw [q1]; exact t1.1, by rw [q3]; exact t3.2.1, by rw [q2]; exact t2.2.2.1,
      by rw [q4]; exact t4.2.2.2⟩
  · intro rows2 hp
    unfold getCoreRectFromDb
    apply List.Perm.foldl_eq' hp
    intro x _ y _ z
    simp only [Rect.mk.injEq]
    refine ⟨?_, ?_, ?_, ?_⟩
    · exact min_left_comm _ _ _
    · exact min_left_comm _ _ _
    · exact max_left_comm _ _ _
    · exact max_left_comm _ _ _

theorem C6_core_is_bounding_box_of_rows_witness :
    getCoreRectFromDb exRowsC6 = ⟨0, 0, 100, 20⟩ ∧
    (getCoreRectFromDb exRowsC6).contains ⟨10, 0, 90, 10⟩ ∧
    getCoreRectFromDb exRowsC6.reverse = getCoreRectFromDb exRowsC6 :=
  ⟨by decide,
   (C6_core_is_bounding_box_of_rows exRowsC6 (by decide) (by decide)).1 ⟨⟨10, 0, 90, 10⟩, 10, 10⟩
     (by decide),
   (C6_core_is_bounding_box_of_rows exRowsC6 (by decide) (by decide)).2.2.2 _
     (List.reverse_perm _)⟩

/-! ## C7: a database without rows -/

/-- The model of `PlacerBase::init` has no result exactly when the database
has no row: the one run without defined behaviour is the read of the first
row of an empty row set. -/
theorem init_eq_none_iff (pb : PlacerBase) (db : dbBlock) :
    pb.init db = none ↔ db.rows = [] := by
  unfold PlacerBase.init
  cases db.rows with
  | nil => simp
  | cons r t => simp

/-- C7, on the code: the database `exDbC7` has no row. `getCoreRectFromDb`
runs its loop zero times and hands its untouched sentinels to `odb::Rect`, so
it returns a rectangle and raises no error: in each axis the two corners are
`INT_MIN` and `INT_MAX`, in whichever order the constructor holds them.
`PlacerBase::init` tests nothing about the row set and goes on to read the
first row, which does not exist: the run has no defined behaviour, and the
model of `init` and of the constructor has no result, where the claim asks for
a reported fatal error. -/
theorem C7_no_rows_reads_missing_first_row :
    exDbC7.rows = [] ∧
    (min (getCoreRectFromDb exDbC7.rows).xMin (getCoreRectFromDb exDbC7.rows).xMax = INT_MIN ∧
     max (getCoreRectFromDb exDbC7.rows).xMin (getCoreRectFromDb exDbC7.rows).xMax = INT_MAX ∧
     min (getCoreRectFromDb exDbC7.rows).yMin (getCoreRectFromDb exDbC7.rows).yMax = INT_MIN ∧
     max (getCoreRectFromDb exDbC7.rows).yMin (getCoreRectFromDb exDbC7.rows).yMax = INT_MAX) ∧
    exDbC7.rows.head? = none ∧
    PlacerBase.init { PlacerBase.mk0 with db_ := true } exDbC7 = none ∧
    PlacerBase.ofDb exDbC7 = none := by
  decide

/-! ## C9: ground, power and reset nets -/

theorem PtrMap.find_assign {κ ν : Type} [DecidableEq κ] (m : PtrMap κ ν) (k k2 : κ) (v : ν) :
    (m.assign k v).find k2 = if k = k2 then some v else m.find k2 := by
  unfold PtrMap.assign PtrMap.find
  rw [List.find?_cons]
  by_cases h : k = k2
  · simp [h]
  · simp only [h, decide_False, if_false]
    rw [List.find?_filter]
    congr 2
    funext e
    by_cases h2 : e.1 = k2
    · have : ¬ (k2 = k) := fun h3 => h h3.symm
      simp [h2, this]
    · simp [h2]

theorem Net.updateBox_net (db : dbBlock) (n : Net) : (n.updateBox db).net_ = n.net_ := by
  unfold Net.updateBox
  simp only
  cases hq : n.net_ with
  | none => rfl
  | some p =>
    simp only
    have inner : ∀ (boxes : List Rect) (s : Net),
        (boxes.foldl (fun m2 box => m2.extendBox box) s).net_ = s.net_ :=
      fun boxes s => foldl_preserves Net.net_ (fun m2 box => m2.extendBox box)
        (fun s2 b => rfl) boxes s
    refine Eq.trans (foldl_preserves Net.net_ _ ?_ _ _) ?_
    · intro s a
      exact inner _ s
    · refine Eq.trans (foldl_preserves Net.net_ _ ?_ _ _) rfl
      intro s a; rfl

theorem foldl_pins_mem {α : Type} (ts : List α) (f : PlacerBase → α → PlacerBase)
    (Q : Pin → Prop)
    (hf : ∀ s a, a ∈ ts → ∃ pin, (f s a).pinStor_ = s.pinStor_ ++ [pin] ∧ Q pin)
    (s : PlacerBase) (hs : ∀ pin ∈ s.pinStor_, Q pin) :
    ∀ pin ∈ (ts.foldl f s).pinStor_, Q pin := by
  induction ts generalizing s with
  | nil => exact hs
  | cons a t ih =>
    rw [List.foldl_cons]
    apply ih (fun s2 b hb => hf s2 b (List.mem_cons_of_mem _ hb))
    obtain ⟨pin, hp, hq⟩ := hf s a (List.mem_cons_self _ _)
    intro x hx
    rw [hp] at hx
    rcases List.mem_append.mp hx with h1 | h1
    · exact hs x h1
    · rw [List.mem_singleton] at h1; rw [h1]; exact hq

theorem initNetStep_inv (db : dbBlock) (pb : PlacerBase) (net : Nat) (l : List Nat)
    (h1 : pb.netStor_.map Net.net_ =
      (l.filter (fun n => decide (¬ (db.net n).sigType.isSkipped))).map some)
    (h2 : ∀ n, (db.net n).sigType.isSkipped → pb.netMap_.find n = none)
    (h3 : pinsOfKeptNets db pb.pinStor_) :
    (pb.initNetStep db net).netStor_.map Net.net_ =
      ((l ++ [net]).filter (fun n => decide (¬ (db.net n).sigType.isSkipped))).map some ∧
    (∀ n, (db.net n).sigType.isSkipped → (pb.initNetStep db net).netMap_.find n = none) ∧
    pinsOfKeptNets db (pb.initNetStep db net).pinStor_ := by
  unfold PlacerBase.initNetStep
  simp only
  by_cases hs : (db.net net).sigType = dbSigType.GROUND ∨
      (db.net net).sigType = dbSigType.POWER ∨ (db.net net).sigType = dbSigType.RESET
  · rw [if_pos hs]
    have : ¬ (decide (¬ (db.net net).sigType.isSkipped) = true) := by
      simp only [decide_eq_true_eq, not_not]; exact hs
    refine ⟨?_, h2, h3⟩
    rw [List.filter_append, List.filter_cons, if_neg this]
    simpa using h1
  · rw [if_neg hs]
    have hk : decide (¬ (db.net net).sigType.isSkipped) = true := by
      simp only [decide_eq_true_eq]; exact hs
    refine ⟨?_, ?_, ?_⟩
    · refine Eq.trans (congrArg (List.map Net.net_)
        (foldl_preserves PlacerBase.netStor_ _ ?_ _ _)) ?_
      · intro s a; rfl
      · refine Eq.trans (congrArg (List.map Net.net_)
          (foldl_preserves PlacerBase.netStor_ _ ?_ _ _)) ?_
        · intro s a; rfl
        · simp only [List.map_append, List.map_cons, List.map_nil, h1, List.filter_append,
            List.filter_cons, hk, if_true, List.filter_nil]
          unfold Net.ofDb
          rw [Net.updateBox_net]
    · intro n hn
      have hne : net ≠ n := by rintro rfl; exact hs hn
      refine Eq.trans (congrArg (fun m => PtrMap.find m n)
        (foldl_preserves PlacerBase.netMap_ _ ?_ _ _)) ?_
      · intro s a; rfl
      · refine Eq.trans (congrArg (fun m => PtrMap.find m n)
          (foldl_preserves PlacerBase.netMap_ _ ?_ _ _)) ?_
        · intro s a; rfl
        · simp only
          rw [PtrMap.find_assign, if_neg hne]
          exact h2 n hn
    · unfold pinsOfKeptNets
      apply foldl_pins_mem
      · intro s b hb
        refine ⟨_, rfl, ?_⟩
        intro t
        have hb2 : (db.bTerm b).net = some net := by
          unfold dbBlock.netBTerms at hb
          simpa using (List.mem_filter.mp hb).2
        constructor
        · intro ht; cases ht
        · intro ht
          have : b = t := by
            simp [Pin.setNet, Pin.ofBTerm, Pin.updateCoordiBTerm] at ht
            exact ht
          subst this
          exact ⟨net, hb2, hs⟩
      · apply foldl_pins_mem
        · intro s b hb
          refine ⟨_, rfl, ?_⟩
          intro t
          have hb2 : (db.iTerm b).net = some net := by
            unfold dbBlock.netITerms at hb
            simpa using (List.mem_filter.mp hb).2
          constructor
          · intro ht
            have : b = t := by
              simp [Pin.setInstance, Pin.setNet, Pin.ofITerm, Pin.updateCoordiITerm] at ht
              exact ht
            subst this
            exact ⟨net, hb2, hs⟩
          · intro ht; cases ht
        · exact h3

theorem initNets_inv (db : dbBlock) (pb : PlacerBase)
    (h1 : pb.netStor_ = []) (h2 : pb.netMap_ = []) (h3 : pb.pinStor_ = []) :
    (pb.initNets db).netStor_.map Net.net_ =
      ((List.range db.nets.length).filter
        (fun n => decide (¬ (db.net n).sigType.isSkipped))).map some ∧
    (∀ n, (db.net n).sigType.isSkipped → (pb.initNets db).netMap_.find n = none) ∧
    pinsOfKeptNets db (pb.initNets db).pinStor_ := by
  unfold PlacerBase.initNets
  have key : ∀ (l : List Nat),
      (l.foldl (PlacerBase.initNetStep db) pb).netStor_.map Net.net_ =
        (l.filter (fun n => decide (¬ (db.net n).sigType.isSkipped))).map some ∧
      (∀ n, (db.net n).sigType.isSkipped →
        (l.foldl (PlacerBase.initNetStep db) pb).netMap_.find n = none) ∧
      pinsOfKeptNets db (l.foldl (PlacerBase.initNetStep db) pb).pinStor_ := by
    intro l
    induction l using List.reverseRecOn with
    | nil =>
      refine ⟨by simp [h1], ?_, ?_⟩
      · intro n _; simp [h2, PtrMap.find]
      · intro pin hp; simp [h3] at hp
    | append_singleton t a ih =>
      rw [List.foldl_append]
      simp only [List.foldl_cons, List.foldl_nil]
      exact initNetStep_inv db _ a t ih.1 ih.2.1 ih.2.2
  exact key _

theorem initInstStep_netSide (db : dbBlock) (pb : PlacerBase) (k : Nat) (inst : Instance) :
    (pb.initInstStep db k inst).netSide = pb.netSide := by
  unfold PlacerBase.initInstStep
  simp only
  split
  · split
    · split <;> rfl
    · split <;> rfl
  · split <;> rfl

theorem initInstPtrs_netSide (db : dbBlock) (pb : PlacerBase) :
    (pb.initInstPtrs db).netSide = pb.netSide :=
  foldlIdx_preserves PlacerBase.netSide _ (initInstStep_netSide db) _ _ _

theorem initNets_nets (db : dbBlock) (pb : PlacerBase) :
    (pb.initNets db).nets_ = pb.nets_ := by
  unfold PlacerBase.initNets
  apply foldl_preserves PlacerBase.nets_
  intro s a
  unfold PlacerBase.initNetStep
  simp only
  split
  · rfl
  · refine Eq.trans (foldl_preserves PlacerBase.nets_ _ ?_ _ _) ?_
    · intro s a; rfl
    · refine Eq.trans (foldl_preserves PlacerBase.nets_ _ ?_ _ _) rfl
      intro s a; rfl

theorem initNetPinsStep_net (db : dbBlock) (pb : PlacerBase) (k : Nat) (net : Net) :
    ∃ w : Net, w.net_ = net.net_ ∧
      (pb.initNetPinsStep db k net).netStor_ = pb.netStor_.set k w ∧
      (pb.initNetPinsStep db k net).nets_ = pb.nets_ ++ [k] := by
  unfold PlacerBase.initNetPinsStep
  refine ⟨_, ?_, rfl, rfl⟩
  cases hq : net.net_ with
  | none => simp only; exact hq
  | some p =>
    simp only
    refine Eq.trans (foldl_preserves Net.net_ _ ?_ _ _) ?_
    · intro s a; rfl
    · refine Eq.trans (foldl_preserves Net.net_ _ ?_ _ _) hq
      intro s a; rfl

theorem initNetPins_nets (db : dbBlock) (l : List Net) (k0 : Nat) (s : PlacerBase)
    (hl : ∀ (j : Nat) (net : Net), l[j]? = some net →
      (s.netStor_.map Net.net_)[k0 + j]? = some net.net_) :
    (foldlIdx (PlacerBase.initNetPinsStep db) k0 s l).netStor_.map Net.net_ =
      s.netStor_.map Net.net_ ∧
    (foldlIdx (PlacerBase.initNetPinsStep db) k0 s l).nets_ =
      s.nets_ ++ List.range' k0 l.length := by
  induction l generalizing k0 s with
  | nil => simp [foldlIdx]
  | cons a t ih =>
    obtain ⟨w, hw, hs, hn⟩ := initNetPinsStep_net db s k0 a
    have h0 := hl 0 a (by simp)
    have hsame : (s.initNetPinsStep db k0 a).netStor_.map Net.net_ = s.netStor_.map Net.net_ := by
      rw [hs, List.map_set, hw]
      apply List.ext_getElem?
      intro i
      rw [List.getElem?_set]
      by_cases hi : k0 = i
      · subst hi
        simp only [Nat.add_zero] at h0
        rw [if_pos rfl, h0]
        have : k0 < (s.netStor_.map Net.net_).length := by
          by_contra hc
          rw [List.getElem?_eq_none (by omega)] at h0
          cases h0
        rw [if_pos this]
      · rw [if_neg hi]
    have := ih (k0 + 1) (s.initNetPinsStep db k0 a) (by
      intro j net hj
      rw [hsame]
      have := hl (j + 1) net (by simpa using hj)
      rw [← this]; congr 1; omega)
    simp only [foldlIdx]
    refine ⟨this.1.trans hsame, ?_⟩
    rw [this.2, hn, List.length_cons, List.range'_succ]
    simp

theorem map_getD_range (L : List Net) :
    (List.range L.length).map (fun k => (L.getD k Net.mk0).net_) = L.map Net.net_ := by
  apply List.ext_getElem?
  intro i
  by_cases h : i < L.length
  · simp [h, List.getElem?_range, List.getD_eq_getElem?_getD]
  · have h2 : L.length ≤ i := not_lt.mp h
    simp [h2, List.getElem?_eq_none]

/-- C9: a net whose signal type is `GROUND`, `POWER` or `RESET` is absent from
the model built by `PlacerBase::init`: `dbToPlace(net)` finds nothing, no net
of `nets()` is that net, and no pin of the pin store was created for one of
its terminals; the nets of `nets()` are the nets of every other signal type,
each exactly once, in the order of the database. -/
theorem C9_power_ground_reset_nets_skipped (db : dbBlock) (pb : PlacerBase)
    (h : PlacerBase.ofDb db = some pb) :
    pb.nets_.map (fun k => (pb.netAt k).net_) =
      ((List.range db.nets.length).filter
        (fun n => decide (¬ (db.net n).sigType.isSkipped))).map some ∧
    (∀ n, n < db.nets.length → (db.net n).sigType.isSkipped →
      pb.dbToPlaceNet n = none ∧
      (∀ k ∈ pb.nets_, (pb.netAt k).net_ ≠ some n) ∧
      (∀ pin ∈ pb.pinStor_,
        (∀ t ∈ db.netITerms n, pin.term_ ≠ some (TermPtr.iTerm t)) ∧
        (∀ t ∈ db.netBTerms n, pin.term_ ≠ some (TermPtr.bTerm t)))) ∧
    (∀ n, n < db.nets.length → ¬ (db.net n).sigType.isSkipped →
      (pb.nets_.filter (fun k => decide ((pb.netAt k).net_ = some n))).length = 1) := by
  obtain ⟨firstRow, p4, p5, p6, p7, p8, hfr, h4, h5, h6, h7, h8, h9⟩ := init_some _ db pb h
  have f4 : p4.netSide = ([], [], [], [], [], []) := by rw [h4]; rfl
  have f5 : p5.netSide = ([], [], [], [], [], []) := by
    rw [h5, initInstPtrs_netSide]; exact f4
  unfold PlacerBase.netSide at f5
  simp only [Prod.mk.injEq] at f5
  obtain ⟨g1, g2, g3, g4, g5, g6⟩ := f5
  obtain ⟨i1, i2, i3⟩ := initNets_inv db p5 g1 g3 g2
  rw [← h6] at i1 i2 i3
  have n6 : p6.nets_ = [] := by rw [h6, initNets_nets]; exact g5
  have e7 := initPinMap_frame p6
  rw [← h7] at e7
  obtain ⟨_, _, e7n, e7p, e7m, e7s⟩ := e7
  have e8 : p8.netStor_ = p7.netStor_ ∧ p8.pinStor_ = p7.pinStor_ ∧ p8.netMap_ = p7.netMap_ ∧
      p8.nets_ = p7.nets_ := by rw [h8]; exact ⟨rfl, rfl, rfl, rfl⟩
  have e9 := initNetPins_frame db p8
  rw [← h9] at e9
  obtain ⟨_, _, e9p, e9m, _, _⟩ := e9
  have e9n := initNetPins_nets db p8.netStor_ 0 p8 (by
    intro j net hj
    rw [Nat.zero_add, List.getElem?_map, hj]; rfl)
  have h9b : pb = foldlIdx (PlacerBase.initNetPinsStep db) 0 p8 p8.netStor_ := h9
  rw [← h9b] at e9n
  have hstor : pb.netStor_.map Net.net_ =
      ((List.range db.nets.length).filter
        (fun n => decide (¬ (db.net n).sigType.isSkipped))).map some := by
    rw [e9n.1, e8.1, e7n, i1]
  have hlen : pb.netStor_.length = p8.netStor_.length := by
    have := congrArg List.length e9n.1
    simpa using this
  have hnets : pb.nets_ = List.range pb.netStor_.length := by
    rw [e9n.2, e8.2.2.2, e7s, n6, List.nil_append, hlen, List.range_eq_range']
  have hmain : pb.nets_.map (fun k => (pb.netAt k).net_) =
      ((List.range db.nets.length).filter
        (fun n => decide (¬ (db.net n).sigType.isSkipped))).map some := by
    rw [hnets]
    unfold PlacerBase.netAt
    rw [map_getD_range, hstor]
  refine ⟨hmain, ?_, ?_⟩
  · intro n hn hskip
    refine ⟨?_, ?_, ?_⟩
    · unfold PlacerBase.dbToPlaceNet
      rw [e9m, e8.2.2.1, e7m]
      exact i2 n hskip
    · intro k hk heq
      have hm : some n ∈ pb.nets_.map (fun k => (pb.netAt k).net_) :=
        List.mem_map.mpr ⟨k, hk, heq⟩
      rw [hmain] at hm
      obtain ⟨m, hm1, hm2⟩ := List.mem_map.mp hm
      cases hm2
      have := (List.mem_filter.mp hm1).2
      simp only [decide_eq_true_eq] at this
      exact this hskip
    · intro pin hp
      rw [e9p, e8.2.1, e7p] at hp
      have hq := i3 pin hp
      constructor
      · intro t ht heq
        obtain ⟨m, hm1, hm2⟩ := (hq t).1 heq
        have : (db.iTerm t).net = some n := by
          unfold dbBlock.netITerms at ht
          simpa using (List.mem_filter.mp ht).2
        rw [this] at hm1
        cases hm1
        exact hm2 hskip
      · intro t ht heq
        obtain ⟨m, hm1, hm2⟩ := (hq t).2 heq
        have : (db.bTerm t).net = some n := by
          unfold dbBlock.netBTerms at ht
          simpa using (List.mem_filter.mp ht).2
        rw [this] at hm1
        cases hm1
        exact hm2 hskip
  · intro n hn hkeep
    have hM : (((List.range db.nets.length).filter
        (fun n => decide (¬ (db.net n).sigType.isSkipped))).map some).Nodup :=
      ((List.nodup_range _).filter _).map (fun a b hab => Option.some.inj hab)
    have hmem : some n ∈ ((List.range db.nets.length).filter
        (fun n => decide (¬ (db.net n).sigType.isSkipped))).map some :=
      List.mem_map.mpr ⟨n, List.mem_filter.mpr
        ⟨List.mem_range.mpr hn, by simpa using hkeep⟩, rfl⟩
    have hc := length_filter_eq_of_nodup _ (some n) hM hmem
    rw [← hmain, List.filter_map, List.length_map] at hc
    exact hc

theorem C9_power_ground_reset_nets_skipped_witness :
    exPbC9.nets_.map (fun k => (exPbC9.netAt k).net_) = [some 0, some 2] ∧
    exPbC9.dbToPlaceNet 3 = none ∧
    (∀ pin ∈ exPbC9.pinStor_,
      (∀ t ∈ exDbC9.netITerms 3, pin.term_ ≠ some (TermPtr.iTerm t)) ∧
      (∀ t ∈ exDbC9.netBTerms 3, pin.term_ ≠ some (TermPtr.bTerm t))) ∧
    (exPbC9.nets_.filter (fun k => decide ((exPbC9.netAt k).net_ = some 2))).length = 1 :=
  ⟨((C9_power_ground_reset_nets_skipped exDbC9 exPbC9 (by decide)).1).trans (by decide),
   ((C9_power_ground_reset_nets_skipped exDbC9 exPbC9 (by decide)).2.1 3 (by decide)
      (by decide)).1,
   ((C9_power_ground_reset_nets_skipped exDbC9 exPbC9 (by decide)).2.1 3 (by decide)
      (by decide)).2.2,
   (C9_power_ground_reset_nets_skipped exDbC9 exPbC9 (by decide)).2.2 2 (by decide)
      (by decide)⟩

/-! ## C10: the box of a net after a relocation -/

theorem Rect.join_comm (a b : Rect) : a.join b = b.join a := by
  unfold Rect.join
  rw [min_comm a.xMin, min_comm a.yMin, max_comm a.xMax, max_comm a.yMax]

theorem Rect.join_assoc (a b c : Rect) : (a.join b).join c = a.join (b.join c) := by
  unfold Rect.join
  simp only [min_assoc, max_assoc]

theorem foldl_join_eq_foldr (boxes : List Rect) (r : Rect) :
    boxes.foldl (fun acc b => b.join acc) r = boxes.foldr Rect.join r := by
  induction boxes generalizing r with
  | nil => rfl
  | cons b t ih =>
    rw [List.foldl_cons, List.foldr_cons, ih]
    clear ih
    induction t generalizing r with
    | nil => rfl
    | cons c u ih2 =>
      rw [List.foldr_cons, List.foldr_cons, ih2, ← Rect.join_assoc, ← Rect.join_assoc,
        Rect.join_comm c b]

theorem foldl_extendBox (boxes : List Rect) (n : Net) :
    (boxes.foldl (fun m box => m.extendBox box) n).box =
      boxes.foldl (fun acc b => b.join acc) n.box := by
  induction boxes generalizing n with
  | nil => rfl
  | cons b t ih => rw [List.foldl_cons, List.foldl_cons, ih]; rfl

theorem Net.updateBox_box (db : dbBlock) (n : Net) (p : Nat) (hp : n.net_ = some p) :
    (n.updateBox db).box = unionBoxes (db.netBoxes p) := by
  unfold Net.updateBox
  simp only [hp]
  have h1 : ∀ (l : List Nat) (m : Net),
      (l.foldl (fun m t => m.extendBox (db.inst (db.iTerm t).inst).bbox) m).box =
        (l.map (fun t => (db.inst (db.iTerm t).inst).bbox)).foldl
          (fun acc b => b.join acc) m.box := by
    intro l m
    rw [← foldl_extendBox, List.foldl_map]
  have h2 : ∀ (l : List Nat) (m : Net),
      (l.foldl (fun m b => (db.bTerm b).bPins.foldl (fun m2 box => m2.extendBox box) m) m).box =
        (l.flatMap (fun b => (db.bTerm b).bPins)).foldl (fun acc b => b.join acc) m.box := by
    intro l m
    rw [← foldl_extendBox, foldl_flatMap]
  rw [h2, h1]
  unfold unionBoxes dbBlock.netBoxes
  rw [← foldl_join_eq_foldr, List.foldl_append]
  rfl

theorem setLocation_netStor (pb : PlacerBase) (k : Nat) (x y : Int) :
    (pb.setLocation k x y).netStor_ = pb.netStor_ ∧
    (pb.setCenterLocation k x y).netStor_ = pb.netStor_ := by
  unfold PlacerBase.setLocation PlacerBase.setCenterLocation
  constructor <;> split <;> rfl

/-- C10 fails on the code: in the model built from `exDbC10` the box that
`Net::updateBox()` computes agrees with the union of the instance rectangles
before any move; after `setLocation(50, 50)` on the instance, whose rectangle
is then `(50,50)-(60,60)`, `updateBox()` still yields `(0,0)-(10,10)`. -/
theorem C10_counterexample :
    PlacerBase.ofDb exDbC10 = some exPbC10 ∧
    ((exPbC10.netAt 0).updateBox exDbC10).box =
      unionBoxes (exPbC10.netBoxesSpec exDbC10 (exPbC10.netAt 0)) ∧
    (((exPbC10.setLocation 0 50 50).netAt 0).updateBox exDbC10).box = ⟨0, 0, 10, 10⟩ ∧
    unionBoxes ((exPbC10.setLocation 0 50 50).netBoxesSpec exDbC10
      ((exPbC10.setLocation 0 50 50).netAt 0)) = ⟨50, 50, 60, 60⟩ ∧
    (((exPbC10.setLocation 0 50 50).netAt 0).updateBox exDbC10).box ≠
      unionBoxes ((exPbC10.setLocation 0 50 50).netBoxesSpec exDbC10
        ((exPbC10.setLocation 0 50 50).netAt 0)) := by
  decide

/-- C10 (amended): `Net::updateBox()` makes the box of a net the union of the
bounding boxes that the database holds for the instances of its instance
terminals, together with the shape boxes of its boundary terminals.
`Instance::setLocation` and `Instance::setCenterLocation` change no net and do
not write to the database, so the box computed after a relocation is the one
computed before it. -/
theorem C10_updateBox_unites_database_boxes (db : dbBlock) (pb : PlacerBase) (k : Nat)
    (x y : Int) (m p : Nat) (net : Net) (hp : net.net_ = some p)
    (hnet : (pb.setLocation k x y).netStor_[m]? = some net ∨
      (pb.setCenterLocation k x y).netStor_[m]? = some net) :
    (net.updateBox db).box = unionBoxes (db.netBoxes p) ∧ pb.netStor_[m]? = some net := by
  refine ⟨Net.updateBox_box db net p hp, ?_⟩
  rcases hnet with h | h
  · rw [(setLocation_netStor pb k x y).1] at h; exact h
  · rw [(setLocation_netStor pb k x y).2] at h; exact h

theorem C10_updateBox_unites_database_boxes_witness :
    (((exPbC10.setLocation 0 50 50).netAt 0).updateBox exDbC10).box =
      unionBoxes (exDbC10.netBoxes 0) ∧
    exPbC10.netStor_[0]? = some ((exPbC10.setLocation 0 50 50).netAt 0) :=
  C10_updateBox_unites_database_boxes exDbC10 exPbC10 0 50 50 0 0
    ((exPbC10.setLocation 0 50 50).netAt 0) (by decide) (Or.inl (by decide))

/-! ## C11: `updateBox` is idempotent -/

theorem Net.updateBox_pins (db : dbBlock) (n : Net) : (n.updateBox db).pins_ = n.pins_ := by
  unfold Net.updateBox
  simp only
  cases hq : n.net_ with
  | none => rfl
  | some p =>
    simp only
    have inner : ∀ (boxes : List Rect) (s : Net),
        (boxes.foldl (fun m2 box => m2.extendBox box) s).pins_ = s.pins_ :=
      fun boxes s => foldl_preserves Net.pins_ (fun m2 box => m2.extendBox box)
        (fun s2 b => rfl) boxes s
    refine Eq.trans (foldl_preserves Net.pins_ _ ?_ _ _) ?_
    · intro s a
      exact inner _ s
    · refine Eq.trans (foldl_preserves Net.pins_ _ ?_ _ _) rfl
      intro s a; rfl

theorem Net.updateBox_congr (db : dbBlock) (n m : Net) (h1 : n.net_ = m.net_)
    (h2 : n.pins_ = m.pins_) : n.updateBox db = m.updateBox db := by
  unfold Net.updateBox
  simp only [h1, h2]

/-- C11: `Net::updateBox` is idempotent: calling it twice in a row leaves the
net, and so its `(lx, ly, ux, uy)`, as calling it once does; and the box it
leaves does not depend on the box the net held before the call. -/
theorem C11_updateBox_idempotent (db : dbBlock) (n : Net) (lx ly ux uy : Int) :
    (n.updateBox db).updateBox db = n.updateBox db ∧
    ((n.updateBox db).updateBox db).box = (n.updateBox db).box ∧
    ({ n with lx_ := lx, ly_ := ly, ux_ := ux, uy_ := uy } : Net).updateBox db =
      n.updateBox db := by
  have h := Net.updateBox_congr db (n.updateBox db) n (Net.updateBox_net db n)
    (Net.updateBox_pins db n)
  exact ⟨h, by rw [h], Net.updateBox_congr db _ n rfl rfl⟩

/-! ## C12: the width of `hpwl` -/

theorem wrap32_of_isInt32 (z : Int) (h : isInt32 z) : wrap32 z = z := by
  unfold isInt32 INT_MIN INT_MAX at h
  unfold wrap32
  omega

theorem Net.hpwl_exact (n : Net) (hx : 0 ≤ n.ux_ - n.lx_) (hy : 0 ≤ n.uy_ - n.ly_)
    (hfit : (n.ux_ - n.lx_) + (n.uy_ - n.ly_) ≤ INT_MAX) :
    n.hpwl = (n.ux_ - n.lx_) + (n.uy_ - n.ly_) := by
  unfold INT_MAX at hfit
  unfold Net.hpwl
  rw [wrap32_of_isInt32 (n.ux_ - n.lx_) (by unfold isInt32 INT_MIN INT_MAX; omega),
    wrap32_of_isInt32 (n.uy_ - n.ly_) (by unfold isInt32 INT_MIN INT_MAX; omega),
    wrap32_of_isInt32 _ (by unfold isInt32 INT_MIN INT_MAX; omega)]

/-- C12 fails on the code: the net of `exDbC12` has the box
`(0,0)-(1073741824,1073741824)` of 32-bit coordinates with `lx ≤ ux` and
`ly ≤ uy`, for which `(ux - lx) + (uy - ly)` is `2147483648`; `Net::hpwl()`
adds in `int` before it converts and returns `-2147483648`, and so does
`PlacerBase::hpwl()` on a model whose only net it is. -/
theorem C12_hpwl_adds_in_int :
    (Net.ofDb exDbC12 0).box = ⟨0, 0, 1073741824, 1073741824⟩ ∧
    (isInt32 (Net.ofDb exDbC12 0).lx_ ∧ isInt32 (Net.ofDb exDbC12 0).ly_ ∧
      isInt32 (Net.ofDb exDbC12 0).ux_ ∧ isInt32 (Net.ofDb exDbC12 0).uy_) ∧
    ((Net.ofDb exDbC12 0).lx_ ≤ (Net.ofDb exDbC12 0).ux_ ∧
      (Net.ofDb exDbC12 0).ly_ ≤ (Net.ofDb exDbC12 0).uy_) ∧
    ((Net.ofDb exDbC12 0).ux_ - (Net.ofDb exDbC12 0).lx_) +
      ((Net.ofDb exDbC12 0).uy_ - (Net.ofDb exDbC12 0).ly_) = 2147483648 ∧
    (Net.ofDb exDbC12 0).hpwl = -2147483648 ∧
    (({ PlacerBase.mk0 with netStor_ := [Net.ofDb exDbC12 0], nets_ := [0] } :
      PlacerBase).hpwl exDbC12).2 = -2147483648 := by
  decide

/-! ## C13 and C14: pin coordinates at construction -/

theorem floorDiv_spec (a s : Int) (hs : 0 < s) :
    floorDiv a s * s ≤ a ∧ a < (floorDiv a s + 1) * s := by
  unfold floorDiv
  rw [Int.fdiv_eq_ediv a (le_of_lt hs)]
  exact ⟨Int.ediv_mul_le a (ne_of_gt hs), Int.lt_ediv_add_one_mul_self a hs⟩

theorem floorDiv_unique (a s q : Int) (hs : 0 < s) (h1 : q * s ≤ a) (h2 : a < (q + 1) * s) :
    floorDiv a s = q := by
  obtain ⟨f1, f2⟩ := floorDiv_spec a s hs
  by_contra hne
  rcases lt_or_gt_of_ne hne with h | h
  · have : (floorDiv a s + 1) * s ≤ q * s := Int.mul_le_mul_of_nonneg_right (by omega) (le_of_lt hs)
    omega
  · have : (q + 1) * s ≤ floorDiv a s * s := Int.mul_le_mul_of_nonneg_right (by omega) (le_of_lt hs)
    omega

theorem ceilDiv_spec (a s : Int) (hs : 0 < s) :
    (ceilDiv a s - 1) * s < a ∧ a ≤ ceilDiv a s * s := by
  obtain ⟨f1, f2⟩ := floorDiv_spec (-a) s hs
  unfold ceilDiv
  unfold floorDiv at f1 f2
  have e1 : (-(-a).fdiv s - 1) * s = -(((-a).fdiv s + 1) * s) := by ring
  have e2 : (-(-a).fdiv s) * s = -((-a).fdiv s * s) := by ring
  rw [e1, e2]
  omega

theorem ceilDiv_unique (a s c : Int) (hs : 0 < s) (h1 : (c - 1) * s < a) (h2 : a ≤ c * s) :
    ceilDiv a s = c := by
  have h := floorDiv_unique (-a) s (-c) hs
    (by have : -c * s = -(c * s) := by ring
        omega)
    (by have : (-c + 1) * s = -((c - 1) * s) := by ring
        omega)
  unfold ceilDiv
  unfold floorDiv at h
  omega

theorem tdiv_eq_floorDiv (a s : Int) (ha : 0 ≤ a) (hs : 0 < s) : a.tdiv s = floorDiv a s := by
  unfold floorDiv
  rw [Int.fdiv_eq_ediv a (le_of_lt hs), Int.tdiv_eq_ediv ha (le_of_lt hs)]

theorem getMinMaxIdx_lower (lo coreLo s hi n : Int) (hs : 0 < s) :
    (getMinMaxIdx lo hi coreLo s 0 n).1 = max 0 (floorDiv (lo - coreLo) s) := by
  unfold getMinMaxIdx
  simp only
  by_cases ha : 0 ≤ lo - coreLo
  · rw [tdiv_eq_floorDiv _ _ ha hs]
  · have h1 : (lo - coreLo).tdiv s ≤ 0 := by
      have h0 : 0 ≤ (-(lo - coreLo)).tdiv s := Int.tdiv_nonneg (by omega) (le_of_lt hs)
      rw [Int.neg_tdiv] at h0
      omega
    have h2 : floorDiv (lo - coreLo) s < 0 := by
      obtain ⟨f1, f2⟩ := floorDiv_spec (lo - coreLo) s hs
      by_contra hge
      have : 0 ≤ floorDiv (lo - coreLo) s * s := Int.mul_nonneg (by omega) (le_of_lt hs)
      omega
    omega

theorem fastModulo_eq_zero_iff (a s : Int) (ha : 0 ≤ a) (hs : 0 < s) :
    fastModulo a s = 0 ↔ a = floorDiv a s * s := by
  obtain ⟨f1, f2⟩ := floorDiv_spec a s hs
  have hq : 0 ≤ floorDiv a s := by
    rw [← tdiv_eq_floorDiv a s ha hs]
    exact Int.tdiv_nonneg ha (le_of_lt hs)
  have hmod : a.tmod s = a - floorDiv a s * s := by
    have h := Int.tmod_add_tdiv a s
    rw [tdiv_eq_floorDiv a s ha hs] at h
    have e : s * floorDiv a s = floorDiv a s * s := mul_comm _ _
    omega
  unfold fastModulo
  by_cases hge : a ≥ s
  · rw [if_pos hge, hmod]
    omega
  · rw [if_neg hge]
    have hq0 : floorDiv a s = 0 := floorDiv_unique a s 0 hs (by omega) (by omega)
    rw [hq0]
    omega

theorem getMinMaxIdx_upper (lo coreLo s hi n : Int) (hs : 0 < s) (hhi : coreLo ≤ hi) :
    (getMinMaxIdx lo hi coreLo s 0 n).2 = min n (ceilDiv (hi - coreLo) s) := by
  have ha : 0 ≤ hi - coreLo := by omega
  obtain ⟨f1, f2⟩ := floorDiv_spec (hi - coreLo) s hs
  have hz := fastModulo_eq_zero_iff (hi - coreLo) s ha hs
  unfold getMinMaxIdx
  simp only
  rw [tdiv_eq_floorDiv _ _ ha hs]
  by_cases hm : fastModulo (hi - coreLo) s = 0
  · rw [if_pos hm]
    have hex := hz.mp hm
    rw [ceilDiv_unique (hi - coreLo) s (floorDiv (hi - coreLo) s) hs
      (by have : (floorDiv (hi - coreLo) s - 1) * s = floorDiv (hi - coreLo) s * s - s := by ring
          omega)
      (by omega)]
  · rw [if_neg hm]
    have hex : hi - coreLo ≠ floorDiv (hi - coreLo) s * s := fun h => hm (hz.mpr h)
    rw [ceilDiv_unique (hi - coreLo) s (floorDiv (hi - coreLo) s + 1) hs
      (by have : (floorDiv (hi - coreLo) s + 1 - 1) * s = floorDiv (hi - coreLo) s * s := by ring
          omega)
      (by omega)]

/-- C15 fails on the code: for the span `[50, 60]` with `coreLo = 0`,
`siteSize = 10` and `siteCount = 3` the code returns the lower index `5`,
which is above `siteCount`; clamped to `[0, 3]` it would be `3`. -/
theorem C15_counterexample :
    getMinMaxIdx 50 60 0 10 0 3 = (5, 3) ∧
    getMinMaxIdxSpec 50 60 0 10 3 = (3, 3) ∧
    getMinMaxIdx 50 60 0 10 0 3 ≠ getMinMaxIdxSpec 50 60 0 10 3 := by
  decide

/-- C15 (amended): for a span `[lo, hi]` with `coreLo ≤ hi`, a site size
`siteSize > 0` and a grid size `siteCount ≥ 0`,
`getMinMaxIdx(lo, hi, coreLo, siteSize, 0, siteCount)` returns
`lowerIdx = max(0, floor((lo - coreLo)/siteSize))`, bounded below by `0` only,
and `upperIdx = min(siteCount, ceil((hi - coreLo)/siteSize))`, which lies in
`[0, siteCount]`; the lower index is the floor clamped to `[0, siteCount]` when
the floor is at most `siteCount`; and when `hi - coreLo` is an exact multiple
`q * siteSize` the upper index is `min(siteCount, q)`, with no `+1`. -/
theorem C15_index_range_of_span (lo hi coreLo siteSize siteCount : Int)
    (hs : 0 < siteSize) (hn : 0 ≤ siteCount) (hhi : coreLo ≤ hi) :
    (getMinMaxIdx lo hi coreLo siteSize 0 siteCount).1 =
      max 0 (floorDiv (lo - coreLo) siteSize) ∧
    (getMinMaxIdx lo hi coreLo siteSize 0 siteCount).2 =
      min siteCount (ceilDiv (hi - coreLo) siteSize) ∧
    (getMinMaxIdx lo hi coreLo siteSize 0 siteCount).2 =
      clamp 0 siteCount (ceilDiv (hi - coreLo) siteSize) ∧
    (floorDiv (lo - coreLo) siteSize ≤ siteCount →
      (getMinMaxIdx lo hi coreLo siteSize 0 siteCount).1 =
        clamp 0 siteCount (floorDiv (lo - coreLo) siteSize)) ∧
    (∀ q : Int, hi - coreLo = q * siteSize →
      (getMinMaxIdx lo hi coreLo siteSize 0 siteCount).2 = min siteCount q) := by
  have hl := getMinMaxIdx_lower lo coreLo siteSize hi siteCount hs
  have hu := getMinMaxIdx_upper lo coreLo siteSize hi siteCount hs hhi
  obtain ⟨c1, c2⟩ := ceilDiv_spec (hi - coreLo) siteSize hs
  have hc0 : 0 ≤ ceilDiv (hi - coreLo) siteSize := by
    by_contra hneg
    have : ceilDiv (hi - coreLo) siteSize * siteSize ≤ (-1) * siteSize :=
      Int.mul_le_mul_of_nonneg_right (by omega) (le_of_lt hs)
    omega
  refine ⟨hl, hu, ?_, ?_, ?_⟩
  · rw [hu]; unfold clamp; omega
  · intro hle
    rw [hl]; unfold clamp; omega
  · intro q hq
    rw [hu, ceilDiv_unique (hi - coreLo) siteSize q hs
      (by have : (q - 1) * siteSize = q * siteSize - siteSize := by ring
          omega)
      (by omega)]

/-- The span `[-15, 30]` on a grid of `5` sites of size `10` from `coreLo = 0`
has the index range `[0, 3)`; the span `[12, 37]` has `[1, 4)`. -/
theorem C15_index_range_of_span_witness :
    getMinMaxIdx (-15) 30 0 10 0 5 = (0, 3) ∧
    (getMinMaxIdx (-15) 30 0 10 0 5).1 = max 0 (floorDiv (-15 - 0) 10) ∧
    (getMinMaxIdx (-15) 30 0 10 0 5).2 = min 5 (ceilDiv (30 - 0) 10) ∧
    floorDiv (-15 - 0) 10 = -2 ∧ ceilDiv (30 - 0) 10 = 3 :=
  have h := C15_index_range_of_span (-15) 30 0 10 5 (by decide) (by decide) (by decide)
  ⟨by decide, h.1, h.2.1, by decide, by decide⟩

/-! ## C16 and C17: classification and areas of the instance loop -/

theorem initInstStep_place (db : dbBlock) (pb : PlacerBase) (k : Nat) (inst : Instance) :
    (pb.initInstStep db k inst).siteSizeY_ = pb.siteSizeY_ ∧
    (pb.initInstStep db k inst).insts_ = pb.insts_ ++ [k] ∧
    (pb.initInstStep db k inst).placeInsts_ =
      pb.placeInsts_ ++ (if inst.isPlaceInstance db then [k] else []) ∧
    (pb.initInstStep db k inst).dummyInsts_ =
      pb.dummyInsts_ ++ (if inst.isDummy then [k] else []) ∧
    (pb.initInstStep db k inst).placeInstsArea_ =
      pb.placeInstsArea_ + (if inst.isPlaceInstance db then inst.dx * inst.dy else 0) ∧
    (pb.initInstStep db k inst).macroInstsArea_ =
      pb.macroInstsArea_ + (if macroCounted db pb.siteSizeY_ inst then inst.dx * inst.dy else 0) ∧
    (pb.initInstStep db k inst).stdInstsArea_ =
      pb.stdInstsArea_ + (if stdCounted db pb.siteSizeY_ inst then inst.dx * inst.dy else 0) := by
  unfold PlacerBase.initInstStep macroCounted stdCounted Instance.isPlaceInstance Instance.isDummy
    Instance.isInstance
  cases h1 : inst.inst_ <;> cases h2 : inst.isFixed db <;>
    cases h3 : isCoreAreaOverlap pb.die_ inst <;>
    by_cases h4 : inst.dy > pb.siteSizeY_ * 6 <;> simp [h4]

theorem initInstPtrs_place (db : dbBlock) (l : List Instance) (k0 : Nat) (pb : PlacerBase) :
    (foldlIdx (PlacerBase.initInstStep db) k0 pb l).siteSizeY_ = pb.siteSizeY_ ∧
    (foldlIdx (PlacerBase.initInstStep db) k0 pb l).insts_ =
      pb.insts_ ++ (l.enumFrom k0).map Prod.fst ∧
    (foldlIdx (PlacerBase.initInstStep db) k0 pb l).placeInsts_ =
      pb.placeInsts_ ++
        ((l.enumFrom k0).filter (fun e => e.2.isPlaceInstance db)).map Prod.fst ∧
    (foldlIdx (PlacerBase.initInstStep db) k0 pb l).dummyInsts_ =
      pb.dummyInsts_ ++ ((l.enumFrom k0).filter (fun e => e.2.isDummy)).map Prod.fst ∧
    (foldlIdx (PlacerBase.initInstStep db) k0 pb l).placeInstsArea_ =
      pb.placeInstsArea_ + sumArea (l.filter (fun i => i.isPlaceInstance db)) ∧
    (foldlIdx (PlacerBase.initInstStep db) k0 pb l).macroInstsArea_ =
      pb.macroInstsArea_ + sumArea (l.filter (macroCounted db pb.siteSizeY_)) ∧
    (foldlIdx (PlacerBase.initInstStep db) k0 pb l).stdInstsArea_ =
      pb.stdInstsArea_ + sumArea (l.filter (stdCounted db pb.siteSizeY_)) := by
  induction l generalizing k0 pb with
  | nil => simp [foldlIdx, sumArea]
  | cons a t ih =>
    obtain ⟨e1, e2, e3, e4, e5, e6, e7⟩ := initInstStep_place db pb k0 a
    obtain ⟨i1, i2, i3, i4, i5, i6, i7⟩ := ih (k0 + 1) (pb.initInstStep db k0 a)
    simp only [foldlIdx, List.enumFrom_cons, List.filter_cons, List.map_cons]
    refine ⟨by rw [i1, e1], ?_, ?_, ?_, ?_, ?_, ?_⟩
    · rw [i2, e2]; simp
    · rw [i3, e3]
      by_cases h : a.isPlaceInstance db = true <;> simp [h]
    · rw [i4, e4]
      by_cases h : a.isDummy = true <;> simp [h]
    · rw [i5, e5]
      by_cases h : a.isPlaceInstance db = true <;> simp [h, sumArea, add_assoc]
    · rw [i6, e6, e1]
      by_cases h : macroCounted db pb.siteSizeY_ a = true <;> simp [h, sumArea, add_assoc]
    · rw [i7, e7, e1]
      by_cases h : stdCounted db pb.siteSizeY_ a = true <;> simp [h, sumArea, add_assoc]

theorem mem_filter_enum {α : Type} (l : List α) (p : Nat × α → Bool) (k : Nat) :
    k ∈ (l.enum.filter p).map Prod.fst ↔ ∃ a, l[k]? = some a ∧ p (k, a) = true := by
  constructor
  · intro hm
    obtain ⟨⟨k2, a2⟩, hm2, rfl⟩ := List.mem_map.mp hm
    obtain ⟨hm3, hp2⟩ := List.mem_filter.mp hm2
    exact ⟨a2, List.mk_mem_enum_iff_getElem?.mp hm3, hp2⟩
  · rintro ⟨a, ha, hp⟩
    exact List.mem_map.mpr ⟨(k, a), List.mem_filter.mpr
      ⟨List.mk_mem_enum_iff_getElem?.mpr ha, hp⟩, rfl⟩

theorem mem_enum_fst {α : Type} (l : List α) (k : Nat) :
    k ∈ l.enum.map Prod.fst ↔ ∃ a, l[k]? = some a := by
  have h := mem_filter_enum l (fun _ => true) k
  simp only [List.filter_true, and_true] at h
  exact h

theorem initStor_fresh_place (db : dbBlock) (firstRow : dbRow) :
    ((({ PlacerBase.mk0 with db_ := true } : PlacerBase).initStor db
      firstRow).initInstsForFragmentedRow db).insts_ = [] ∧
    ((({ PlacerBase.mk0 with db_ := true } : PlacerBase).initStor db
      firstRow).initInstsForFragmentedRow db).placeInsts_ = [] ∧
    ((({ PlacerBase.mk0 with db_ := true } : PlacerBase).initStor db
      firstRow).initInstsForFragmentedRow db).dummyInsts_ = [] ∧
    ((({ PlacerBase.mk0 with db_ := true } : PlacerBase).initStor db
      firstRow).initInstsForFragmentedRow db).placeInstsArea_ = 0 ∧
    ((({ PlacerBase.mk0 with db_ := true } : PlacerBase).initStor db
      firstRow).initInstsForFragmentedRow db).macroInstsArea_ = 0 ∧
    ((({ PlacerBase.mk0 with db_ := true } : PlacerBase).initStor db
      firstRow).initInstsForFragmentedRow db).stdInstsArea_ = 0 :=
  ⟨rfl, rfl, rfl, rfl, rfl, rfl⟩

/-- What `PlacerBase::init` on a fresh object leaves in the lists and areas of
its instance loop, in terms of the instance store `stor` the loop runs on. -/
theorem init_place (db : dbBlock) (pb : PlacerBase) (h : PlacerBase.ofDb db = some pb) :
    ∃ stor : List Instance,
      (∀ (k : Nat) (inst : Instance), pb.instStor_[k]? = some inst →
        ∃ inst0, stor[k]? = some inst0 ∧ inst.inst_ = inst0.inst_ ∧ inst.rect = inst0.rect) ∧
      (∀ (k : Nat) (inst0 : Instance), stor[k]? = some inst0 →
        ∃ inst, pb.instStor_[k]? = some inst) ∧
      pb.insts_ = stor.enum.map Prod.fst ∧
      pb.placeInsts_ = (stor.enum.filter (fun e => e.2.isPlaceInstance db)).map Prod.fst ∧
      pb.dummyInsts_ = (stor.enum.filter (fun e => e.2.isDummy)).map Prod.fst ∧
      pb.fixedInsts_ = (stor.enum.filter (fun e => fixedKept pb.die_ db e.2)).map Prod.fst ∧
      pb.placeInstsArea_ = sumArea (stor.filter (fun i => i.isPlaceInstance db)) ∧
      pb.macroInstsArea_ = sumArea (stor.filter (macroCounted db pb.siteSizeY_)) ∧
      pb.stdInstsArea_ = sumArea (stor.filter (stdCounted db pb.siteSizeY_)) ∧
      pb.instStor_.map (fun i => (i.inst_, i.rect)) = stor.map (fun i => (i.inst_, i.rect)) := by
  obtain ⟨firstRow, p4, p5, p6, p7, p8, hfr, h4, h5, h6, h7, h8, h9⟩ := init_some _ db pb h
  obtain ⟨firstRow2, p4b, hfr2, h4b, hdie, hside, hinst⟩ := init_instSide _ db pb h
  have hrow : firstRow2 = firstRow := by
    rw [hfr] at hfr2
    exact (Option.some.inj hfr2).symm
  subst hrow
  have hp : p4b = p4 := by rw [h4, h4b]
  subst hp
  obtain ⟨f1, f2, f3, f4, f5, f6⟩ := initStor_fresh_place db firstRow2
  rw [← h4] at f1 f2 f3 f4 f5 f6
  obtain ⟨g1, g2⟩ := initStor_fresh db firstRow2
  rw [← h4] at g1
  obtain ⟨l1, l2, l3, l4, l5, l6, l7⟩ := initInstPtrs_place db p4b.instStor_ 0 p4b
  obtain ⟨m1, m2, m3, m4⟩ := initInstPtrs_lists db p4b.instStor_ 0 p4b
  rw [f1, List.nil_append] at l2
  rw [f2, List.nil_append] at l3
  rw [f3, List.nil_append] at l4
  rw [f4, zero_add] at l5
  rw [f5, zero_add] at l6
  rw [f6, zero_add] at l7
  rw [g1, List.nil_append] at m3
  unfold PlacerBase.instSide at hside
  simp only [Prod.mk.injEq] at hside
  obtain ⟨s1, s2, s3, s4, s5, s6, s7, s8, s9, s10, s11, s12, s13⟩ := hside
  have hY : pb.siteSizeY_ = p4b.siteSizeY_ := by rw [s3, l1]
  have e9 := initNetPins_frame db p8
  rw [← h9] at e9
  have e7 := initPinMap_frame p6
  rw [← h7] at e7
  have e6 := initNets_frame db p5
  rw [← h6] at e6
  have hstor : pb.instStor_ = p4b.instStor_.map (p7.fillInstPins db) := by
    rw [e9.2.1, h8]
    show p7.instStor_.map (p7.fillInstPins db) = _
    rw [e7.2.1, e6.2, h5]
    exact congrArg _ m2
  refine ⟨p4b.instStor_, hinst, ?_, ?_, ?_, ?_, ?_, ?_, ?_, ?_, ?_⟩
  · intro k inst0 hk
    rw [hstor, List.getElem?_map, hk]
    exact ⟨_, rfl⟩
  · rw [s4, l2]; rfl
  · rw [s5, l3]; rfl
  · rw [s7, l4]; rfl
  · rw [s6, m3, hdie]; rfl
  · rw [s9, l5]
  · rw [s11, l6, hY]
  · rw [s12, l7, hY]
  · rw [hstor, List.map_map]
    apply List.map_congr_left
    intro a _
    have := fillInstPins_keeps p7 db a
    simp only [Function.comp, this.1, this.2]

theorem sumArea_filter_congr (p : Instance → Bool)
    (hp : ∀ x y : Instance, x.inst_ = y.inst_ → x.rect = y.rect → p x = p y)
    (a b : List Instance)
    (h : a.map (fun i => (i.inst_, i.rect)) = b.map (fun i => (i.inst_, i.rect))) :
    sumArea (a.filter p) = sumArea (b.filter p) := by
  induction a generalizing b with
  | nil =>
    cases b with
    | nil => rfl
    | cons y t => simp at h
  | cons x s ih =>
    cases b with
    | nil => simp at h
    | cons y t =>
      simp only [List.map_cons, List.cons.injEq, Prod.mk.injEq] at h
      obtain ⟨⟨k1, k2⟩, ht⟩ := h
      have hxy := hp x y k1 k2
      have harea : x.dx * x.dy = y.dx * y.dy := by
        unfold Instance.rect at k2
        simp only [Rect.mk.injEq] at k2
        unfold Instance.dx Instance.dy
        rw [k2.1, k2.2.1, k2.2.2.1, k2.2.2.2]
      have := ih t ht
      unfold sumArea at this ⊢
      simp only [List.filter_cons, hxy]
      split
      · simp only [List.map_cons, List.sum_cons, harea, this]
      · exact this

theorem isPlaceInstance_congr (db : dbBlock) (x y : Instance) (h1 : x.inst_ = y.inst_) :
    x.isPlaceInstance db = y.isPlaceInstance db ∧ x.isDummy = y.isDummy ∧
    x.isInstance = y.isInstance ∧ x.isFixed db = y.isFixed db := by
  unfold Instance.isPlaceInstance Instance.isInstance Instance.isFixed Instance.isDummy
  rw [h1]
  exact ⟨rfl, rfl, rfl, rfl⟩

theorem dy_congr (x y : Instance) (h : x.rect = y.rect) : x.dy = y.dy := by
  unfold Instance.rect at h
  simp only [Rect.mk.injEq] at h
  unfold Instance.dy
  rw [h.2.1, h.2.2.2]

/-- C16: `Instance::isFixed()` is true exactly for a filler and for a real instance
whose status is LOCKED, FIRM or COVER, and false exactly for a real instance
whose status is NONE, UNPLACED, SUGGESTED or PLACED;
`isPlaceInstance()` is true exactly for a real instance that is not fixed; and
after `PlacerBase::init` every entry of `insts()` points to a stored instance
that is in `placeInsts()` iff it is movable, in `dummyInsts()` iff it is a
filler, and is exactly one of movable, real and fixed, or filler; every entry
of `fixedInsts()` is real and fixed; and no entry is in two of `placeInsts()`,
`fixedInsts()`, `dummyInsts()`. -/
theorem C16_classification_is_partition (db : dbBlock) (pb : PlacerBase)
    (h : PlacerBase.ofDb db = some pb) :
    (∀ i : Instance, i.isFixed db = true ↔
      (i.inst_ = none ∨ ∃ p, i.inst_ = some p ∧
        ((db.inst p).status = dbPlacementStatus.LOCKED ∨
          (db.inst p).status = dbPlacementStatus.FIRM ∨
          (db.inst p).status = dbPlacementStatus.COVER))) ∧
    (∀ i : Instance, i.isFixed db = false ↔
      ∃ p, i.inst_ = some p ∧
        ((db.inst p).status = dbPlacementStatus.NONE ∨
          (db.inst p).status = dbPlacementStatus.UNPLACED ∨
          (db.inst p).status = dbPlacementStatus.SUGGESTED ∨
          (db.inst p).status = dbPlacementStatus.PLACED)) ∧
    (∀ i : Instance, i.isPlaceInstance db = true ↔
      (i.isDummy = false ∧ i.isFixed db = false)) ∧
    (∀ k ∈ pb.insts_, ∃ inst, pb.instStor_[k]? = some inst ∧
      (k ∈ pb.placeInsts_ ↔ inst.isPlaceInstance db = true) ∧
      (k ∈ pb.dummyInsts_ ↔ inst.isDummy = true) ∧
      (k ∈ pb.fixedInsts_ → inst.isDummy = false ∧ inst.isFixed db = true) ∧
      (k ∈ pb.placeInsts_ ∨ (inst.isDummy = false ∧ inst.isFixed db = true) ∨
        k ∈ pb.dummyInsts_) ∧
      ¬ (k ∈ pb.placeInsts_ ∧ (inst.isDummy = false ∧ inst.isFixed db = true)) ∧
      ¬ (k ∈ pb.placeInsts_ ∧ k ∈ pb.dummyInsts_) ∧
      ¬ ((inst.isDummy = false ∧ inst.isFixed db = true) ∧ k ∈ pb.dummyInsts_)) ∧
    (∀ k, (k ∈ pb.placeInsts_ ∨ k ∈ pb.fixedInsts_ ∨ k ∈ pb.dummyInsts_) → k ∈ pb.insts_) ∧
    (∀ k, ¬ (k ∈ pb.placeInsts_ ∧ k ∈ pb.fixedInsts_) ∧
      ¬ (k ∈ pb.placeInsts_ ∧ k ∈ pb.dummyInsts_) ∧
      ¬ (k ∈ pb.fixedInsts_ ∧ k ∈ pb.dummyInsts_)) := by
  obtain ⟨stor, hback, hfwd, hin, hpl, hdu, hfi, _, _, _, _⟩ := init_place db pb h
  have mP : ∀ k, k ∈ pb.placeInsts_ ↔ ∃ a, stor[k]? = some a ∧ a.isPlaceInstance db = true := by
    intro k; rw [hpl]; exact mem_filter_enum stor _ k
  have mD : ∀ k, k ∈ pb.dummyInsts_ ↔ ∃ a, stor[k]? = some a ∧ a.isDummy = true := by
    intro k; rw [hdu]; exact mem_filter_enum stor _ k
  have mF : ∀ k, k ∈ pb.fixedInsts_ ↔ ∃ a, stor[k]? = some a ∧ fixedKept pb.die_ db a = true := by
    intro k; rw [hfi]; exact mem_filter_enum stor _ k
  have mI : ∀ k, k ∈ pb.insts_ ↔ ∃ a, stor[k]? = some a := by
    intro k; rw [hin]; exact mem_enum_fst stor k
  have cls : ∀ a : Instance,
      (a.isPlaceInstance db = true ↔ (a.isDummy = false ∧ a.isFixed db = false)) ∧
      (a.isDummy = true → a.isFixed db = true) ∧
      (fixedKept pb.die_ db a = true → a.isDummy = false ∧ a.isFixed db = true) := by
    intro a
    unfold fixedKept Instance.isPlaceInstance Instance.isInstance Instance.isDummy
      Instance.isFixed
    cases a.inst_ <;> simp
    intro h1 _
    exact h1
  refine ⟨?_, ?_, fun i => (cls i).1, ?_, ?_, ?_⟩
  · intro i
    unfold Instance.isFixed
    cases hq : i.inst_ with
    | none => simp
    | some p => cases hs : (db.inst p).status <;> simp [hs]
  · intro i
    unfold Instance.isFixed
    cases hq : i.inst_ with
    | none => simp
    | some p => cases hs : (db.inst p).status <;> simp [hs]
  · intro k hk
    obtain ⟨a, ha⟩ := (mI k).mp hk
    obtain ⟨inst, hinst⟩ := hfwd k a ha
    obtain ⟨a2, ha2, q1, q2⟩ := hback k inst hinst
    rw [ha] at ha2
    have haa : a = a2 := Option.some.inj ha2
    subst haa
    obtain ⟨c1, c2, c3, c4⟩ := isPlaceInstance_congr db inst a q1
    have hP : k ∈ pb.placeInsts_ ↔ inst.isPlaceInstance db = true := by
      rw [mP k, c1]
      constructor
      · rintro ⟨b, hb, hpb⟩
        rw [ha] at hb; cases hb; exact hpb
      · intro hp; exact ⟨a, ha, hp⟩
    have hD : k ∈ pb.dummyInsts_ ↔ inst.isDummy = true := by
      rw [mD k, c2]
      constructor
      · rintro ⟨b, hb, hpb⟩
        rw [ha] at hb; cases hb; exact hpb
      · intro hp; exact ⟨a, ha, hp⟩
    have hF : k ∈ pb.fixedInsts_ → inst.isDummy = false ∧ inst.isFixed db = true := by
      rw [mF k, c2, c4]
      rintro ⟨b, hb, hpb⟩
      rw [ha] at hb; cases hb
      exact (cls a).2.2 hpb
    obtain ⟨k1, k2, _⟩ := cls inst
    refine ⟨inst, hinst, hP, hD, hF, ?_, ?_, ?_, ?_⟩
    · rw [hP, hD, k1]
      cases inst.isDummy <;> cases inst.isFixed db <;> simp
    · rw [hP, k1]
      rintro ⟨⟨_, x⟩, ⟨_, y⟩⟩
      rw [x] at y; cases y
    · rw [hP, hD, k1]
      rintro ⟨⟨x, _⟩, y⟩
      rw [x] at y; cases y
    · rw [hD]
      rintro ⟨⟨x, _⟩, y⟩
      rw [x] at y; cases y
  · intro k hk
    rw [mI k]
    rcases hk with hk | hk | hk
    · obtain ⟨a, ha, _⟩ := (mP k).mp hk; exact ⟨a, ha⟩
    · obtain ⟨a, ha, _⟩ := (mF k).mp hk; exact ⟨a, ha⟩
    · obtain ⟨a, ha, _⟩ := (mD k).mp hk; exact ⟨a, ha⟩
  · intro k
    refine ⟨?_, ?_, ?_⟩
    · rintro ⟨hp, hf⟩
      obtain ⟨a, ha, pa⟩ := (mP k).mp hp
      obtain ⟨b, hb, pb2⟩ := (mF k).mp hf
      rw [ha] at hb; cases hb
      have x := ((cls a).1.mp pa).2
      have y := ((cls a).2.2 pb2).2
      rw [x] at y; cases y
    · rintro ⟨hp, hd⟩
      obtain ⟨a, ha, pa⟩ := (mP k).mp hp
      obtain ⟨b, hb, pb2⟩ := (mD k).mp hd
      rw [ha] at hb; cases hb
      have x := ((cls a).1.mp pa).1
      rw [x] at pb2; cases pb2
    · rintro ⟨hf, hd⟩
      obtain ⟨a, ha, pa⟩ := (mF k).mp hf
      obtain ⟨b, hb, pb2⟩ := (mD k).mp hd
      rw [ha] at hb; cases hb
      have x := ((cls a).2.2 pa).1
      rw [x] at pb2; cases pb2

/-- In the model built from `exDbC16` the stored instances `0` and `1` are
movable, `2` is real and fixed, and `3` to `7` are fillers. -/
theorem C16_classification_is_partition_witness :
    PlacerBase.ofDb exDbC16 = some exPbC16 ∧
    exPbC16.insts_ = [0, 1, 2, 3, 4, 5, 6, 7] ∧ exPbC16.placeInsts_ = [0, 1] ∧
    exPbC16.fixedInsts_ = [2] ∧ exPbC16.dummyInsts_ = [3, 4, 5, 6, 7] ∧
    (¬ (2 ∈ exPbC16.placeInsts_ ∧ 2 ∈ exPbC16.fixedInsts_) ∧
      ¬ (2 ∈ exPbC16.placeInsts_ ∧ 2 ∈ exPbC16.dummyInsts_) ∧
      ¬ (2 ∈ exPbC16.fixedInsts_ ∧ 2 ∈ exPbC16.dummyInsts_)) :=
  ⟨by decide, by decide, by decide, by decide, by decide,
    (C16_classification_is_partition exDbC16 exPbC16 (by decide)).2.2.2.2.2 2⟩

/-- C17: after `PlacerBase::init`, `placeInstsArea()` is the sum of `dx * dy`
over the movable instances of the store, `macroInstsArea()` the sum over the
movable instances with `dy > 6 * siteSizeY`, `stdInstsArea()` the sum over the
other movable instances, a movable instance with `dy = 6 * siteSizeY` being
among them, and `macroInstsArea() + stdInstsArea() = placeInstsArea()`. -/
theorem C17_movable_area_buckets (db : dbBlock) (pb : PlacerBase)
    (h : PlacerBase.ofDb db = some pb) :
    pb.placeInstsArea_ = sumArea (pb.instStor_.filter (fun i => i.isPlaceInstance db)) ∧
    pb.macroInstsArea_ =
      sumArea (pb.instStor_.filter
        (fun i => i.isPlaceInstance db && decide (i.dy > pb.siteSizeY_ * 6))) ∧
    pb.stdInstsArea_ =
      sumArea (pb.instStor_.filter
        (fun i => i.isPlaceInstance db && decide (i.dy ≤ pb.siteSizeY_ * 6))) ∧
    pb.macroInstsArea_ + pb.stdInstsArea_ = pb.placeInstsArea_ := by
  obtain ⟨stor, _, _, _, _, _, _, a1, a2, a3, hkey⟩ := init_place db pb h
  have b1 := sumArea_filter_congr (fun i => i.isPlaceInstance db)
    (fun x y k1 _ => (isPlaceInstance_congr db x y k1).1) _ _ hkey
  have b2 := sumArea_filter_congr (macroCounted db pb.siteSizeY_)
    (fun x y k1 k2 => by
      unfold macroCounted
      rw [(isPlaceInstance_congr db x y k1).1, dy_congr x y k2]) _ _ hkey
  have b3 := sumArea_filter_congr (stdCounted db pb.siteSizeY_)
    (fun x y k1 k2 => by
      unfold stdCounted
      rw [(isPlaceInstance_congr db x y k1).1, dy_congr x y k2]) _ _ hkey
  have hstd : (fun (i : Instance) => i.isPlaceInstance db && decide (i.dy ≤ pb.siteSizeY_ * 6)) =
      stdCounted db pb.siteSizeY_ := by
    funext i
    unfold stdCounted
    congr 1
    by_cases hd : i.dy > pb.siteSizeY_ * 6
    · simp [hd]
    · simp [hd, not_lt.mp hd]
  have hmac : (fun (i : Instance) => i.isPlaceInstance db && decide (i.dy > pb.siteSizeY_ * 6)) =
      macroCounted db pb.siteSizeY_ := rfl
  have hsplit : ∀ l : List Instance,
      sumArea (l.filter (macroCounted db pb.siteSizeY_)) +
        sumArea (l.filter (stdCounted db pb.siteSizeY_)) =
      sumArea (l.filter (fun i => i.isPlaceInstance db)) := by
    intro l
    induction l with
    | nil => rfl
    | cons x t ih =>
      unfold sumArea at ih ⊢
      unfold macroCounted stdCounted at ih ⊢
      simp only [List.filter_cons]
      cases hx : x.isPlaceInstance db
      · simpa using ih
      · by_cases hd : x.dy > pb.siteSizeY_ * 6
        · simp only [hd, decide_True, Bool.and_self, Bool.not_true, Bool.and_false, if_true,
            List.map_cons, List.sum_cons]
          simp only [Bool.false_eq_true, if_false]
          omega
        · simp only [hd, decide_False, Bool.and_false, Bool.not_false, Bool.and_self, if_true,
            List.map_cons, List.sum_cons]
          simp only [Bool.false_eq_true, if_false]
          omega
  refine ⟨by rw [a1, b1], by rw [hmac, a2, b2], by rw [hstd, a3, b3], ?_⟩
  rw [a1, a2, a3]
  exact hsplit stor

/-- In the model built from `exDbC16`, with `siteSizeY = 1`, the movable instance
of height `6` and area `60` is a standard cell and the one of height
`7` and area `70` is a macro. -/
theorem C17_movable_area_buckets_witness :
    PlacerBase.ofDb exDbC16 = some exPbC16 ∧ exPbC16.siteSizeY_ = 1 ∧
    exPbC16.placeInstsArea_ = 130 ∧ exPbC16.macroInstsArea_ = 70 ∧
    exPbC16.stdInstsArea_ = 60 ∧
    exPbC16.macroInstsArea_ + exPbC16.stdInstsArea_ = exPbC16.placeInstsArea_ :=
  ⟨by decide, by decide, by decide, by decide, by decide,
    (C17_movable_area_buckets exDbC16 exPbC16 (by decide)).2.2.2⟩

/-! ## C18: what `reset` clears -/

theorem PlacerBase.reset_clears (pb : PlacerBase) :
    pb.reset.instStor_ = [] ∧ pb.reset.pinStor_ = [] ∧ pb.reset.netStor_ = [] ∧
    pb.reset.instMap_ = [] ∧ pb.reset.pinMap_ = [] ∧ pb.reset.netMap_ = [] ∧
    pb.reset.insts_ = [] ∧ pb.reset.pins_ = [] ∧ pb.reset.nets_ = [] ∧
    pb.reset.placeInsts_ = [] ∧ pb.reset.fixedInsts_ = [] ∧ pb.reset.nonPlaceInsts_ = [] ∧
    pb.reset.dummyInsts_ = pb.dummyInsts_ :=
  ⟨rfl, rfl, rfl, rfl, rfl, rfl, rfl, rfl, rfl, rfl, rfl, rfl, rfl⟩

/-- C18 fails on the code: `PlacerBase::reset()` on the model built from
`exDbC2` empties the instance store but leaves the six pointers to the filler
instances in `dummyInsts()`. -/
theorem C18_reset_keeps_dummyInsts :
    PlacerBase.ofDb exDbC2 = some exPbC18 ∧
    exPbC18.reset.instStor_ = [] ∧
    exPbC18.reset.dummyInsts_ = [1, 2, 3, 4, 5, 6] ∧
    exPbC18.reset.dummyInsts_ ≠ [] := by
  decide

/-! ## The runs of the scan -/

theorem scanRow_runs (pb : PlacerBase) (grid : List PlaceInfo) (j : Int) (fuel : Nat) (i : Int)
    (hi : 0 ≤ i) (hfuel : pb.siteCountX - i ≤ fuel)
    (hprev : i = 0 ∨ pb.siteCountX < i ∨
      gridGet grid (j * pb.siteCountX + (i - 1)) ≠ PlaceInfo.Empty) :
    ∃ rs : List (Int × Int),
      pb.scanRow grid j fuel i [] = rs.map (fun r => pb.fillerOfRun (j, r.1, r.2)) ∧
      (∀ r ∈ rs, i ≤ r.1 ∧ isMaximalRun grid pb.siteCountX j r.1 r.2) ∧
      (∀ s e, i ≤ s → isMaximalRun grid pb.siteCountX j s e → (s, e) ∈ rs) ∧
      rs.Pairwise (fun a b => a.1 < b.1) := by
  induction fuel generalizing i with
  | zero =>
    refine ⟨[], by simp [PlacerBase.scanRow], by simp, ?_, List.Pairwise.nil⟩
    rintro s e hs ⟨_, r2, r3, _⟩
    push_cast at hfuel
    omega
  | succ n ih =>
    simp only [PlacerBase.scanRow]
    by_cases h1 : i < pb.siteCountX
    · rw [if_pos h1]
      by_cases h2 : gridGet grid (j * pb.siteCountX + i) = PlaceInfo.Empty
      · rw [if_pos h2]
        have hw := scanWhile_spec grid pb.siteCountX j (pb.siteCountX - i).toNat i (le_of_lt h1)
          (by rw [Int.toNat_of_nonneg (by omega)])
        generalize scanWhile grid pb.siteCountX j (pb.siteCountX - i).toNat i = e0 at hw ⊢
        obtain ⟨w1, w2, w3, w4⟩ := hw
        have hie : i < e0 := by
          rcases eq_or_lt_of_le w1 with h | h
          · subst h; exact absurd h2 (w4 h1)
          · exact h
        have hprev2 : e0 + 1 = 0 ∨ pb.siteCountX < e0 + 1 ∨
            gridGet grid (j * pb.siteCountX + (e0 + 1 - 1)) ≠ PlaceInfo.Empty := by
          by_cases he : e0 < pb.siteCountX
          · right; right
            have : e0 + 1 - 1 = e0 := by ring
            rw [this]; exact w4 he
          · right; left; omega
        obtain ⟨rs, q1, q2, q3, q4⟩ := ih (e0 + 1) (by omega) (by push_cast at hfuel; omega) hprev2
        have hstart : i = 0 ∨ gridGet grid (j * pb.siteCountX + (i - 1)) ≠ PlaceInfo.Empty := by
          rcases hprev with h | h | h
          · exact Or.inl h
          · omega
          · exact Or.inr h
        have hrun : isMaximalRun grid pb.siteCountX j i e0 := by
          refine ⟨hi, hie, w2, w3, hstart, ?_⟩
          by_cases he : e0 < pb.siteCountX
          · exact Or.inr (w4 he)
          · left; omega
        refine ⟨(i, e0) :: rs, ?_, ?_, ?_, ?_⟩
        · rw [scanRow_append, q1]
          rfl
        · intro r hr
          rcases List.mem_cons.mp hr with h | h
          · subst h; exact ⟨le_refl _, hrun⟩
          · exact ⟨by have := (q2 r h).1; omega, (q2 r h).2⟩
        · rintro s e hs ⟨r1, r2, r3, r4, r5, r6⟩
          by_cases hsi : s = i
          · subst hsi
            have hee : e = e0 := by
              by_contra hne
              rcases lt_or_gt_of_ne hne with h | h
              · have hE := w3 e (by omega) h
                rcases r6 with h6 | h6
                · omega
                · exact h6 hE
              · have hE := r4 e0 (by omega) h
                exact w4 (by omega) hE
            subst hee
            exact List.mem_cons_self _ _
          · have hs0 : s ≠ 0 := by omega
            have hcell : gridGet grid (j * pb.siteCountX + (s - 1)) ≠ PlaceInfo.Empty := by
              rcases r5 with h | h
              · exact absurd h hs0
              · exact h
            have hge : e0 + 1 ≤ s := by
              by_contra hlt
              exact hcell (w3 (s - 1) (by omega) (by omega))
            exact List.mem_cons_of_mem _ (q3 s e hge ⟨r1, r2, r3, r4, r5, r6⟩)
        · refine List.Pairwise.cons ?_ q4
          intro r hr
          have := (q2 r hr).1
          show i < r.1
          omega
      · rw [if_neg h2]
        obtain ⟨rs, q1, q2, q3, q4⟩ := ih (i + 1) (by omega) (by push_cast at hfuel; omega)
          (by right; right
              have : i + 1 - 1 = i := by ring
              rw [this]; exact h2)
        refine ⟨rs, q1, ?_, ?_, q4⟩
        · intro r hr
          exact ⟨by have := (q2 r hr).1; omega, (q2 r hr).2⟩
        · rintro s e hs ⟨r1, r2, r3, r4, r5, r6⟩
          have hsi : s ≠ i := by
            rintro rfl
            exact h2 (r4 s (le_refl _) r2)
          exact q3 s e (by omega) ⟨r1, r2, r3, r4, r5, r6⟩
    · rw [if_neg h1]
      refine ⟨[], by simp, by simp, ?_, List.Pairwise.nil⟩
      rintro s e hs ⟨_, r2, r3, _⟩
      omega

theorem scanGrid_runs (pb : PlacerBase) (grid : List PlaceInfo) (stor : List Instance) :
    ∃ runs : List (Int × Int × Int),
      pb.scanGrid grid stor = stor ++ runs.map pb.fillerOfRun ∧
      (∀ r ∈ runs, (0 ≤ r.1 ∧ r.1 < pb.siteCountY) ∧
        isMaximalRun grid pb.siteCountX r.1 r.2.1 r.2.2) ∧
      (∀ j s e, 0 ≤ j → j < pb.siteCountY → isMaximalRun grid pb.siteCountX j s e →
        (j, s, e) ∈ runs) ∧
      runs.Pairwise runBefore := by
  have h := forRange_induction
    (fun (j1 : Int) (acc : List Instance) => ∃ runs : List (Int × Int × Int),
      acc = stor ++ runs.map pb.fillerOfRun ∧
      (∀ r ∈ runs, (0 ≤ r.1 ∧ r.1 < j1) ∧ isMaximalRun grid pb.siteCountX r.1 r.2.1 r.2.2) ∧
      (∀ j s e, 0 ≤ j → j < j1 → isMaximalRun grid pb.siteCountX j s e → (j, s, e) ∈ runs) ∧
      runs.Pairwise runBefore)
    0 pb.siteCountY (fun j acc => pb.scanRow grid j pb.siteCountX.toNat 0 acc) stor
    ⟨[], by simp, by simp, by intro j s e h1 h2; omega, List.Pairwise.nil⟩
    (by
      rintro j1 acc hlo hhi ⟨runs, rfl, p2, p3, p4⟩
      obtain ⟨rs, q1, q2, q3, q4⟩ := scanRow_runs pb grid j1 pb.siteCountX.toNat 0 (le_refl _)
        (by have := Int.self_le_toNat pb.siteCountX; omega) (Or.inl rfl)
      refine ⟨runs ++ rs.map (fun r => (j1, r.1, r.2)), ?_, ?_, ?_, ?_⟩
      · show pb.scanRow grid j1 pb.siteCountX.toNat 0 (stor ++ runs.map pb.fillerOfRun) = _
        rw [scanRow_append, q1, List.map_append, List.map_map, List.append_assoc]
        rfl
      · intro r hr
        rcases List.mem_append.mp hr with h | h
        · exact ⟨⟨(p2 r h).1.1, by have := (p2 r h).1.2; omega⟩, (p2 r h).2⟩
        · obtain ⟨r0, hr0, rfl⟩ := List.mem_map.mp h
          exact ⟨⟨hlo, by show j1 < j1 + 1; omega⟩, (q2 r0 hr0).2⟩
      · intro j s e hj0 hj1 hrun
        by_cases hj : j = j1
        · subst hj
          apply List.mem_append_right
          exact List.mem_map.mpr ⟨(s, e), q3 s e hrun.1 hrun, rfl⟩
        · exact List.mem_append_left _ (p3 j s e hj0 (by omega) hrun)
      · rw [List.pairwise_append]
        refine ⟨p4, ?_, ?_⟩
        · rw [List.pairwise_map]
          exact q4.imp (fun {a b} hab => Or.inr ⟨rfl, hab⟩)
        · intro a ha b hb
          obtain ⟨r0, hr0, rfl⟩ := List.mem_map.mp hb
          exact Or.inl (p2 a ha).1.2)
  rcases le_total 0 pb.siteCountY with hY | hY
  · rw [max_eq_right hY] at h
    exact h
  · rw [max_eq_left hY] at h
    obtain ⟨runs, p1, p2, p3, p4⟩ := h
    refine ⟨runs, p1, ?_, ?_, p4⟩
    · intro r hr
      have := (p2 r hr).1
      omega
    · intro j s e h1 h2
      omega

/-! ## C19: what a relocation leaves unchanged -/

theorem updatePins_frame (inst : Instance) (store : List Pin) (q : Nat) :
    (inst.updatePins store).length = store.length ∧
    (q ∉ inst.pins_ → (inst.updatePins store)[q]? = store[q]?) ∧
    (∀ p : Pin, store[q]? = some p → ∃ p2 : Pin, (inst.updatePins store)[q]? = some p2 ∧
      ({ p2 with cx_ := p.cx_, cy_ := p.cy_ } : Pin) = p) := by
  refine ⟨?_, ?_, ?_⟩
  · unfold Instance.updatePins
    exact foldl_preserves List.length _ (fun s a => List.length_modify _ _ _) _ _
  · intro hq
    rw [getElem?_updatePins]
    cases store[q]? with
    | none => rfl
    | some p => simp [hq]
  · intro p hp
    rw [getElem?_updatePins, hp]
    by_cases hq : q ∈ inst.pins_
    · exact ⟨p.updateLocation inst, by simp [hq], rfl⟩
    · exact ⟨p, by simp [hq], rfl⟩

theorem relocation_shape (pb pb2 : PlacerBase) (k : Nat) (x y : Int)
    (h : pb2 = pb.setLocation k x y ∨ pb2 = pb.setCenterLocation k x y) :
    pb2 = pb ∨ ∃ inst moved : Instance, pb.instStor_[k]? = some inst ∧
      moved.pins_ = inst.pins_ ∧ moved.inst_ = inst.inst_ ∧ moved.extId_ = inst.extId_ ∧
      pb2 = { pb with instStor_ := pb.instStor_.set k moved,
                      pinStor_ := moved.updatePins pb.pinStor_ } := by
  rcases h with h | h
  · unfold PlacerBase.setLocation at h
    cases hk : pb.instStor_[k]? with
    | none => rw [hk] at h; exact Or.inl h
    | some inst =>
      rw [hk] at h
      exact Or.inr ⟨inst, (inst.setLocation pb.pinStor_ x y).1, rfl, rfl, rfl, rfl, h⟩
  · unfold PlacerBase.setCenterLocation at h
    cases hk : pb.instStor_[k]? with
    | none => rw [hk] at h; exact Or.inl h
    | some inst =>
      rw [hk] at h
      exact Or.inr ⟨inst, (inst.setCenterLocation pb.pinStor_ x y).1, rfl, rfl, rfl, rfl, h⟩

/-! ### The model built by `init` gives every pin to at most one instance -/

theorem initNets_pinMap (db : dbBlock) (pb : PlacerBase) :
    (pb.initNets db).pinMap_ = pb.pinMap_ := by
  unfold PlacerBase.initNets
  apply foldl_preserves PlacerBase.pinMap_
  intro s a
  unfold PlacerBase.initNetStep
  simp only
  split
  · rfl
  · refine Eq.trans (foldl_preserves PlacerBase.pinMap_ _ ?_ _ _) ?_
    · intro s a; rfl
    · refine Eq.trans (foldl_preserves PlacerBase.pinMap_ _ ?_ _ _) rfl
      intro s a; rfl

theorem initPinMapStep_find (s : PlacerBase) (k : Nat) (pin : Pin) (key : Option TermPtr)
    (q : Nat) (h : (s.initPinMapStep k pin).pinMap_.find key = some q) :
    s.pinMap_.find key = some q ∨ (q = k ∧ pin.term_ = key) := by
  unfold PlacerBase.initPinMapStep at h
  simp only at h
  by_cases h1 : pin.isITerm = true
  · simp only [h1, if_true] at h
    rw [PtrMap.find_assign] at h
    by_cases hk : pin.dbITerm = key
    · rw [if_pos hk] at h
      right
      refine ⟨(Option.some.inj h).symm, ?_⟩
      unfold Pin.dbITerm at hk
      rw [if_pos h1] at hk
      exact hk
    · rw [if_neg hk] at h
      exact Or.inl h
  · by_cases h2 : pin.isBTerm = true
    · simp only [h1, h2, if_true] at h
      simp only [Bool.false_eq_true, if_false] at h
      rw [PtrMap.find_assign] at h
      by_cases hk : pin.dbBTerm = key
      · rw [if_pos hk] at h
        right
        refine ⟨(Option.some.inj h).symm, ?_⟩
        unfold Pin.dbBTerm at hk
        rw [if_pos h2] at hk
        exact hk
      · rw [if_neg hk] at h
        exact Or.inl h
    · simp only [h1, h2] at h
      simp only [Bool.false_eq_true, if_false] at h
      exact Or.inl h

theorem initPinMap_find (l : List Pin) (k0 : Nat) (s : PlacerBase) (key : Option TermPtr)
    (q : Nat) (h : (foldlIdx PlacerBase.initPinMapStep k0 s l).pinMap_.find key = some q) :
    s.pinMap_.find key = some q ∨
      ∃ (i : Nat) (pin : Pin), l[i]? = some pin ∧ q = k0 + i ∧ pin.term_ = key := by
  induction l generalizing k0 s with
  | nil => exact Or.inl h
  | cons a t ih =>
    simp only [foldlIdx] at h
    rcases ih (k0 + 1) (s.initPinMapStep k0 a) h with h1 | ⟨i, pin, hi, hq, hterm⟩
    · rcases initPinMapStep_find s k0 a key q h1 with h2 | ⟨h2, h3⟩
      · exact Or.inl h2
      · exact Or.inr ⟨0, a, by simp, by omega, h3⟩
    · exact Or.inr ⟨i + 1, pin, by simpa using hi, by omega, hterm⟩

theorem fillInstPins_pins (pb : PlacerBase) (db : dbBlock) (inst : Instance) (q : Nat)
    (hq : q ∈ (pb.fillInstPins db inst).pins_) :
    q ∈ inst.pins_ ∨ ∃ p t, inst.inst_ = some p ∧ (db.iTerm t).inst = p ∧
      pb.dbToPlaceTerm (TermPtr.iTerm t) = some q := by
  have key : ∀ (l : List Nat) (i : Instance),
      q ∈ (l.foldl (fun (i : Instance) iTerm =>
          match pb.dbToPlaceTerm (TermPtr.iTerm iTerm) with
          | some curPin => i.addPin curPin
          | none => i) i).pins_ →
      q ∈ i.pins_ ∨ ∃ t ∈ l, pb.dbToPlaceTerm (TermPtr.iTerm t) = some q := by
    intro l
    induction l with
    | nil => intro i h; exact Or.inl h
    | cons a t ih =>
      intro i h
      rw [List.foldl_cons] at h
      rcases ih _ h with h1 | ⟨t1, ht1, h1⟩
      · cases hf : pb.dbToPlaceTerm (TermPtr.iTerm a) with
        | none => rw [hf] at h1; exact Or.inl h1
        | some c =>
          rw [hf] at h1
          unfold Instance.addPin at h1
          simp only [List.mem_append, List.mem_singleton] at h1
          rcases h1 with h2 | h2
          · exact Or.inl h2
          · subst h2
            exact Or.inr ⟨a, List.mem_cons_self _ _, hf⟩
      · exact Or.inr ⟨t1, List.mem_cons_of_mem _ ht1, h1⟩
  unfold PlacerBase.fillInstPins at hq
  split at hq
  · exact Or.inl hq
  · cases hp : inst.inst_ with
    | none => rw [hp] at hq; exact Or.inl hq
    | some p =>
      rw [hp] at hq
      rcases key _ _ hq with h1 | ⟨t, ht, h1⟩
      · exact Or.inl h1
      · refine Or.inr ⟨p, t, rfl, ?_, h1⟩
        unfold dbBlock.instITerms at ht
        have := (List.mem_filter.mp ht).2
        simpa using this

theorem initStor_store (db : dbBlock) (firstRow : dbRow) (j : Nat) (a : Instance)
    (h : ((({ PlacerBase.mk0 with db_ := true } : PlacerBase).initStor db
      firstRow).initInstsForFragmentedRow db).instStor_[j]? = some a) :
    a.pins_ = [] ∧ ∀ p, a.inst_ = some p → p = j := by
  obtain ⟨runs, p1, _⟩ := scanGrid_runs
    (({ PlacerBase.mk0 with db_ := true } : PlacerBase).initStor db firstRow)
    ((({ PlacerBase.mk0 with db_ := true } : PlacerBase).initStor db firstRow).siteGrid db)
    (({ PlacerBase.mk0 with db_ := true } : PlacerBase).initStor db firstRow).instStor_
  unfold PlacerBase.initInstsForFragmentedRow at h
  simp only at h
  rw [p1] at h
  have hs : (({ PlacerBase.mk0 with db_ := true } : PlacerBase).initStor db firstRow).instStor_ =
      (List.range db.insts.length).map (Instance.ofDb db) := by
    unfold PlacerBase.initStor PlacerBase.mk0
    simp
  rw [hs] at h
  rw [List.getElem?_append] at h
  split at h
  · rw [List.getElem?_map] at h
    cases hr : (List.range db.insts.length)[j]? with
    | none => rw [hr] at h; cases h
    | some m =>
      rw [hr] at h
      simp only [Option.map_some', Option.some.injEq] at h
      have hjlt : j < db.insts.length := by
        by_contra hc
        rw [List.getElem?_eq_none (by rw [List.length_range]; omega)] at hr
        cases hr
      have hm : m = j := by
        rw [List.getElem?_range hjlt] at hr
        exact (Option.some.inj hr).symm
      subst h
      subst hm
      refine ⟨rfl, ?_⟩
      intro p hp
      unfold Instance.ofDb at hp
      exact (Option.some.inj hp).symm
  · have hmem := List.mem_iff_getElem?.mpr ⟨_, h⟩
    obtain ⟨r, _, rfl⟩ := List.mem_map.mp hmem
    refine ⟨rfl, ?_⟩
    intro p hp
    cases hp

/-- In the model that `PlacerBase::init` builds no pin is in the pin lists of
two instances. -/
theorem init_pinsDisjoint (db : dbBlock) (pb : PlacerBase) (h : PlacerBase.ofDb db = some pb) :
    pb.pinsDisjoint := by
  obtain ⟨firstRow, p4, p5, p6, p7, p8, hfr, h4, h5, h6, h7, h8, h9⟩ := init_some _ db pb h
  have e9 := initNetPins_frame db p8
  rw [← h9] at e9
  have e7 := initPinMap_frame p6
  rw [← h7] at e7
  have e6 := initNets_frame db p5
  rw [← h6] at e6
  obtain ⟨_, m2, _, _⟩ := initInstPtrs_lists db p4.instStor_ 0 p4
  have hstor : pb.instStor_ = p4.instStor_.map (p7.fillInstPins db) := by
    rw [e9.2.1, h8]
    show p7.instStor_.map (p7.fillInstPins db) = _
    rw [e7.2.1, e6.2, h5]
    exact congrArg _ m2
  have hmap6 : p6.pinMap_ = [] := by
    rw [h6, initNets_pinMap, h5]
    have := initInstPtrs_netSide db p4
    unfold PlacerBase.netSide at this
    simp only [Prod.mk.injEq] at this
    rw [this.2.2.2.1, h4]
    rfl
  have hfind : ∀ (t : Nat) (q : Nat), p7.dbToPlaceTerm (TermPtr.iTerm t) = some q →
      ∃ pin : Pin, p6.pinStor_[q]? = some pin ∧ pin.term_ = some (TermPtr.iTerm t) := by
    intro t q hq
    unfold PlacerBase.dbToPlaceTerm at hq
    rw [h7] at hq
    unfold PlacerBase.initPinMap at hq
    rcases initPinMap_find p6.pinStor_ 0 p6 _ q hq with h1 | ⟨i, pin, hi, hqi, hterm⟩
    · rw [hmap6] at h1
      simp [PtrMap.find] at h1
    · refine ⟨pin, ?_, hterm⟩
      have : q = i := by omega
      rw [this]; exact hi
  have hpins : ∀ (j : Nat) (ij : Instance) (q : Nat), pb.instStor_[j]? = some ij → q ∈ ij.pins_ →
      ∃ t, (db.iTerm t).inst = j ∧ p7.dbToPlaceTerm (TermPtr.iTerm t) = some q := by
    intro j ij q hj hq
    rw [hstor, List.getElem?_map] at hj
    cases hs : p4.instStor_[j]? with
    | none => rw [hs] at hj; cases hj
    | some a =>
      rw [hs] at hj
      simp only [Option.map_some', Option.some.injEq] at hj
      subst hj
      rw [h4] at hs
      obtain ⟨s1, s2⟩ := initStor_store db firstRow j a hs
      rcases fillInstPins_pins p7 db a q hq with h1 | ⟨p, t, hp, ht, hf⟩
      · rw [s1] at h1; cases h1
      · exact ⟨t, by rw [ht]; exact s2 p hp, hf⟩
  intro j k ij ik hne hj hk q hq1 hq2
  obtain ⟨t1, ht1, f1⟩ := hpins j ij q hj hq1
  obtain ⟨t2, ht2, f2⟩ := hpins k ik q hk hq2
  obtain ⟨pin1, g1, u1⟩ := hfind t1 q f1
  obtain ⟨pin2, g2, u2⟩ := hfind t2 q f2
  rw [g1] at g2
  cases g2
  rw [u1] at u2
  have : t1 = t2 := by
    simp only [Option.some.injEq, TermPtr.iTerm.injEq] at u2
    exact u2
  subst this
  exact hne (by rw [← ht1, ← ht2])

/-! ### The frame of a relocation -/

/-- C19: `Instance::setLocation` and `Instance::setCenterLocation` on the
stored instance with index `k` leave every net, and so every net box, unchanged;
leave every pin as it is but for its center `(cx_, cy_)`, so that its
`offsetCx` and `offsetCy` are unchanged; leave every other instance, with its
rectangle and its pin list, unchanged; leave the pin list of the moved instance
unchanged; and leave every pin that is not in the pin list of the
moved instance unchanged, hence, in a model where no pin belongs to two
instances, every pin of every other instance; such a model stays one. -/
theorem C19_relocation_frame (pb pb2 : PlacerBase) (k : Nat) (x y : Int)
    (h : pb2 = pb.setLocation k x y ∨ pb2 = pb.setCenterLocation k x y) :
    pb2.netStor_ = pb.netStor_ ∧
    (∀ m, (pb2.netAt m).box = (pb.netAt m).box) ∧
    pb2.pinStor_.length = pb.pinStor_.length ∧
    (∀ (q : Nat) (p : Pin), pb.pinStor_[q]? = some p → ∃ p2 : Pin, pb2.pinStor_[q]? = some p2 ∧
      p2.offsetCx = p.offsetCx ∧ p2.offsetCy = p.offsetCy ∧
      ({ p2 with cx_ := p.cx_, cy_ := p.cy_ } : Pin) = p) ∧
    (∀ j, j ≠ k → pb2.instStor_[j]? = pb.instStor_[j]?) ∧
    (∀ inst : Instance, pb.instStor_[k]? = some inst →
      (∃ moved : Instance, pb2.instStor_[k]? = some moved ∧ moved.pins_ = inst.pins_ ∧
        moved.inst_ = inst.inst_ ∧ moved.extId_ = inst.extId_) ∧
      ∀ q, q ∉ inst.pins_ → pb2.pinStor_[q]? = pb.pinStor_[q]?) ∧
    (pb.pinsDisjoint →
      pb2.pinsDisjoint ∧
      ∀ (j : Nat) (ij : Instance), j ≠ k → pb.instStor_[j]? = some ij →
        ∀ q ∈ ij.pins_, pb2.pinStor_[q]? = pb.pinStor_[q]?) := by
  rcases relocation_shape pb pb2 k x y h with h0 | ⟨inst, moved, hk, m1, m2, m3, h0⟩
  · subst h0
    refine ⟨rfl, fun _ => rfl, rfl, ?_, fun _ _ => rfl, ?_, ?_⟩
    · intro q p hp
      exact ⟨p, hp, rfl, rfl, rfl⟩
    · intro inst hk
      exact ⟨⟨inst, hk, rfl, rfl, rfl⟩, fun _ _ => rfl⟩
    · intro hd
      exact ⟨hd, fun _ _ _ _ _ _ => rfl⟩
  · have hlt : k < pb.instStor_.length := by
      by_contra hc
      rw [List.getElem?_eq_none (by omega)] at hk
      cases hk
    have hother : ∀ j, j ≠ k → pb2.instStor_[j]? = pb.instStor_[j]? := by
      intro j hj
      rw [h0]
      show (pb.instStor_.set k moved)[j]? = _
      rw [List.getElem?_set_ne (fun e => hj e.symm)]
    have hself : pb2.instStor_[k]? = some moved := by
      rw [h0]
      show (pb.instStor_.set k moved)[k]? = _
      rw [List.getElem?_set_self hlt]
    have hpin : ∀ q, q ∉ inst.pins_ → pb2.pinStor_[q]? = pb.pinStor_[q]? := by
      intro q hq
      rw [h0]
      exact (updatePins_frame moved pb.pinStor_ q).2.1 (by rw [m1]; exact hq)
    refine ⟨by rw [h0], fun m => by rw [h0]; rfl, ?_, ?_, hother, ?_, ?_⟩
    · rw [h0]
      exact (updatePins_frame moved pb.pinStor_ 0).1
    · intro q p hp
      obtain ⟨p2, e1, e2⟩ := (updatePins_frame moved pb.pinStor_ q).2.2 p hp
      refine ⟨p2, by rw [h0]; exact e1, ?_, ?_, e2⟩
      · rw [← e2]; rfl
      · rw [← e2]; rfl
    · intro inst2 hk2
      rw [hk] at hk2
      cases hk2
      exact ⟨⟨moved, hself, m1, m2, m3⟩, hpin⟩
    · intro hd
      constructor
      · intro j1 j2 i1 i2 hne hj1 hj2 q hq1 hq2
        have get : ∀ (j : Nat) (i : Instance), pb2.instStor_[j]? = some i →
            ∃ i0 : Instance, pb.instStor_[j]? = some i0 ∧ i0.pins_ = i.pins_ := by
          intro j i hji
          by_cases hjk : j = k
          · subst hjk
            rw [hself] at hji
            cases hji
            exact ⟨inst, hk, m1.symm⟩
          · rw [hother j hjk] at hji
            exact ⟨i, hji, rfl⟩
        obtain ⟨a1, ha1, hp1⟩ := get j1 i1 hj1
        obtain ⟨a2, ha2, hp2⟩ := get j2 i2 hj2
        exact hd j1 j2 a1 a2 hne ha1 ha2 q (by rw [hp1]; exact hq1) (by rw [hp2]; exact hq2)
      · intro j ij hj hij q hq
        exact hpin q (hd j k ij inst hj hij hk q hq)

/-- Moving instance `0` of the model built from `exDbC16` leaves the nets, instance
`1` and the pin of instance `1` unchanged; it changes pin `0`. -/
theorem C19_relocation_frame_witness :
    (exPbC16.setLocation 0 3 3).netStor_ = exPbC16.netStor_ ∧
    (exPbC16.setLocation 0 3 3).instStor_[1]? = exPbC16.instStor_[1]? ∧
    (exPbC16.setLocation 0 3 3).pinStor_[1]? = exPbC16.pinStor_[1]? ∧
    (exPbC16.setCenterLocation 0 3 3).netStor_ = exPbC16.netStor_ ∧
    (exPbC16.setCenterLocation 0 3 3).pinStor_[1]? = exPbC16.pinStor_[1]? ∧
    (exPbC16.setLocation 0 3 3).pinStor_[0]? ≠ exPbC16.pinStor_[0]? :=
  have h := C19_relocation_frame exPbC16 (exPbC16.setLocation 0 3 3) 0 3 3 (Or.inl rfl)
  have h2 := C19_relocation_frame exPbC16 (exPbC16.setCenterLocation 0 3 3) 0 3 3 (Or.inr rfl)
  have hd := init_pinsDisjoint exDbC16 exPbC16 (by decide)
  ⟨h.1, h.2.2.2.2.1 1 (by decide),
    (h.2.2.2.2.2.2 hd).2 1 (exPbC16.instStor_.getD 1 Instance.mk0) (by decide) (by decide) 1
      (by decide),
    h2.1,
    (h2.2.2.2.2.2.2 hd).2 1 (exPbC16.instStor_.getD 1 Instance.mk0) (by decide) (by decide) 1
      (by decide),
    by decide⟩

/-! ## C20: the fillers are the maximal runs of `Empty` cells -/

/-- C20: the fillers that `initInstsForFragmentedRow` appends are, in order,
the instances made for a list `runs` of triples `(y, startX, endX)` such that
each filler has the rectangle `[coreLx + siteSizeX*startX, coreLy + siteSizeY*y,
coreLx + siteSizeX*endX, coreLy + siteSizeY*(y+1)]`; every triple of the list is
a maximal run of `Empty` cells of one grid row `y` (`startX < endX`, every
cell of `[startX, endX)` is `Empty`, the cells `startX - 1` and `endX` are
outside the row or not `Empty`); every maximal run of every grid row is in the
list; and the list is strictly increasing in row-major order, so that it holds
no run twice and the number of fillers is the number of maximal runs. -/
theorem C20_fillers_are_maximal_runs (pb : PlacerBase) (db : dbBlock) :
    ∃ runs : List (Int × Int × Int),
      pb.fillers db = runs.map pb.fillerOfRun ∧
      (pb.fillers db).length = runs.length ∧
      (∀ r ∈ runs, (pb.fillerOfRun r).rect =
        ⟨pb.die_.coreLx + pb.siteSizeX_ * r.2.1, pb.die_.coreLy + pb.siteSizeY_ * r.1,
         pb.die_.coreLx + pb.siteSizeX_ * r.2.2, pb.die_.coreLy + pb.siteSizeY_ * (r.1 + 1)⟩) ∧
      (∀ r ∈ runs, (0 ≤ r.1 ∧ r.1 < pb.siteCountY) ∧
        isMaximalRun (pb.siteGrid db) pb.siteCountX r.1 r.2.1 r.2.2) ∧
      (∀ j s e, 0 ≤ j → j < pb.siteCountY →
        isMaximalRun (pb.siteGrid db) pb.siteCountX j s e → (j, s, e) ∈ runs) ∧
      runs.Pairwise runBefore ∧ runs.Nodup := by
  obtain ⟨runs, p1, p2, p3, p4⟩ := scanGrid_runs pb (pb.siteGrid db) pb.instStor_
  have hf : pb.fillers db = runs.map pb.fillerOfRun := by
    unfold PlacerBase.fillers PlacerBase.initInstsForFragmentedRow
    simp only
    rw [p1, List.drop_left]
  refine ⟨runs, hf, by rw [hf, List.length_map], fun r _ => rfl, p2, p3, p4, ?_⟩
  refine p4.imp ?_
  intro a b hab heq
  subst heq
  unfold runBefore at hab
  omega

/-! ## Two runs of a loop in step -/

theorem forRange_sim {σ τ : Type} (R : σ → τ → Prop) (lo hi : Int)
    (f : Int → σ → σ) (g : Int → τ → τ) (s : σ) (t : τ) (h0 : R s t)
    (hstep : ∀ i s t, lo ≤ i → i < hi → R s t → R (f i s) (g i t)) :
    R (forRange lo hi f s) (forRange lo hi g t) := by
  unfold forRange
  have key : ∀ n : Nat, n ≤ (hi - lo).toNat →
      R ((List.range n).foldl (fun acc (k : Nat) => f (lo + (k : Int)) acc) s)
        ((List.range n).foldl (fun acc (k : Nat) => g (lo + (k : Int)) acc) t) := by
    intro n
    induction n with
    | zero => intro _; exact h0
    | succ m ih =>
      intro hm
      rw [List.range_succ, List.foldl_append, List.foldl_append]
      simp only [List.foldl_cons, List.foldl_nil]
      have hlt : lo + (m : Int) < hi := by
        have : ((m + 1 : Nat) : Int) ≤ ((hi - lo).toNat : Int) := by exact_mod_cast hm
        have h2 : ((hi - lo).toNat : Int) = max (hi - lo) 0 := Int.toNat_eq_max _
        push_cast at this
        omega
      exact hstep _ _ _ (by omega) hlt (ih (by omega))
  exact key _ (le_refl _)

theorem foldl_sim {α σ τ : Type} (R : σ → τ → Prop) (f : σ → α → σ) (g : τ → α → τ)
    (l : List α) (s : σ) (t : τ) (h0 : R s t)
    (hstep : ∀ a s t, a ∈ l → R s t → R (f s a) (g t a)) :
    R (l.foldl f s) (l.foldl g t) := by
  induction l generalizing s t with
  | nil => exact h0
  | cons a r ih =>
    rw [List.foldl_cons, List.foldl_cons]
    exact ih _ _ (hstep a s t (List.mem_cons_self _ _) h0)
      (fun b s2 t2 hb => hstep b s2 t2 (List.mem_cons_of_mem _ hb))

theorem forRange_empty {σ : Type} (lo hi : Int) (body : Int → σ → σ) (s : σ) (h : hi ≤ lo) :
    forRange lo hi body s = s := by
  unfold forRange
  have : (hi - lo).toNat = 0 := Int.toNat_eq_zero.mpr (by omega)
  rw [this]
  rfl

theorem forRange_id {σ : Type} (lo hi : Int) (body : Int → σ → σ) (s : σ)
    (h : ∀ i t, body i t = t) : forRange lo hi body s = s := by
  unfold forRange
  exact foldl_preserves (fun x => x) _ (fun t k => h _ t) _ s

/-! ## C21: fixed instances outside the core and the fillers -/

/-- C21 fails on the code: `exDbC21` and `exDbC21Fixed` have the same rows and
so the same core `(0,0)-(20,20)` and site size, and differ by one fixed instance
with the rectangle `(-5,10)-(-1,20)`, which lies to the left of the
core (`ux = -1 < 0 = coreLx`) and has no overlap with it. For this instance
`getMinMaxIdx(-5, -1, 0, 10, 0, 2)` is `(0, 1)`, so the site `(0, 1)` is marked
`FixedInst`: without the instance `initInstsForFragmentedRow` makes the filler
`(0,10)-(10,20)`, with the instance it makes no filler. -/
theorem C21_fixed_instance_left_of_core_removes_filler :
    (exPbC21.die_.coreRect = ⟨0, 0, 20, 20⟩ ∧ exPbC21Fixed.die_.coreRect = ⟨0, 0, 20, 20⟩) ∧
    exPbC21Fixed.instStor_.map Instance.rect = [⟨-5, 10, -1, 20⟩] ∧
    exPbC21Fixed.instStor_.map (fun i => i.isFixed exDbC21Fixed) = [true] ∧
    exPbC21Fixed.instStor_.map (isCoreAreaOverlap exPbC21Fixed.die_) = [false] ∧
    getMinMaxIdx (-5) (-1) 0 10 0 2 = (0, 1) ∧
    (exPbC21.fillers exDbC21).map Instance.rect = [⟨0, 10, 10, 20⟩] ∧
    exPbC21Fixed.fillers exDbC21Fixed = [] ∧
    ((PlacerBase.ofDb exDbC21).map (fun pb => pb.dummyInsts_.length) = some 1 ∧
      (PlacerBase.ofDb exDbC21Fixed).map (fun pb => pb.dummyInsts_.length) = some 0) := by
  decide

theorem markCells_empty (X : Int) (pairX pairY : Int × Int) (v : PlaceInfo)
    (grid : List PlaceInfo) (h : pairX.2 ≤ pairX.1 ∨ pairY.2 ≤ pairY.1) :
    markCells X pairX pairY v grid = grid := by
  unfold markCells
  rcases h with h | h
  · exact forRange_empty _ _ _ _ h
  · exact forRange_id _ _ _ _ (fun i t => forRange_empty _ _ _ _ h)

theorem scanGrid_append (pb : PlacerBase) (grid : List PlaceInfo) (stor : List Instance) :
    pb.scanGrid grid stor = stor ++ pb.scanGrid grid [] := by
  unfold PlacerBase.scanGrid
  apply forRange_sim (fun (a b : List Instance) => a = stor ++ b)
  · simp
  · rintro j a b _ _ rfl
    show pb.scanRow grid j pb.siteCountX.toNat 0 (stor ++ b) = _
    rw [scanRow_append, scanRow_append pb grid j _ 0 b, List.append_assoc]

theorem fillers_eq_scan (pb : PlacerBase) (db : dbBlock) :
    pb.fillers db = pb.scanGrid (pb.siteGrid db) [] := by
  unfold PlacerBase.fillers PlacerBase.initInstsForFragmentedRow
  simp only
  rw [scanGrid_append, List.drop_left]

theorem scanRow_congr (pb1 pb2 : PlacerBase) (hd : pb1.die_ = pb2.die_)
    (hx : pb1.siteSizeX_ = pb2.siteSizeX_) (hy : pb1.siteSizeY_ = pb2.siteSizeY_)
    (grid : List PlaceInfo) (j : Int) (fuel : Nat) (i : Int) (stor : List Instance) :
    pb1.scanRow grid j fuel i stor = pb2.scanRow grid j fuel i stor := by
  have hX : pb1.siteCountX = pb2.siteCountX := by
    unfold PlacerBase.siteCountX; rw [hd, hx]
  induction fuel generalizing i stor with
  | zero => rfl
  | succ n ih =>
    simp only [PlacerBase.scanRow, hX, hd, hx, hy]
    split
    · split
      · exact ih _ _
      · exact ih _ _
    · rfl

theorem siteGrid_congr (pb1 pb2 : PlacerBase) (db : dbBlock) (hd : pb1.die_ = pb2.die_)
    (hx : pb1.siteSizeX_ = pb2.siteSizeX_) (hy : pb1.siteSizeY_ = pb2.siteSizeY_)
    (l1 l2 : List Instance) (inst : Instance)
    (h1 : pb1.instStor_ = l1 ++ inst :: l2) (h2 : pb2.instStor_ = l1 ++ l2)
    (h : (pb1.idxRanges inst.lx inst.ly inst.ux inst.uy).1.2 ≤
        (pb1.idxRanges inst.lx inst.ly inst.ux inst.uy).1.1 ∨
      (pb1.idxRanges inst.lx inst.ly inst.ux inst.uy).2.2 ≤
        (pb1.idxRanges inst.lx inst.ly inst.ux inst.uy).2.1) :
    pb1.siteGrid db = pb2.siteGrid db := by
  have hX : pb1.siteCountX = pb2.siteCountX := by
    unfold PlacerBase.siteCountX; rw [hd, hx]
  have hY : pb1.siteCountY = pb2.siteCountY := by
    unfold PlacerBase.siteCountY; rw [hd, hy]
  have hI : ∀ a b c d, pb1.idxRanges a b c d = pb2.idxRanges a b c d := by
    intro a b c d
    unfold PlacerBase.idxRanges; rw [hd, hx, hy, hX, hY]
  have hR : ∀ g, pb1.markRows db g = pb2.markRows db g := by
    intro g
    unfold PlacerBase.markRows
    simp only [hI, hX]
  unfold PlacerBase.siteGrid PlacerBase.markFixed
  rw [h1, h2, hR, hX, hY, List.foldl_append, List.foldl_append, List.foldl_cons]
  simp only [hI, hX] at h ⊢
  congr 1
  by_cases hf : (!(inst.isFixed db)) = true
  · simp only [hf, if_true]
  · simp only [hf, if_false]
    exact markCells_empty _ _ _ _ _ h

/-- If two models have the same core and site size and their instance stores
differ by one instance for which `getMinMaxIdx` yields an empty index range in
`x` or in `y`, then `initInstsForFragmentedRow` makes the same fillers on
both. -/
theorem fillers_without_unmarked (pb1 pb2 : PlacerBase) (db : dbBlock)
    (hd : pb1.die_ = pb2.die_)
    (hx : pb1.siteSizeX_ = pb2.siteSizeX_) (hy : pb1.siteSizeY_ = pb2.siteSizeY_)
    (l1 l2 : List Instance) (inst : Instance)
    (h1 : pb1.instStor_ = l1 ++ inst :: l2) (h2 : pb2.instStor_ = l1 ++ l2)
    (h : (pb1.idxRanges inst.lx inst.ly inst.ux inst.uy).1.2 ≤
        (pb1.idxRanges inst.lx inst.ly inst.ux inst.uy).1.1 ∨
      (pb1.idxRanges inst.lx inst.ly inst.ux inst.uy).2.2 ≤
        (pb1.idxRanges inst.lx inst.ly inst.ux inst.uy).2.1) :
    pb1.fillers db = pb2.fillers db := by
  rw [fillers_eq_scan, fillers_eq_scan, siteGrid_congr pb1 pb2 db hd hx hy l1 l2 inst h1 h2 h]
  have hY : pb1.siteCountY = pb2.siteCountY := by
    unfold PlacerBase.siteCountY; rw [hd, hy]
  have hX : pb1.siteCountX = pb2.siteCountX := by
    unfold PlacerBase.siteCountX; rw [hd, hx]
  unfold PlacerBase.scanGrid
  rw [hY, hX]
  congr 1
  funext j acc
  exact scanRow_congr pb1 pb2 hd hx hy _ j _ 0 acc

/-- An instance that lies to the right of the core, or touches the left core
edge from outside, or lies at least one site to the left of the core, gets an
empty index range in `x`. -/
theorem getMinMaxIdx_empty (lo hi coreLo s n : Int) (hs : 0 < s) (hn : 0 ≤ n)
    (h : coreLo + n * s ≤ lo ∨ hi = coreLo ∨ hi ≤ coreLo - s) :
    (getMinMaxIdx lo hi coreLo s 0 n).2 ≤ (getMinMaxIdx lo hi coreLo s 0 n).1 := by
  rcases h with h | h | h
  · rw [getMinMaxIdx_lower lo coreLo s hi n hs]
    have hb := (getMinMaxIdx_bounds lo hi coreLo s n).2
    obtain ⟨f1, f2⟩ := floorDiv_spec (lo - coreLo) s hs
    have : n < floorDiv (lo - coreLo) s + 1 := lt_of_mul_lt_mul_right (by omega) (le_of_lt hs)
    omega
  · have hb := (getMinMaxIdx_bounds lo hi coreLo s n).1
    have : (getMinMaxIdx lo hi coreLo s 0 n).2 ≤ 0 := by
      unfold getMinMaxIdx fastModulo
      subst h
      simp only [sub_self, Int.zero_tdiv]
      have : ¬ (0 : Int) ≥ s := by omega
      simp [this, hn]
    omega
  · have hb := (getMinMaxIdx_bounds lo hi coreLo s n).1
    have hq : (hi - coreLo).tdiv s ≤ -1 := by
      have h0 : 1 ≤ (-(hi - coreLo)).tdiv s := by
        rw [Int.tdiv_eq_ediv (by omega) (le_of_lt hs)]
        exact (Int.le_ediv_iff_mul_le hs).mpr (by omega)
      rw [Int.neg_tdiv] at h0
      omega
    have : (getMinMaxIdx lo hi coreLo s 0 n).2 ≤ 0 := by
      unfold getMinMaxIdx
      simp only
      split <;> omega
    omega

/-! ## C22: the size of a relocated instance -/

theorem Instance.setLocation_size (inst : Instance) (pinStor : List Pin) (x y : Int) :
    (inst.setLocation pinStor x y).1.lx = x ∧ (inst.setLocation pinStor x y).1.ly = y ∧
    (inst.setLocation pinStor x y).1.dx = inst.dx ∧
    (inst.setLocation pinStor x y).1.dy = inst.dy := by
  unfold Instance.setLocation Instance.lx Instance.ly Instance.dx Instance.dy
  simp only
  refine ⟨?_, ?_, ?_, ?_⟩ <;> first | trivial | omega

theorem Instance.setCenterLocation_size (inst : Instance) (pinStor : List Pin) (x y : Int) :
    (inst.setCenterLocation pinStor x y).1.cx = x ∧
    (inst.setCenterLocation pinStor x y).1.cy = y ∧
    (inst.setCenterLocation pinStor x y).1.dx = 2 * inst.dx.tdiv 2 ∧
    (inst.setCenterLocation pinStor x y).1.dy = 2 * inst.dy.tdiv 2 := by
  unfold Instance.setCenterLocation Instance.cx Instance.cy Instance.dx Instance.dy
  simp only
  have e : ∀ a h : Int, (a - h + (a + h)).tdiv 2 = a := by
    intro a h
    have : a - h + (a + h) = 2 * a := by ring
    rw [this, Int.mul_tdiv_cancel_left a (by decide)]
  refine ⟨e x _, e y _, ?_, ?_⟩ <;> omega

/-- C22 fails on the code: the instance `(0,0)-(5,3)`, with `lx ≤ ux` and
`ly ≤ uy`, has `dx() = 5` and `dy() = 3`; `setCenterLocation(10, 10)` computes
`halfX = 5/2 = 2` and `halfY = 3/2 = 1` and leaves the rectangle
`(8,9)-(12,11)`, whose center is `(10,10)` but whose `dx()` is `4` and `dy()`
is `2`. -/
theorem C22_setCenterLocation_shrinks_odd_size :
    (exInstC22.lx ≤ exInstC22.ux ∧ exInstC22.ly ≤ exInstC22.uy) ∧
    (exInstC22.dx = 5 ∧ exInstC22.dy = 3) ∧
    (exInstC22.setCenterLocation [] 10 10).1.rect = ⟨8, 9, 12, 11⟩ ∧
    ((exInstC22.setCenterLocation [] 10 10).1.cx = 10 ∧
      (exInstC22.setCenterLocation [] 10 10).1.cy = 10) ∧
    ((exInstC22.setCenterLocation [] 10 10).1.dx = 4 ∧
      (exInstC22.setCenterLocation [] 10 10).1.dy = 2) ∧
    (exInstC22.setCenterLocation [] 10 10).1.dx ≠ exInstC22.dx := by
  decide

/-! ## C23: pin positions at construction and after a relocation -/

theorem Pin.updateCoordiITerm_agrees (db : dbBlock) (pin : Pin) (iTerm : Nat)
    (hlocX : (db.inst (db.iTerm iTerm).inst).locX = (db.inst (db.iTerm iTerm).inst).bbox.xMin)
    (hlocY : (db.inst (db.iTerm iTerm).inst).locY = (db.inst (db.iTerm iTerm).inst).bbox.yMin)
    (hW : (db.inst (db.iTerm iTerm).inst).bbox.getDX = (db.inst (db.iTerm iTerm).inst).masterWidth)
    (hH : (db.inst (db.iTerm iTerm).inst).bbox.getDY = (db.inst (db.iTerm iTerm).inst).masterHeight)
    (hx : 0 ≤ (db.inst (db.iTerm iTerm).inst).bbox.xMin)
    (hy : 0 ≤ (db.inst (db.iTerm iTerm).inst).bbox.yMin)
    (hw : 0 ≤ (db.inst (db.iTerm iTerm).inst).masterWidth)
    (hh : 0 ≤ (db.inst (db.iTerm iTerm).inst).masterHeight) :
    (pin.updateCoordiITerm db iTerm).cx =
      (Instance.ofDb db (db.iTerm iTerm).inst).cx + (pin.updateCoordiITerm db iTerm).offsetCx ∧
    (pin.updateCoordiITerm db iTerm).cy =
      (Instance.ofDb db (db.iTerm iTerm).inst).cy + (pin.updateCoordiITerm db iTerm).offsetCy := by
  have key : ∀ l w : Int, 0 ≤ l → 0 ≤ w → (l + (l + w)).tdiv 2 = l + w.tdiv 2 := by
    intro l w hl hw
    rw [Int.tdiv_eq_ediv (by omega) (by decide), Int.tdiv_eq_ediv hw (by decide)]
    omega
  unfold Pin.updateCoordiITerm Instance.ofDb Instance.cx Instance.cy Pin.cx Pin.cy
    Pin.offsetCx Pin.offsetCy
  simp only
  rw [hlocX, hlocY, hW, hH, key _ _ hx hw, key _ _ hy hh]
  exact ⟨rfl, rfl⟩

/-- C23 fails on the code: in the model built from `exDbC23` the instance has
the rectangle `(-10,-20)-(-5,-15)`, of the master's width and height `5`, and
`cx() = (-15)/2 = -7`, `cy() = (-35)/2 = -17`; its pin has the offset `(0,0)`
and was given the center `(-10 + 5/2, -20 + 5/2) = (-8,-18)` at construction.
`setLocation(inst.lx(), inst.ly())` leaves the rectangle as it is and moves the
pin to `(-7,-17)`. -/
theorem C23_construction_and_relocation_differ :
    PlacerBase.ofDb exDbC23 = some exPbC23 ∧
    exPbC23.instStor_.map Instance.rect = [⟨-10, -20, -5, -15⟩] ∧
    exPbC23.instStor_.map Instance.pins_ = [[0]] ∧
    exPbC23.instStor_.map (fun i => (i.cx, i.cy)) = [(-7, -17)] ∧
    exPbC23.pinStor_.map (fun p => (p.offsetCx, p.offsetCy)) = [(0, 0)] ∧
    exPbC23.pinStor_.map (fun p => (p.cx, p.cy)) = [(-8, -18)] ∧
    (exPbC23.setLocation 0 (-10) (-20)).instStor_.map Instance.rect = [⟨-10, -20, -5, -15⟩] ∧
    (exPbC23.setLocation 0 (-10) (-20)).pinStor_.map (fun p => (p.cx, p.cy)) = [(-7, -17)] := by
  decide

/-! ## C24: the accesses to the site grid

The accesses are inside the grid when the number of sites fits an `int`; on a
grid of `65536 x 65537` sites the `int` product is `65536` and the second
write of the row loop is outside the vector. -/

/-! ### Grids whose number of sites fits an `int` -/

theorem cellIndex_of_bounds {X Y i j : Int} (hfit : X * Y ≤ INT_MAX)
    (hi : 0 ≤ i ∧ i < X) (hj : 0 ≤ j ∧ j < Y) : cellIndex X i j = j * X + i := by
  have h := grid_index_lt hi hj
  have h1 : 0 ≤ j * X := mul_nonneg hj.1 (by omega)
  unfold cellIndex
  rw [wrap32_of_isInt32 (j * X) ⟨by unfold INT_MIN; omega, by omega⟩]
  exact wrap32_of_isInt32 _ ⟨by unfold INT_MIN; omega, by omega⟩

theorem allocGrid_ok {X Y : Int} (hX : 0 ≤ X) (hY : 0 ≤ Y) (hfit : X * Y ≤ INT_MAX) :
    allocGrid X Y = Except.ok (List.replicate (X * Y).toNat PlaceInfo.Empty) := by
  have h0 : 0 ≤ X * Y := mul_nonneg hX hY
  unfold allocGrid
  rw [wrap32_of_isInt32 (X * Y) ⟨by unfold INT_MIN; omega, hfit⟩, if_pos h0]

theorem cellInGrid_of_bounds {X Y i j : Int} (grid : List PlaceInfo) (hfit : X * Y ≤ INT_MAX)
    (hlen : (grid.length : Int) = X * Y) (hi : 0 ≤ i ∧ i < X) (hj : 0 ≤ j ∧ j < Y) :
    cellInGrid grid X Y i j := by
  have h := grid_index_lt hi hj
  have hw : wrap32 (X * Y) = X * Y :=
    wrap32_of_isInt32 _ ⟨by unfold INT_MIN; omega, hfit⟩
  unfold cellInGrid
  rw [cellIndex_of_bounds hfit hi hj, hw, hlen]
  exact ⟨hi, hj, h, h.2⟩

theorem markCellsChecked_ok {X Y : Int} (hfit : X * Y ≤ INT_MAX)
    (g : List PlaceInfo) (hlen : (g.length : Int) = X * Y)
    (pX pY : Int × Int) (v : PlaceInfo)
    (hX0 : 0 ≤ pX.1) (hX1 : pX.2 ≤ X) (hY0 : 0 ≤ pY.1) (hY1 : pY.2 ≤ Y) :
    markCellsChecked X Y pX pY v (Except.ok g) = Except.ok (markCells X pX pY v g) := by
  have h := forRange_sim
    (fun (eg : Except GridFault (List PlaceInfo)) (g1 : List PlaceInfo) =>
      eg = Except.ok g1 ∧ (g1.length : Int) = X * Y)
    pX.1 pX.2
    (fun i eg => forRange pY.1 pY.2
      (fun j g2 => g2.bind (fun cells => writeCell cells X Y i j v)) eg)
    (fun i g1 => forRange pY.1 pY.2 (fun j g2 => gridSet g2 (j * X + i) v) g1)
    (Except.ok g) g ⟨rfl, hlen⟩
    (by
      intro i eg g1 hi0 hi1 hR
      exact forRange_sim
        (fun (eg : Except GridFault (List PlaceInfo)) (g1 : List PlaceInfo) =>
          eg = Except.ok g1 ∧ (g1.length : Int) = X * Y)
        pY.1 pY.2 _ _ eg g1 hR
        (by
          rintro j eg2 g2 hj0 hj1 ⟨rfl, hl2⟩
          have hi2 : 0 ≤ i ∧ i < X := ⟨by omega, by omega⟩
          have hj2 : 0 ≤ j ∧ j < Y := ⟨by omega, by omega⟩
          have hc := cellInGrid_of_bounds g2 hfit hl2 hi2 hj2
          refine ⟨?_, by rw [length_gridSet]; exact hl2⟩
          show writeCell g2 X Y i j v = _
          unfold writeCell
          rw [if_pos hc, cellIndex_of_bounds hfit hi2 hj2]))
  exact h.1

theorem markCells_length {X Y : Int} (g : List PlaceInfo) (hlen : (g.length : Int) = X * Y)
    (pX pY : Int × Int) (v : PlaceInfo)
    (hX0 : 0 ≤ pX.1) (hX1 : pX.2 ≤ X) (hY0 : 0 ≤ pY.1) (hY1 : pY.2 ≤ Y) :
    ((markCells X pX pY v g).length : Int) = X * Y :=
  (markCells_spec g hlen pX pY v hX0 hX1 hY0 hY1).1

theorem markRowsChecked_ok (pb : PlacerBase) (db : dbBlock)
    (hfit : pb.siteCountX * pb.siteCountY ≤ INT_MAX) (g : List PlaceInfo)
    (hlen : (g.length : Int) = pb.siteCountX * pb.siteCountY) :
    pb.markRowsChecked db (Except.ok g) = Except.ok (pb.markRows db g) ∧
    ((pb.markRows db g).length : Int) = pb.siteCountX * pb.siteCountY := by
  unfold PlacerBase.markRowsChecked PlacerBase.markRows
  apply foldl_sim
    (fun (eg : Except GridFault (List PlaceInfo)) (g1 : List PlaceInfo) =>
      eg = Except.ok g1 ∧ (g1.length : Int) = pb.siteCountX * pb.siteCountY)
  · exact ⟨rfl, hlen⟩
  · rintro row eg g1 _ ⟨rfl, hl⟩
    obtain ⟨v1, v2, v3, v4⟩ := idxRanges_valid pb row.bbox.xMin row.bbox.yMin row.bbox.xMax
      row.bbox.yMax
    exact ⟨markCellsChecked_ok hfit g1 hl _ _ _ v1 v2 v3 v4,
      markCells_length g1 hl _ _ _ v1 v2 v3 v4⟩

theorem markFixedChecked_ok (pb : PlacerBase) (db : dbBlock)
    (hfit : pb.siteCountX * pb.siteCountY ≤ INT_MAX) (g : List PlaceInfo)
    (hlen : (g.length : Int) = pb.siteCountX * pb.siteCountY) :
    pb.markFixedChecked db (Except.ok g) = Except.ok (pb.markFixed db g) ∧
    ((pb.markFixed db g).length : Int) = pb.siteCountX * pb.siteCountY := by
  unfold PlacerBase.markFixedChecked PlacerBase.markFixed
  apply foldl_sim
    (fun (eg : Except GridFault (List PlaceInfo)) (g1 : List PlaceInfo) =>
      eg = Except.ok g1 ∧ (g1.length : Int) = pb.siteCountX * pb.siteCountY)
  · exact ⟨rfl, hlen⟩
  · rintro inst eg g1 _ ⟨rfl, hl⟩
    by_cases hf : (!(inst.isFixed db)) = true
    · simp only [hf, if_true]
      exact ⟨trivial, hl⟩
    · simp only [hf, if_false]
      obtain ⟨v1, v2, v3, v4⟩ := idxRanges_valid pb inst.lx inst.ly inst.ux inst.uy
      exact ⟨markCellsChecked_ok hfit g1 hl _ _ _ v1 v2 v3 v4,
        markCells_length g1 hl _ _ _ v1 v2 v3 v4⟩

theorem readCell_ok {X Y i j : Int} (grid : List PlaceInfo) (hfit : X * Y ≤ INT_MAX)
    (hlen : (grid.length : Int) = X * Y) (hi : 0 ≤ i ∧ i < X) (hj : 0 ≤ j ∧ j < Y) :
    readCell grid X Y i j = Except.ok (gridGet grid (j * X + i)) := by
  unfold readCell
  rw [if_pos (cellInGrid_of_bounds grid hfit hlen hi hj), cellIndex_of_bounds hfit hi hj]

theorem scanWhileChecked_ok {X Y : Int} (grid : List PlaceInfo) (hfit : X * Y ≤ INT_MAX)
    (hlen : (grid.length : Int) = X * Y) (j : Int) (hj : 0 ≤ j ∧ j < Y)
    (fuel : Nat) (i : Int) (hi : 0 ≤ i) (hpos : 0 < fuel) (hfuel : X - i < fuel)
    (fuel2 : Nat) (hfuel2 : X - i ≤ fuel2) :
    scanWhileChecked grid X Y j fuel i = Except.ok (scanWhile grid X j fuel2 i) := by
  induction fuel generalizing i fuel2 with
  | zero => omega
  | succ n ih =>
    simp only [scanWhileChecked]
    by_cases h1 : i < X
    · rw [if_pos h1, readCell_ok grid hfit hlen ⟨hi, h1⟩ hj]
      cases fuel2 with
      | zero => push_cast at hfuel2; omega
      | succ m =>
        simp only [scanWhile]
        show (if gridGet grid (j * X + i) = PlaceInfo.Empty
          then scanWhileChecked grid X Y j n (i + 1) else Except.ok i) = _
        by_cases h2 : gridGet grid (j * X + i) = PlaceInfo.Empty
        · rw [if_pos h2, if_pos ⟨h1, h2⟩]
          exact ih (i + 1) (by omega) (by push_cast at hfuel; omega)
            (by push_cast at hfuel; omega) m (by push_cast at hfuel2; omega)
        · rw [if_neg h2, if_neg (fun h => h2 h.2)]
    · rw [if_neg h1]
      cases fuel2 with
      | zero => rfl
      | succ m =>
        simp only [scanWhile]
        rw [if_neg (fun h => h1 h.1)]

theorem scanRowChecked_ok (pb : PlacerBase) (grid : List PlaceInfo)
    (hfit : pb.siteCountX * pb.siteCountY ≤ INT_MAX)
    (hlen : (grid.length : Int) = pb.siteCountX * pb.siteCountY) (j : Int)
    (hj : 0 ≤ j ∧ j < pb.siteCountY)
    (fuel : Nat) (i : Int) (stor : List Instance) (hi : 0 ≤ i) (hpos : 0 < fuel)
    (hfuel : pb.siteCountX - i < fuel) (fuel2 : Nat) (hfuel2 : pb.siteCountX - i ≤ fuel2) :
    pb.scanRowChecked grid j fuel i stor = Except.ok (pb.scanRow grid j fuel2 i stor) := by
  induction fuel generalizing i stor fuel2 with
  | zero => omega
  | succ n ih =>
    simp only [PlacerBase.scanRowChecked]
    by_cases h1 : i < pb.siteCountX
    · rw [if_pos h1, readCell_ok grid hfit hlen ⟨hi, h1⟩ hj]
      cases fuel2 with
      | zero => push_cast at hfuel2; omega
      | succ m =>
        simp only [PlacerBase.scanRow]
        rw [if_pos h1]
        by_cases h2 : gridGet grid (j * pb.siteCountX + i) = PlaceInfo.Empty
        · rw [if_pos h2]
          have hw := scanWhile_spec grid pb.siteCountX j (pb.siteCountX - i).toNat i
            (le_of_lt h1) (by rw [Int.toNat_of_nonneg (by omega)])
          have hc := scanWhileChecked_ok grid hfit hlen j hj (n + 1) i hi (by omega) hfuel
            (pb.siteCountX - i).toNat (by rw [Int.toNat_of_nonneg (by omega)])
          generalize scanWhile grid pb.siteCountX j (pb.siteCountX - i).toNat i = e0 at hw hc ⊢
          obtain ⟨w1, w2, w3, w4⟩ := hw
          have hie : i < e0 := by
            rcases eq_or_lt_of_le w1 with h | h
            · subst h; exact absurd h2 (w4 h1)
            · exact h
          show (if gridGet grid (j * pb.siteCountX + i) = PlaceInfo.Empty then _ else _) = _
          rw [if_pos h2, hc]
          exact ih (e0 + 1) _ (by omega) (by push_cast at hfuel; omega)
            (by push_cast at hfuel; omega) m (by push_cast at hfuel2; omega)
        · rw [if_neg h2]
          show (if gridGet grid (j * pb.siteCountX + i) = PlaceInfo.Empty then _ else _) = _
          rw [if_neg h2]
          exact ih (i + 1) stor (by omega) (by push_cast at hfuel; omega)
            (by push_cast at hfuel; omega) m (by push_cast at hfuel2; omega)
    · rw [if_neg h1]
      cases fuel2 with
      | zero => rfl
      | succ m =>
        simp only [PlacerBase.scanRow]
        rw [if_neg h1]

theorem scanGridChecked_ok (pb : PlacerBase) (grid : List PlaceInfo)
    (hfit : pb.siteCountX * pb.siteCountY ≤ INT_MAX)
    (hlen : (grid.length : Int) = pb.siteCountX * pb.siteCountY)
    (fuel : Nat) (hpos : 0 < fuel) (hfuel : pb.siteCountX < fuel) (stor : List Instance) :
    pb.scanGridChecked grid fuel stor = Except.ok (pb.scanGrid grid stor) := by
  unfold PlacerBase.scanGridChecked PlacerBase.scanGrid
  apply forRange_sim
    (fun (eacc : Except GridFault (List Instance)) (acc : List Instance) => eacc = Except.ok acc)
  · rfl
  · rintro j eacc acc hj0 hj1 rfl
    exact scanRowChecked_ok pb grid hfit hlen j ⟨hj0, hj1⟩ fuel 0 acc (le_refl _) hpos (by omega)
      pb.siteCountX.toNat (by have := Int.self_le_toNat pb.siteCountX; omega)

/-- The checks of the checked run are effective: a read outside the grid and
a scan with too small an iteration budget both end the run early. -/
theorem checked_run_can_fault :
    (readCell [PlaceInfo.Empty] 1 1 1 0).toOption = none ∧
    (readCell [PlaceInfo.Empty] 1 1 0 0).toOption = some PlaceInfo.Empty ∧
    (exPbC2.initInstsForFragmentedRowChecked exDbC2 3).toOption = none := by
  decide

/-- For a core with `coreLx ≤ coreUx` and `coreLy ≤ coreUy`, positive site
sizes and a number of sites `siteCountX * siteCountY` that fits an `int`,
whatever the rows and the stored instances are, the checked run of
`initInstsForFragmentedRow` meets no access outside the grid, every loop of
the scan over `i` ends within `siteCountX + 1` iterations, and the run returns
the model that the unchecked method returns. -/
theorem checked_run_agrees (pb : PlacerBase) (db : dbBlock)
    (hsx : 0 < pb.siteSizeX_) (hsy : 0 < pb.siteSizeY_)
    (hcx : pb.die_.coreLx ≤ pb.die_.coreUx) (hcy : pb.die_.coreLy ≤ pb.die_.coreUy)
    (hfit : pb.siteCountX * pb.siteCountY ≤ INT_MAX)
    (fuel : Nat) (hfuel : pb.siteCountX < fuel) :
    pb.initInstsForFragmentedRowChecked db fuel = Except.ok (pb.initInstsForFragmentedRow db) := by
  obtain ⟨hX, hY⟩ := siteCount_nonneg pb hsx hsy hcx hcy
  have hlen0 : (((List.replicate (pb.siteCountX * pb.siteCountY).toNat PlaceInfo.Empty).length
      : Nat) : Int) = pb.siteCountX * pb.siteCountY := by
    rw [List.length_replicate, Int.toNat_of_nonneg (mul_nonneg hX hY)]
  obtain ⟨r1, r2⟩ := markRowsChecked_ok pb db hfit _ hlen0
  obtain ⟨f1, f2⟩ := markFixedChecked_ok pb db hfit _ r2
  unfold PlacerBase.initInstsForFragmentedRowChecked
  rw [allocGrid_ok hX hY hfit, r1, f1]
  show ((pb.scanGridChecked _ fuel pb.instStor_).bind _) = _
  rw [scanGridChecked_ok pb _ hfit f2 fuel (by omega) hfuel]
  rfl

/-- On the model of `exDbC2`, a grid of `10 x 10` sites, the checked run with
a budget of `11` iterations meets no fault. -/
theorem checked_run_agrees_on_example :
    exPbC2.siteCountX = 10 ∧ exPbC2.siteCountY = 10 ∧
    exPbC2.initInstsForFragmentedRowChecked exDbC2 11 =
      Except.ok (exPbC2.initInstsForFragmentedRow exDbC2) :=
  ⟨by decide, by decide,
    checked_run_agrees exPbC2 exDbC2 (by decide) (by decide) (by decide) (by decide) (by decide)
      11 (by decide)⟩

/-! ### A grid whose number of sites does not fit an `int` -/

theorem forRange_first {σ : Type} (lo hi : Int) (body : Int → σ → σ) (s : σ) (h : lo < hi) :
    forRange lo hi body s = forRange (lo + 1) hi body (body lo s) := by
  unfold forRange
  have hn : (hi - lo).toNat = (hi - (lo + 1)).toNat + 1 := by omega
  rw [hn, List.range_succ_eq_map, List.foldl_cons, List.foldl_map]
  have hf : (fun (acc : σ) (k : Nat) => body (lo + ((Nat.succ k : Nat) : Int)) acc) =
      (fun (acc : σ) (k : Nat) => body (lo + 1 + (k : Int)) acc) := by
    funext acc k
    congr 1
    push_cast
    omega
  simp only [Nat.cast_zero, add_zero]
  rw [hf]

theorem writeColumn_error (X Y i lo hi : Int) (v : PlaceInfo) (e : GridFault) :
    forRange lo hi
      (fun j (g2 : Except GridFault (List PlaceInfo)) =>
        g2.bind (fun cells => writeCell cells X Y i j v)) (Except.error e) = Except.error e :=
  forRange_induction (fun _ s => s = Except.error e) lo hi _ _ rfl
    (by rintro j t _ _ rfl; rfl)

theorem markCellsChecked_error (X Y : Int) (pX pY : Int × Int) (v : PlaceInfo) (e : GridFault) :
    markCellsChecked X Y pX pY v (Except.error e) = Except.error e := by
  unfold markCellsChecked
  exact forRange_induction (fun _ s => s = Except.error e) pX.1 pX.2 _ _ rfl
    (by
      rintro i t _ _ rfl
      exact writeColumn_error X Y i pY.1 pY.2 v e)

theorem markFixedChecked_error (pb : PlacerBase) (db : dbBlock) (e : GridFault) :
    pb.markFixedChecked db (Except.error e) = Except.error e := by
  unfold PlacerBase.markFixedChecked
  induction pb.instStor_ with
  | nil => rfl
  | cons inst t ih =>
    rw [List.foldl_cons]
    by_cases hf : (!(inst.isFixed db)) = true
    · simp only [hf, if_true]
      exact ih
    · simp only [hf, if_false]
      rw [markCellsChecked_error]
      exact ih

theorem writeCell_fault (grid : List PlaceInfo) (X Y i j : Int) (v : PlaceInfo)
    (h : ¬ cellIndex X i j < (grid.length : Int)) :
    writeCell grid X Y i j v = Except.error GridFault.outOfBounds := by
  unfold writeCell
  rw [if_neg (fun hc => h hc.2.2.2)]

theorem writeColumn_leaves_vector (g : List PlaceInfo) (hlen : g.length = 65536) :
    forRange 0 65537
      (fun j (g2 : Except GridFault (List PlaceInfo)) =>
        g2.bind (fun cells => writeCell cells 65536 65537 0 j PlaceInfo.Row)) (Except.ok g) =
      Except.error GridFault.outOfBounds := by
  have hsize : wrap32 (65536 * 65537) = 65536 := by decide
  have hidx0 : cellIndex 65536 0 0 = 0 := by decide
  have hidx1 : cellIndex 65536 0 (0 + 1) = 65536 := by decide
  have hw0 : writeCell g 65536 65537 0 0 PlaceInfo.Row =
      Except.ok (gridSet g (cellIndex 65536 0 0) PlaceInfo.Row) := by
    unfold writeCell
    rw [if_pos]
    unfold cellInGrid
    rw [hidx0, hsize, hlen]
    decide
  have hw1 : writeCell (gridSet g (cellIndex 65536 0 0) PlaceInfo.Row) 65536 65537 0 (0 + 1)
      PlaceInfo.Row = Except.error GridFault.outOfBounds := by
    apply writeCell_fault
    rw [hidx1, length_gridSet, hlen]
    decide
  rw [forRange_first _ _ _ _ (by decide), forRange_first _ _ _ _ (by decide)]
  show forRange (0 + 1 + 1) 65537 _
    (((Except.ok g).bind (fun cells => writeCell cells 65536 65537 0 0 PlaceInfo.Row)).bind
      (fun cells => writeCell cells 65536 65537 0 (0 + 1) PlaceInfo.Row)) = _
  have hstep : ((Except.ok g : Except GridFault (List PlaceInfo)).bind
      (fun cells => writeCell cells 65536 65537 0 0 PlaceInfo.Row)).bind
      (fun cells => writeCell cells 65536 65537 0 (0 + 1) PlaceInfo.Row) =
      Except.error GridFault.outOfBounds := by
    show (writeCell g 65536 65537 0 0 PlaceInfo.Row).bind _ = _
    rw [hw0]
    exact hw1
  rw [hstep]
  exact writeColumn_error _ _ _ _ _ _ _

theorem markRowsChecked_single (pb : PlacerBase) (db : dbBlock) (row : dbRow)
    (h : db.rows = [row]) (g : Except GridFault (List PlaceInfo)) :
    pb.markRowsChecked db g =
      markCellsChecked pb.siteCountX pb.siteCountY
        (pb.idxRanges row.bbox.xMin row.bbox.yMin row.bbox.xMax row.bbox.yMax).1
        (pb.idxRanges row.bbox.xMin row.bbox.yMin row.bbox.xMax row.bbox.yMax).2
        PlaceInfo.Row g := by
  unfold PlacerBase.markRowsChecked
  rw [h]
  rfl

/-- C24, on the code: the database `exDbC24` has one row of `65536 x 65537`
sites of size `1 x 1`, so the core is ordered and the site sizes are positive.
`PlacerBase::init` calls `initInstsForFragmentedRow` with
`siteCountX = 65536` and `siteCountY = 65537`; the `int` product
`siteCountX * siteCountY` is `65536`, so `siteGrid` holds `65536` cells. The
row loop runs `i` over `[0, 65536)` and `j` over `[0, 65537)`: its second
write, at `i = 0` and `j = 1`, has the index `1 * 65536 + 0 = 65536`, which is
the size of the vector. The checked run ends there with an access outside the
vector, whatever the iteration budget of the scan is. -/
theorem C24_site_count_product_overflows :
    (0 < exPbC24.siteSizeX_ ∧ 0 < exPbC24.siteSizeY_ ∧
      exPbC24.die_.coreLx ≤ exPbC24.die_.coreUx ∧ exPbC24.die_.coreLy ≤ exPbC24.die_.coreUy) ∧
    exPbC24.siteCountX = 65536 ∧ exPbC24.siteCountY = 65537 ∧
    exPbC24.siteCountX * exPbC24.siteCountY = 4295032832 ∧
    allocGrid exPbC24.siteCountX exPbC24.siteCountY =
      Except.ok (List.replicate 65536 PlaceInfo.Empty) ∧
    exPbC24.idxRanges 0 0 65536 65537 = ((0, 65536), (0, 65537)) ∧
    cellIndex exPbC24.siteCountX 0 1 = 65536 ∧
    ∀ fuel : Nat, exPbC24.initInstsForFragmentedRowChecked exDbC24 fuel =
      Except.error GridFault.outOfBounds := by
  have hX : exPbC24.siteCountX = 65536 := by decide
  have hY : exPbC24.siteCountY = 65537 := by decide
  have hR : exPbC24.idxRanges 0 0 65536 65537 = ((0, 65536), (0, 65537)) := by decide
  have hA : allocGrid 65536 65537 = Except.ok (List.replicate 65536 PlaceInfo.Empty) := by
    unfold allocGrid
    have hsize : wrap32 (65536 * 65537) = 65536 := by decide
    have hnat : (65536 : Int).toNat = 65536 := by decide
    rw [hsize, if_pos (by decide), hnat]
  refine ⟨by decide, hX, hY, by rw [hX, hY]; decide, by rw [hX, hY]; exact hA, hR,
    by rw [hX]; decide, ?_⟩
  intro fuel
  have hrows := markRowsChecked_single exPbC24 exDbC24 ⟨⟨0, 0, 65536, 65537⟩, 1, 1⟩ rfl
    (allocGrid exPbC24.siteCountX exPbC24.siteCountY)
  simp only [] at hrows
  have hmark : exPbC24.markRowsChecked exDbC24
      (allocGrid exPbC24.siteCountX exPbC24.siteCountY) =
      Except.error GridFault.outOfBounds := by
    rw [hrows, hR, hX, hY, hA]
    unfold markCellsChecked
    rw [forRange_first _ _ _ _ (by decide)]
    show forRange (0 + 1) 65536 _
      (forRange 0 65537
        (fun j (g2 : Except GridFault (List PlaceInfo)) =>
          g2.bind (fun cells => writeCell cells 65536 65537 0 j PlaceInfo.Row))
        (Except.ok (List.replicate 65536 PlaceInfo.Empty))) = _
    rw [writeColumn_leaves_vector _ (List.length_replicate _ _)]
    exact markCellsChecked_error 65536 65537 (0 + 1, 65536) (0, 65537) PlaceInfo.Row _
  unfold PlacerBase.initInstsForFragmentedRowChecked
  rw [hmark, markFixedChecked_error]
  rfl

/-! ## C25: the non-placeable area and the core area -/

theorem initInstStep_nonPlace (db : dbBlock) (pb : PlacerBase) (k : Nat) (inst : Instance) :
    (pb.initInstStep db k inst).nonPlaceInstsArea_ =
      pb.nonPlaceInstsArea_ + nonPlaceShare pb.die_ db inst := by
  unfold PlacerBase.initInstStep nonPlaceShare fixedKept Instance.isDummy Instance.isInstance
  cases h1 : inst.inst_ <;> cases h2 : inst.isFixed db <;>
    cases h3 : isCoreAreaOverlap pb.die_ inst <;>
    by_cases h4 : inst.dy > pb.siteSizeY_ * 6 <;> simp [h4]

theorem initInstPtrs_nonPlace (db : dbBlock) (l : List Instance) (k0 : Nat) (pb : PlacerBase) :
    (foldlIdx (PlacerBase.initInstStep db) k0 pb l).nonPlaceInstsArea_ =
      pb.nonPlaceInstsArea_ + (l.map (nonPlaceShare pb.die_ db)).sum := by
  induction l generalizing k0 pb with
  | nil => simp [foldlIdx]
  | cons a t ih =>
    simp only [foldlIdx, List.map_cons, List.sum_cons]
    rw [ih, initInstStep_nonPlace, (initInstStep_effect db pb k0 a).1]
    omega

theorem initInstStep_siteSizeX (db : dbBlock) (pb : PlacerBase) (k : Nat) (inst : Instance) :
    (pb.initInstStep db k inst).siteSizeX_ = pb.siteSizeX_ := by
  unfold PlacerBase.initInstStep
  simp only
  split
  · split
    · split <;> rfl
    · split <;> rfl
  · split <;> rfl

/-- The model that `PlacerBase::init` builds, in terms of the model `q` on
which it calls `initInstsForFragmentedRow` and the runs of the scan. -/
theorem init_nonPlace (db : dbBlock) (pb : PlacerBase) (h : PlacerBase.ofDb db = some pb) :
    ∃ (q : PlacerBase) (runs : List (Int × Int × Int)) (f : Instance → Instance),
      (pb.die_ = q.die_ ∧ pb.siteSizeX_ = q.siteSizeX_ ∧ pb.siteSizeY_ = q.siteSizeY_) ∧
      q.instStor_ = (List.range db.insts.length).map (Instance.ofDb db) ∧
      (∀ r ∈ runs, (0 ≤ r.1 ∧ r.1 < q.siteCountY) ∧
        isMaximalRun (q.siteGrid db) q.siteCountX r.1 r.2.1 r.2.2) ∧
      runs.Pairwise runBefore ∧
      (pb.instStor_ = (q.instStor_ ++ runs.map q.fillerOfRun).map f ∧
        ∀ a, (f a).inst_ = a.inst_ ∧ (f a).rect = a.rect) ∧
      pb.fixedInsts_ = (((q.instStor_ ++ runs.map q.fillerOfRun).enum.filter
        (fun e => fixedKept pb.die_ db e.2)).map Prod.fst) ∧
      pb.nonPlaceInstsArea_ =
        ((q.instStor_ ++ runs.map q.fillerOfRun).map (nonPlaceShare pb.die_ db)).sum := by
  obtain ⟨firstRow, p4, p5, p6, p7, p8, hfr, h4, h5, h6, h7, h8, h9⟩ := init_some _ db pb h
  obtain ⟨firstRow2, p4b, hfr2, h4b, hdie, hside, hinst⟩ := init_instSide _ db pb h
  have hrow : firstRow2 = firstRow := by
    rw [hfr] at hfr2
    exact (Option.some.inj hfr2).symm
  subst hrow
  have hp : p4b = p4 := by rw [h4, h4b]
  subst hp
  obtain ⟨runs, p1, p2, _, p3⟩ := scanGrid_runs
    (({ PlacerBase.mk0 with db_ := true } : PlacerBase).initStor db firstRow2)
    ((({ PlacerBase.mk0 with db_ := true } : PlacerBase).initStor db firstRow2).siteGrid db)
    (({ PlacerBase.mk0 with db_ := true } : PlacerBase).initStor db firstRow2).instStor_
  have hq4 : p4b.instStor_ =
      (({ PlacerBase.mk0 with db_ := true } : PlacerBase).initStor db firstRow2).instStor_ ++
        runs.map (({ PlacerBase.mk0 with db_ := true } : PlacerBase).initStor db
          firstRow2).fillerOfRun := by
    rw [h4]
    exact p1
  have hqs : (({ PlacerBase.mk0 with db_ := true } : PlacerBase).initStor db firstRow2).instStor_ =
      (List.range db.insts.length).map (Instance.ofDb db) := by
    unfold PlacerBase.initStor PlacerBase.mk0
    simp
  have hd4 : p4b.die_ =
      (({ PlacerBase.mk0 with db_ := true } : PlacerBase).initStor db firstRow2).die_ := by
    rw [h4]; rfl
  have hx4 : p4b.siteSizeX_ =
      (({ PlacerBase.mk0 with db_ := true } : PlacerBase).initStor db firstRow2).siteSizeX_ := by
    rw [h4]; rfl
  have hy4 : p4b.siteSizeY_ =
      (({ PlacerBase.mk0 with db_ := true } : PlacerBase).initStor db firstRow2).siteSizeY_ := by
    rw [h4]; rfl
  have hn4 : p4b.nonPlaceInstsArea_ = 0 := by rw [h4]; rfl
  obtain ⟨g1, _⟩ := initStor_fresh db firstRow2
  rw [← h4] at g1
  obtain ⟨l1, _, _, _, _, _, _⟩ := initInstPtrs_place db p4b.instStor_ 0 p4b
  obtain ⟨_, m2, m3, _⟩ := initInstPtrs_lists db p4b.instStor_ 0 p4b
  have lx := foldlIdx_preserves PlacerBase.siteSizeX_ (PlacerBase.initInstStep db)
    (initInstStep_siteSizeX db) p4b.instStor_ 0 p4b
  have la := initInstPtrs_nonPlace db p4b.instStor_ 0 p4b
  rw [g1, List.nil_append] at m3
  rw [hn4, zero_add] at la
  unfold PlacerBase.instSide at hside
  simp only [Prod.mk.injEq] at hside
  obtain ⟨s1, s2, s3, s4, s5, s6, s7, s8, s9, s10, s11, s12, s13⟩ := hside
  have e9 := initNetPins_frame db p8
  rw [← h9] at e9
  have e7 := initPinMap_frame p6
  rw [← h7] at e7
  have e6 := initNets_frame db p5
  rw [← h6] at e6
  have hstor : pb.instStor_ = p4b.instStor_.map (p7.fillInstPins db) := by
    rw [e9.2.1, h8]
    show p7.instStor_.map (p7.fillInstPins db) = _
    rw [e7.2.1, e6.2, h5]
    exact congrArg _ m2
  refine ⟨_, runs, p7.fillInstPins db, ⟨?_, ?_, ?_⟩, hqs, p2, p3, ⟨?_, ?_⟩, ?_, ?_⟩
  · rw [hdie, hd4]
  · rw [s2, lx, hx4]
  · rw [s3, l1, hy4]
  · rw [hstor, hq4]
  · intro a
    exact fillInstPins_keeps p7 db a
  · rw [s6, m3, hdie, hq4]; rfl
  · rw [s10, la, hdie, hq4]

theorem card_unitCells (r : Rect) (hx : r.xMin ≤ r.xMax) (hy : r.yMin ≤ r.yMax) :
    ((unitCells r).card : Int) = (r.xMax - r.xMin) * (r.yMax - r.yMin) := by
  unfold unitCells
  rw [Finset.card_product, Int.card_Ico, Int.card_Ico]
  push_cast
  rw [Int.toNat_of_nonneg (by omega), Int.toNat_of_nonneg (by omega)]

theorem mem_unitCells (r : Rect) (p : Int × Int) :
    p ∈ unitCells r ↔ (r.xMin ≤ p.1 ∧ p.1 < r.xMax) ∧ (r.yMin ≤ p.2 ∧ p.2 < r.yMax) := by
  unfold unitCells
  rw [Finset.mem_product, Finset.mem_Ico, Finset.mem_Ico]

theorem disjoint_foldr_union {ι : Type} (A : ι → Finset (Int × Int)) (B : Finset (Int × Int))
    (t : List ι) (h : ∀ x ∈ t, Disjoint B (A x)) :
    Disjoint B (t.foldr (fun x acc => A x ∪ acc) ∅) := by
  induction t with
  | nil => simp
  | cons c r ih =>
    simp only [List.foldr_cons]
    rw [Finset.disjoint_union_right]
    exact ⟨h c (List.mem_cons_self _ _), ih (fun x hx => h x (List.mem_cons_of_mem _ hx))⟩

theorem sum_le_card_of_disjoint {ι : Type} (L : List ι) (w : ι → Int)
    (A : ι → Finset (Int × Int)) (S : Finset (Int × Int))
    (hw : ∀ x ∈ L, w x ≤ ((A x).card : Int)) (hsub : ∀ x ∈ L, A x ⊆ S)
    (hdis : L.Pairwise (fun x y => Disjoint (A x) (A y))) :
    (L.map w).sum ≤ (S.card : Int) := by
  have key : (L.map w).sum ≤ (((L.foldr (fun x acc => A x ∪ acc) ∅).card : Nat) : Int) ∧
      L.foldr (fun x acc => A x ∪ acc) ∅ ⊆ S := by
    induction L with
    | nil => simp
    | cons a t ih =>
      rw [List.pairwise_cons] at hdis
      obtain ⟨i1, i2⟩ := ih (fun x hx => hw x (List.mem_cons_of_mem _ hx))
        (fun x hx => hsub x (List.mem_cons_of_mem _ hx)) hdis.2
      have hd := disjoint_foldr_union A (A a) t hdis.1
      simp only [List.foldr_cons, List.map_cons, List.sum_cons]
      refine ⟨?_, Finset.union_subset (hsub a (List.mem_cons_self _ _)) i2⟩
      rw [Finset.card_union_of_disjoint hd]
      have := hw a (List.mem_cons_self _ _)
      push_cast
      omega
  have : (((L.foldr (fun x acc => A x ∪ acc) ∅).card : Nat) : Int) ≤ (S.card : Int) := by
    exact_mod_cast Finset.card_le_card key.2
  omega

theorem lt_of_mul_lt (a b s : Int) (hs : 0 < s) (h : a * s < b * s) : a < b := by
  by_contra hc
  have : b * s ≤ a * s := Int.mul_le_mul_of_nonneg_right (by omega) (le_of_lt hs)
  omega

theorem getMinMaxIdx_covers (lo hi coreLo s n u c : Int) (hs : 0 < s)
    (h1 : lo ≤ u) (h2 : u < hi) (h3 : c * s ≤ u - coreLo) (h4 : u - coreLo < (c + 1) * s)
    (h5 : 0 ≤ c) (h6 : c < n) :
    (getMinMaxIdx lo hi coreLo s 0 n).1 ≤ c ∧ c < (getMinMaxIdx lo hi coreLo s 0 n).2 := by
  have hu : 0 ≤ u - coreLo := by
    have : 0 ≤ c * s := Int.mul_nonneg h5 (le_of_lt hs)
    omega
  rw [getMinMaxIdx_lower lo coreLo s hi n hs, getMinMaxIdx_upper lo coreLo s hi n hs (by omega)]
  obtain ⟨f1, f2⟩ := floorDiv_spec (lo - coreLo) s hs
  obtain ⟨c1, c2⟩ := ceilDiv_spec (hi - coreLo) s hs
  have hf : floorDiv (lo - coreLo) s < c + 1 := lt_of_mul_lt _ _ s hs (by omega)
  have hcl : c < ceilDiv (hi - coreLo) s := lt_of_mul_lt _ _ s hs (by omega)
  omega

theorem siteCount_mul_le (pb : PlacerBase)
    (hsx : 0 < pb.siteSizeX_) (hsy : 0 < pb.siteSizeY_)
    (hcx : pb.die_.coreLx ≤ pb.die_.coreUx) (hcy : pb.die_.coreLy ≤ pb.die_.coreUy) :
    pb.siteCountX * pb.siteSizeX_ ≤ pb.die_.coreUx - pb.die_.coreLx ∧
    pb.siteCountY * pb.siteSizeY_ ≤ pb.die_.coreUy - pb.die_.coreLy := by
  unfold PlacerBase.siteCountX PlacerBase.siteCountY
  rw [tdiv_eq_floorDiv _ _ (by omega) hsx, tdiv_eq_floorDiv _ _ (by omega) hsy]
  exact ⟨(floorDiv_spec _ _ hsx).1, (floorDiv_spec _ _ hsy).1⟩

/-- The cells, the share and the rectangle of the filler of a maximal run. -/
theorem fillerOfRun_share (pb : PlacerBase) (db : dbBlock) (grid : List PlaceInfo)
    (hsx : 0 < pb.siteSizeX_) (hsy : 0 < pb.siteSizeY_)
    (hcx : pb.die_.coreLx ≤ pb.die_.coreUx) (hcy : pb.die_.coreLy ≤ pb.die_.coreUy)
    (r : Int × Int × Int) (hj : 0 ≤ r.1 ∧ r.1 < pb.siteCountY)
    (hrun : isMaximalRun grid pb.siteCountX r.1 r.2.1 r.2.2) :
    shareCells pb.die_ db (pb.fillerOfRun r) = unitCells (pb.fillerOfRun r).rect ∧
    nonPlaceShare pb.die_ db (pb.fillerOfRun r) =
      ((shareCells pb.die_ db (pb.fillerOfRun r)).card : Int) ∧
    shareCells pb.die_ db (pb.fillerOfRun r) ⊆ unitCells pb.die_.coreRect ∧
    0 ≤ nonPlaceShare pb.die_ db (pb.fillerOfRun r) := by
  obtain ⟨r1, r2, r3, _⟩ := hrun
  obtain ⟨m1, m2⟩ := siteCount_mul_le pb hsx hsy hcx hcy
  have hcells : shareCells pb.die_ db (pb.fillerOfRun r) = unitCells (pb.fillerOfRun r).rect := by
    unfold shareCells fixedKept PlacerBase.fillerOfRun Instance.ofRect Instance.isInstance
      Instance.isDummy
    simp
  have hshare : nonPlaceShare pb.die_ db (pb.fillerOfRun r) =
      (pb.fillerOfRun r).dx * (pb.fillerOfRun r).dy := by
    unfold nonPlaceShare fixedKept PlacerBase.fillerOfRun Instance.ofRect Instance.isInstance
      Instance.isDummy
    simp
  have e1 : pb.siteSizeX_ * r.2.1 ≤ pb.siteSizeX_ * r.2.2 :=
    Int.mul_le_mul_of_nonneg_left (by omega) (le_of_lt hsx)
  have e2 : pb.siteSizeY_ * r.1 ≤ pb.siteSizeY_ * (r.1 + 1) :=
    Int.mul_le_mul_of_nonneg_left (by omega) (le_of_lt hsy)
  have e3 : 0 ≤ pb.siteSizeX_ * r.2.1 := Int.mul_nonneg (le_of_lt hsx) r1
  have e4 : 0 ≤ pb.siteSizeY_ * r.1 := Int.mul_nonneg (le_of_lt hsy) hj.1
  have e5 : pb.siteSizeX_ * r.2.2 ≤ pb.siteSizeX_ * pb.siteCountX :=
    Int.mul_le_mul_of_nonneg_left r3 (le_of_lt hsx)
  have e6 : pb.siteSizeY_ * (r.1 + 1) ≤ pb.siteSizeY_ * pb.siteCountY :=
    Int.mul_le_mul_of_nonneg_left (by omega) (le_of_lt hsy)
  have e7 : pb.siteSizeX_ * pb.siteCountX = pb.siteCountX * pb.siteSizeX_ := mul_comm _ _
  have e8 : pb.siteSizeY_ * pb.siteCountY = pb.siteCountY * pb.siteSizeY_ := mul_comm _ _
  have hrect : (pb.fillerOfRun r).rect =
      ⟨pb.die_.coreLx + pb.siteSizeX_ * r.2.1, pb.die_.coreLy + pb.siteSizeY_ * r.1,
       pb.die_.coreLx + pb.siteSizeX_ * r.2.2, pb.die_.coreLy + pb.siteSizeY_ * (r.1 + 1)⟩ := rfl
  have hcard := card_unitCells (pb.fillerOfRun r).rect (by rw [hrect]; simp only; omega)
    (by rw [hrect]; simp only; omega)
  refine ⟨hcells, ?_, ?_, ?_⟩
  · rw [hcells, hcard, hshare]
    rfl
  · rw [hcells]
    intro p hp
    rw [mem_unitCells, hrect] at hp
    rw [mem_unitCells]
    simp only at hp
    unfold Die.coreRect
    simp only
    unfold Die.coreLx Die.coreLy Die.coreUx Die.coreUy at *
    omega
  · rw [hshare]
    have : (pb.fillerOfRun r).dx * (pb.fillerOfRun r).dy = ((unitCells (pb.fillerOfRun r).rect).card : Int) := by
      rw [hcard]; rfl
    rw [this]
    exact Int.natCast_nonneg _

/-- The cells and the share of a real instance. -/
theorem real_share (die : Die) (db : dbBlock) (inst : Instance) (hreal : inst.isDummy = false) :
    nonPlaceShare die db inst = ((shareCells die db inst).card : Int) ∧
    shareCells die db inst ⊆ unitCells die.coreRect ∧
    (∀ p ∈ shareCells die db inst, fixedKept die db inst = true ∧
      (inst.lx_ ≤ p.1 ∧ p.1 < inst.ux_) ∧ (inst.ly_ ≤ p.2 ∧ p.2 < inst.uy_) ∧
      (die.coreLx_ ≤ p.1 ∧ p.1 < die.coreUx_) ∧ (die.coreLy_ ≤ p.2 ∧ p.2 < die.coreUy_)) := by
  by_cases hk : fixedKept die db inst = true
  · have hov : (coreIntersection die inst).hasArea := by
      rw [← isCoreAreaOverlap_iff]
      unfold fixedKept at hk
      simp only [Bool.and_eq_true] at hk
      exact hk.2
    have hcells : shareCells die db inst = unitCells (coreIntersection die inst) := by
      unfold shareCells; rw [if_pos hk]
    have hshare : nonPlaceShare die db inst = getOverlapWithCoreArea die inst := by
      unfold nonPlaceShare; rw [if_pos hk]
    have hcard := card_unitCells (coreIntersection die inst) (le_of_lt hov.1) (le_of_lt hov.2)
    have hmem : ∀ p ∈ unitCells (coreIntersection die inst),
        (inst.lx_ ≤ p.1 ∧ p.1 < inst.ux_) ∧ (inst.ly_ ≤ p.2 ∧ p.2 < inst.uy_) ∧
        (die.coreLx_ ≤ p.1 ∧ p.1 < die.coreUx_) ∧ (die.coreLy_ ≤ p.2 ∧ p.2 < die.coreUy_) := by
      intro p hp
      rw [mem_unitCells] at hp
      unfold coreIntersection at hp
      simp only at hp
      omega
    refine ⟨?_, ?_, ?_⟩
    · rw [hcells, hcard, hshare]
      rfl
    · rw [hcells]
      intro p hp
      have := hmem p hp
      rw [mem_unitCells]
      unfold Die.coreRect
      simp only
      omega
    · intro p hp
      rw [hcells] at hp
      exact ⟨hk, hmem p hp⟩
  · have hcells : shareCells die db inst = ∅ := by
      unfold shareCells; rw [if_neg hk, hreal]; rfl
    have hshare : nonPlaceShare die db inst = 0 := by
      unfold nonPlaceShare; rw [if_neg hk, hreal]; rfl
    rw [hcells, hshare]
    exact ⟨by simp, Finset.empty_subset _, fun p hp => absurd hp (Finset.not_mem_empty p)⟩

theorem filler_filler_disjoint (pb : PlacerBase) (grid : List PlaceInfo)
    (hsx : 0 < pb.siteSizeX_) (hsy : 0 < pb.siteSizeY_) (a b : Int × Int × Int)
    (ha : isMaximalRun grid pb.siteCountX a.1 a.2.1 a.2.2)
    (hb : isMaximalRun grid pb.siteCountX b.1 b.2.1 b.2.2) (hab : runBefore a b) :
    Disjoint (unitCells (pb.fillerOfRun a).rect) (unitCells (pb.fillerOfRun b).rect) := by
  rw [Finset.disjoint_left]
  intro p hpa hpb
  rw [mem_unitCells] at hpa hpb
  have ra : (pb.fillerOfRun a).rect =
      ⟨pb.die_.coreLx + pb.siteSizeX_ * a.2.1, pb.die_.coreLy + pb.siteSizeY_ * a.1,
       pb.die_.coreLx + pb.siteSizeX_ * a.2.2, pb.die_.coreLy + pb.siteSizeY_ * (a.1 + 1)⟩ := rfl
  have rb : (pb.fillerOfRun b).rect =
      ⟨pb.die_.coreLx + pb.siteSizeX_ * b.2.1, pb.die_.coreLy + pb.siteSizeY_ * b.1,
       pb.die_.coreLx + pb.siteSizeX_ * b.2.2, pb.die_.coreLy + pb.siteSizeY_ * (b.1 + 1)⟩ := rfl
  rw [ra] at hpa
  rw [rb] at hpb
  simp only at hpa hpb
  obtain ⟨a1, a2, a3, a4, a5, a6⟩ := ha
  obtain ⟨b1, b2, b3, b4, b5, b6⟩ := hb
  rcases hab with h | ⟨h1, h2⟩
  · have : pb.siteSizeY_ * (a.1 + 1) ≤ pb.siteSizeY_ * b.1 :=
      Int.mul_le_mul_of_nonneg_left (by omega) (le_of_lt hsy)
    omega
  · have hle : a.2.2 ≤ b.2.1 := by
      by_contra hc
      have hE := a4 (b.2.1 - 1) (by omega) (by omega)
      rcases b5 with h5 | h5
      · omega
      · rw [h1] at hE
        exact h5 hE
    have : pb.siteSizeX_ * a.2.2 ≤ pb.siteSizeX_ * b.2.1 :=
      Int.mul_le_mul_of_nonneg_left hle (le_of_lt hsx)
    omega

theorem real_filler_disjoint (pb : PlacerBase) (db : dbBlock)
    (hsx : 0 < pb.siteSizeX_) (hsy : 0 < pb.siteSizeY_)
    (hcx : pb.die_.coreLx ≤ pb.die_.coreUx) (hcy : pb.die_.coreLy ≤ pb.die_.coreUy)
    (x : Instance) (hx : x ∈ pb.instStor_) (hreal : x.isDummy = false)
    (r : Int × Int × Int) (hj : 0 ≤ r.1 ∧ r.1 < pb.siteCountY)
    (hrun : isMaximalRun (pb.siteGrid db) pb.siteCountX r.1 r.2.1 r.2.2) :
    Disjoint (shareCells pb.die_ db x) (unitCells (pb.fillerOfRun r).rect) := by
  obtain ⟨hX, hY⟩ := siteCount_nonneg pb hsx hsy hcx hcy
  rw [Finset.disjoint_left]
  intro p hpx hpr
  obtain ⟨hk, k1, k2, k3, k4⟩ := (real_share pb.die_ db x hreal).2.2 p hpx
  rw [mem_unitCells] at hpr
  have rr : (pb.fillerOfRun r).rect =
      ⟨pb.die_.coreLx + pb.siteSizeX_ * r.2.1, pb.die_.coreLy + pb.siteSizeY_ * r.1,
       pb.die_.coreLx + pb.siteSizeX_ * r.2.2, pb.die_.coreLy + pb.siteSizeY_ * (r.1 + 1)⟩ := rfl
  rw [rr] at hpr
  simp only at hpr
  obtain ⟨r1, r2, r3, r4, _, _⟩ := hrun
  obtain ⟨f1, f2⟩ := floorDiv_spec (p.1 - pb.die_.coreLx) pb.siteSizeX_ hsx
  have e1 : pb.siteSizeX_ * r.2.1 = r.2.1 * pb.siteSizeX_ := mul_comm _ _
  have e2 : pb.siteSizeX_ * r.2.2 = r.2.2 * pb.siteSizeX_ := mul_comm _ _
  have e3 : pb.siteSizeY_ * r.1 = r.1 * pb.siteSizeY_ := mul_comm _ _
  have e4 : pb.siteSizeY_ * (r.1 + 1) = (r.1 + 1) * pb.siteSizeY_ := mul_comm _ _
  have hs : r.2.1 < floorDiv (p.1 - pb.die_.coreLx) pb.siteSizeX_ + 1 :=
    lt_of_mul_lt _ _ _ hsx (by omega)
  have he : floorDiv (p.1 - pb.die_.coreLx) pb.siteSizeX_ < r.2.2 :=
    lt_of_mul_lt _ _ _ hsx (by omega)
  have hE := r4 (floorDiv (p.1 - pb.die_.coreLx) pb.siteSizeX_) (by omega) he
  have hfix : x.isFixed db = true := by
    unfold fixedKept at hk
    simp only [Bool.and_eq_true] at hk
    exact hk.1.2
  have hno := (((siteGrid_spec pb db hX hY).2 (floorDiv (p.1 - pb.die_.coreLx) pb.siteSizeX_) r.1
    ⟨by omega, by omega⟩ hj).mp hE).2 x hx hfix
  apply hno
  unfold inIdxRanges PlacerBase.idxRanges Instance.lx Instance.ly Instance.ux Instance.uy
  simp only
  unfold Die.coreLx Die.coreLy at *
  exact ⟨getMinMaxIdx_covers _ _ _ _ _ p.1 _ hsx k1.1 k1.2 f1 f2 (by omega) (by omega),
    getMinMaxIdx_covers _ _ _ _ _ p.2 _ hsy k2.1 k2.2 (by omega) (by omega) hj.1 hj.2⟩

theorem shares_le_core (pb : PlacerBase) (db : dbBlock)
    (hsx : 0 < pb.siteSizeX_) (hsy : 0 < pb.siteSizeY_)
    (hcx : pb.die_.coreLx ≤ pb.die_.coreUx) (hcy : pb.die_.coreLy ≤ pb.die_.coreUy)
    (hreal : ∀ x ∈ pb.instStor_, x.isDummy = false)
    (hno : pb.instStor_.Pairwise (fun x y =>
      fixedKept pb.die_ db x = true → fixedKept pb.die_ db y = true → ¬ x.rect.overlaps y.rect))
    (runs : List (Int × Int × Int))
    (hruns : ∀ r ∈ runs, (0 ≤ r.1 ∧ r.1 < pb.siteCountY) ∧
      isMaximalRun (pb.siteGrid db) pb.siteCountX r.1 r.2.1 r.2.2)
    (hord : runs.Pairwise runBefore) :
    ((pb.instStor_ ++ runs.map pb.fillerOfRun).map (nonPlaceShare pb.die_ db)).sum ≤
      (pb.die_.coreUx - pb.die_.coreLx) * (pb.die_.coreUy - pb.die_.coreLy) := by
  have hcard := card_unitCells pb.die_.coreRect hcx hcy
  have hcore : (pb.die_.coreUx - pb.die_.coreLx) * (pb.die_.coreUy - pb.die_.coreLy) =
      ((unitCells pb.die_.coreRect).card : Int) := by
    rw [hcard]; rfl
  rw [hcore]
  apply sum_le_card_of_disjoint _ _ (shareCells pb.die_ db)
  · intro x hx
    rcases List.mem_append.mp hx with h | h
    · exact le_of_eq (real_share pb.die_ db x (hreal x h)).1
    · obtain ⟨r, hr, rfl⟩ := List.mem_map.mp h
      exact le_of_eq (fillerOfRun_share pb db _ hsx hsy hcx hcy r (hruns r hr).1 (hruns r hr).2).2.1
  · intro x hx
    rcases List.mem_append.mp hx with h | h
    · exact (real_share pb.die_ db x (hreal x h)).2.1
    · obtain ⟨r, hr, rfl⟩ := List.mem_map.mp h
      exact (fillerOfRun_share pb db _ hsx hsy hcx hcy r (hruns r hr).1 (hruns r hr).2).2.2.1
  · rw [List.pairwise_append]
    refine ⟨?_, ?_, ?_⟩
    · refine List.Pairwise.imp_of_mem ?_ hno
      intro x y hx hy hxy
      rw [Finset.disjoint_left]
      intro p hpx hpy
      obtain ⟨kx, a1, a2, _, _⟩ := (real_share pb.die_ db x (hreal x hx)).2.2 p hpx
      obtain ⟨ky, b1, b2, _, _⟩ := (real_share pb.die_ db y (hreal y hy)).2.2 p hpy
      apply hxy kx ky
      unfold Rect.overlaps Instance.rect
      simp only
      omega
    · rw [List.pairwise_map]
      refine List.Pairwise.imp_of_mem ?_ hord
      intro a b ha hb hab
      rw [(fillerOfRun_share pb db _ hsx hsy hcx hcy a (hruns a ha).1 (hruns a ha).2).1,
        (fillerOfRun_share pb db _ hsx hsy hcx hcy b (hruns b hb).1 (hruns b hb).2).1]
      exact filler_filler_disjoint pb _ hsx hsy a b (hruns a ha).2 (hruns b hb).2 hab
    · intro x hx y hy
      obtain ⟨r, hr, rfl⟩ := List.mem_map.mp hy
      rw [(fillerOfRun_share pb db _ hsx hsy hcx hcy r (hruns r hr).1 (hruns r hr).2).1]
      exact real_filler_disjoint pb db hsx hsy hcx hcy x hx (hreal x hx) r (hruns r hr).1
        (hruns r hr).2

theorem nonPlaceShare_congr (die : Die) (db : dbBlock) (a b : Instance)
    (h1 : a.inst_ = b.inst_) (h2 : a.rect = b.rect) :
    nonPlaceShare die db a = nonPlaceShare die db b := by
  obtain ⟨c1, c2, _, _, _⟩ := fixedKept_congr die db a b h1 h2
  unfold Instance.rect at h2
  simp only [Rect.mk.injEq] at h2
  unfold nonPlaceShare getOverlapWithCoreArea Instance.dx Instance.dy Instance.lx Instance.ly
    Instance.ux Instance.uy
  rw [c1, c2, h2.1, h2.2.1, h2.2.2.1, h2.2.2.2]

theorem Rect.overlaps_symm (a b : Rect) : a.overlaps b → b.overlaps a := by
  unfold Rect.overlaps
  intro h
  omega

/-- C25 fails on the code: in the model built from `exDbC25`, whose core
`(0,0)-(20,10)` has the area `200` and is covered by each of two fixed
instances, the instance loop adds the clipped area `200` of either instance and
`nonPlaceInstsArea()` is `400`; the denominator
`coreArea - nonPlaceInstsArea_` of `printInfo` is `-200`. -/
theorem C25_counterexample :
    PlacerBase.ofDb exDbC25 = some exPbC25 ∧
    exPbC25.die_.coreRect = ⟨0, 0, 20, 10⟩ ∧
    exPbC25.fixedInsts_ = [0, 1] ∧ exPbC25.dummyInsts_ = [] ∧
    exPbC25.nonPlaceInstsArea_ = 400 ∧
    (exPbC25.die_.coreUx - exPbC25.die_.coreLx) * (exPbC25.die_.coreUy - exPbC25.die_.coreLy) =
      200 ∧
    ¬ exPbC25.nonPlaceInstsArea_ ≤
      (exPbC25.die_.coreUx - exPbC25.die_.coreLx) * (exPbC25.die_.coreUy - exPbC25.die_.coreLy) ∧
    (exPbC25.die_.coreUx - exPbC25.die_.coreLx) * (exPbC25.die_.coreUy - exPbC25.die_.coreLy) -
      exPbC25.nonPlaceInstsArea_ = -200 := by
  decide

/-- C25 (amended): after `PlacerBase::init` on an input with positive site
sizes and a core with `coreLx ≤ coreUx` and `coreLy ≤ coreUy`,
`nonPlaceInstsArea()` is the sum, over the stored instances, of the clipped
area of each fixed instance that overlaps the core and of the area of each
filler; if no two instances of `fixedInsts()` overlap each other, it is at
most `coreArea = (coreUx - coreLx) * (coreUy - coreLy)`, so that
`coreArea - nonPlaceInstsArea` is not negative. -/
theorem C25_nonPlaceArea_le_coreArea (db : dbBlock) (pb : PlacerBase)
    (h : PlacerBase.ofDb db = some pb)
    (hsx : 0 < pb.siteSizeX_) (hsy : 0 < pb.siteSizeY_)
    (hcx : pb.die_.coreLx ≤ pb.die_.coreUx) (hcy : pb.die_.coreLy ≤ pb.die_.coreUy)
    (hapart : pb.fixedInstsApart) :
    pb.nonPlaceInstsArea_ = (pb.instStor_.map (nonPlaceShare pb.die_ db)).sum ∧
    pb.nonPlaceInstsArea_ ≤
      (pb.die_.coreUx - pb.die_.coreLx) * (pb.die_.coreUy - pb.die_.coreLy) ∧
    0 ≤ (pb.die_.coreUx - pb.die_.coreLx) * (pb.die_.coreUy - pb.die_.coreLy) -
      pb.nonPlaceInstsArea_ := by
  obtain ⟨q, runs, f, ⟨d1, d2, d3⟩, hqs, hruns, hord, ⟨hstor, hf⟩, hfix, harea⟩ :=
    init_nonPlace db pb h
  have hmap : pb.instStor_.map (nonPlaceShare pb.die_ db) =
      (q.instStor_ ++ runs.map q.fillerOfRun).map (nonPlaceShare pb.die_ db) := by
    rw [hstor, List.map_map]
    apply List.map_congr_left
    intro a _
    exact nonPlaceShare_congr pb.die_ db (f a) a (hf a).1 (hf a).2
  have hreal : ∀ x ∈ q.instStor_, x.isDummy = false := by
    intro x hx
    rw [hqs] at hx
    obtain ⟨k, _, rfl⟩ := List.mem_map.mp hx
    rfl
  have hsym : Symmetric (fun a b : Nat =>
      ¬ (pb.instAt a).rect.overlaps (pb.instAt b).rect) :=
    fun a b hab hba => hab (Rect.overlaps_symm _ _ hba)
  have hall := List.Pairwise.forall hsym hapart
  have hno : q.instStor_.Pairwise (fun x y =>
      fixedKept q.die_ db x = true → fixedKept q.die_ db y = true → ¬ x.rect.overlaps y.rect) := by
    rw [List.pairwise_iff_getElem]
    intro i j hi hj hij kx ky
    have gi : (q.instStor_ ++ runs.map q.fillerOfRun)[i]? = some q.instStor_[i] := by
      rw [List.getElem?_append_left hi, List.getElem?_eq_getElem hi]
    have gj : (q.instStor_ ++ runs.map q.fillerOfRun)[j]? = some q.instStor_[j] := by
      rw [List.getElem?_append_left hj, List.getElem?_eq_getElem hj]
    have mi : i ∈ pb.fixedInsts_ := by
      rw [hfix, mem_filter_enum]
      exact ⟨_, gi, by rw [d1]; exact kx⟩
    have mj : j ∈ pb.fixedInsts_ := by
      rw [hfix, mem_filter_enum]
      exact ⟨_, gj, by rw [d1]; exact ky⟩
    have ri : (pb.instAt i).rect = (q.instStor_[i]).rect := by
      unfold PlacerBase.instAt
      rw [List.getD_eq_getElem?_getD, hstor, List.getElem?_map, gi]
      exact (hf _).2
    have rj : (pb.instAt j).rect = (q.instStor_[j]).rect := by
      unfold PlacerBase.instAt
      rw [List.getD_eq_getElem?_getD, hstor, List.getElem?_map, gj]
      exact (hf _).2
    have := hall mi mj (by omega)
    rw [ri, rj] at this
    exact this
  have hle := shares_le_core q db (by rw [← d2]; exact hsx) (by rw [← d3]; exact hsy)
    (by rw [← d1]; exact hcx) (by rw [← d1]; exact hcy) hreal hno runs hruns hord
  rw [← d1] at hle
  rw [← harea] at hle
  refine ⟨by rw [hmap]; exact harea, hle, by omega⟩

/-- In the model built from `exDbC5`, whose core `(0,0)-(100,100)` has the
fixed instances `(40,40)-(60,60)` and `(-10,-10)-(5,5)` in `fixedInsts()`, the
non-placeable area is `400 + 25 = 425`. -/
theorem C25_nonPlaceArea_le_coreArea_witness :
    PlacerBase.ofDb exDbC5 = some exPbC5 ∧ exPbC5.fixedInsts_ = [0, 2] ∧
    exPbC5.nonPlaceInstsArea_ = 425 ∧
    exPbC5.nonPlaceInstsArea_ ≤
      (exPbC5.die_.coreUx - exPbC5.die_.coreLx) * (exPbC5.die_.coreUy - exPbC5.die_.coreLy) :=
  ⟨by decide, by decide, by decide,
    (C25_nonPlaceArea_le_coreArea exDbC5 exPbC5 (by decide) (by decide) (by decide) (by decide)
      (by decide) (by decide)).2.1⟩

end replace
